import Mathlib

/-!
# MULTREGT region-transmissibility scanner

A shallow embedding of `opm/input/eclipse/EclipseState/Grid/MULTREGTScanner.cpp`.

Conventions of the embedding

* `double` multipliers are exact rationals (`ℚ`); the literals `0.75` and `2.50` are `3/4`
  and `5/2`, and `1.0` is `1`.
* `int` region IDs are `Int`; `std::size_t` cell indices and record positions are `Nat`.
* `std::map` is an association list kept in key order (`StdMap`), so that a range-`for`
  over a map visits the entries in the order of the list.
* `throw`, a failed `assert` and an out-of-range `operator[]` on a `std::vector` are the
  error results of `Except Error`.
-/

set_option autoImplicit false

namespace Opm

/-! ## Errors -/

/-- The ways in which the embedded code leaves the normal path. -/
inductive Error where
  /-- Stands for `throw std::logic_error`. -/
  | logic_error (what : String)
  /-- Stands for `throw std::invalid_argument`. -/
  | invalid_argument (what : String)
  /-- Stands for the `std::out_of_range` of `std::map::at`. -/
  | out_of_range
  /-- Stands for `std::vector::operator[]` past the end (undefined behaviour in the source). -/
  | index_out_of_bounds
  /-- Stands for a failed `assert`. -/
  | assertion_failed
  deriving DecidableEq, Repr

deriving instance DecidableEq for Except

/-! ## `std::map` -/

namespace StdMap

/-- Lookup `std::map::find`: the value stored under key `k`, `none` for `end()`. -/
def find {κ ν : Type} [DecidableEq κ] (k : κ) : List (κ × ν) → Option ν
  | [] => none
  | (k', v) :: rest => if k' = k then some v else find k rest

/-- Overwriting the value stored under the key `k`, for a key that is present. -/
def replace {κ ν : Type} [DecidableEq κ] (k : κ) (v : ν) : List (κ × ν) → List (κ × ν)
  | [] => []
  | (k', v') :: rest => if k' = k then (k', v) :: rest else (k', v') :: replace k v rest

/-- Insertion of a new key `k`, in front of the first larger key. -/
def insert {κ ν : Type} (lt : κ → κ → Bool) (k : κ) (v : ν) : List (κ × ν) → List (κ × ν)
  | [] => [(k, v)]
  | (k', v') :: rest =>
      if lt k k' then (k, v) :: (k', v') :: rest else (k', v') :: insert lt k v rest

/-- Assignment `m[k] = v`: the value under an existing key is overwritten in place, a key
that is not present is inserted at its place in the key order. -/
def assign {κ ν : Type} [DecidableEq κ] (lt : κ → κ → Bool) (k : κ) (v : ν)
    (m : List (κ × ν)) : List (κ × ν) :=
  if (find k m).isSome then replace k v m else insert lt k v m

/-- Order of `std::pair<int,int>`: lexicographic. -/
def pairLt (a b : Int × Int) : Bool :=
  decide (a.1 < b.1) || (decide (a.1 = b.1) && decide (a.2 < b.2))

/-- Lexicographic order on character sequences, by code point. -/
def charsLt : List Char → List Char → Bool
  | _, [] => false
  | [], _ :: _ => true
  | a :: as, b :: bs =>
      if a.toNat < b.toNat then true
      else if b.toNat < a.toNat then false
      else charsLt as bs

/-- Order of `std::string`: lexicographic. -/
def strLt (a b : String) : Bool := charsLt a.data b.data

end StdMap

/-! ## Face directions -/

namespace FaceDir

/-- Modelled from the spec: `FaceDir.hpp` is not among the sources.  The six face
orientations (the positive and the negative sense of the three axes) of the bitmask of
eligible directions. -/
inductive DirEnum where
  | XPlus | XMinus | YPlus | YMinus | ZPlus | ZMinus
  deriving DecidableEq, Repr

/-- Modelled from the spec: `FaceDir.hpp` is not among the sources.  Every face orientation
is one bit of the direction bitmask. -/
def DirEnum.toNat : DirEnum → Nat
  | .XPlus => 1
  | .XMinus => 2
  | .YPlus => 4
  | .YMinus => 8
  | .ZPlus => 16
  | .ZMinus => 32

/-- Modelled from the spec: `FaceDir.cpp` is not among the sources.  The direction string of
a record is parsed into an axis bitmask: every axis letter stands for both senses of the axis. -/
def FromMULTREGTString (stringValue : String) : Except Error Nat :=
  if stringValue = "X" then .ok (DirEnum.XPlus.toNat + DirEnum.XMinus.toNat)
  else if stringValue = "Y" then .ok (DirEnum.YPlus.toNat + DirEnum.YMinus.toNat)
  else if stringValue = "Z" then .ok (DirEnum.ZPlus.toNat + DirEnum.ZMinus.toNat)
  else if stringValue = "XY" then
    .ok (DirEnum.XPlus.toNat + DirEnum.YPlus.toNat + DirEnum.XMinus.toNat + DirEnum.YMinus.toNat)
  else if stringValue = "XZ" then
    .ok (DirEnum.XPlus.toNat + DirEnum.ZPlus.toNat + DirEnum.XMinus.toNat + DirEnum.ZMinus.toNat)
  else if stringValue = "YZ" then
    .ok (DirEnum.YPlus.toNat + DirEnum.ZPlus.toNat + DirEnum.YMinus.toNat + DirEnum.ZMinus.toNat)
  else if stringValue = "XYZ" then
    .ok (DirEnum.XPlus.toNat + DirEnum.YPlus.toNat + DirEnum.ZPlus.toNat
          + DirEnum.XMinus.toNat + DirEnum.YMinus.toNat + DirEnum.ZMinus.toNat)
  else .error (.invalid_argument ("The input string: " ++ stringValue ++ " was invalid."))

end FaceDir

/-! ## Collaborators -/

/-- Modelled from the spec: `GridDims.hpp` is not among the sources.  The grid-dimension
service decodes a global cell index into its structured coordinates `(i, j, k)`; the
coordinates are non-negative, which is what `is_adjacent` asserts of them. -/
structure GridDims where
  getIJK : Nat → Nat × Nat × Nat

/-- Modelled from the spec: `FieldPropsManager.hpp` is not among the sources.  The region
store: whether a named region set exists, its array of region IDs per global cell, and the
region IDs of its cells from which `addKeyword` takes the IDs that are present. -/
structure FieldPropsManager where
  has_int : String → Bool
  get_global_int : String → List Int
  get_int : String → List Int

/-- Modelled from the spec: `DeckItem.hpp` is not among the sources.  One item of a deck
record, already type-converted: whether the default was applied (`defaultApplied(0)`) and
the value that `get(0)` returns. -/
structure DeckItem (α : Type) where
  defaultApplied : Bool
  get : α
  deriving DecidableEq, Repr

/-- Modelled from the spec: `DeckRecord.hpp` and the keyword definition `MULTREGT` of
`ParserKeywords/M.hpp` are not among the sources.  The six items of a `MULTREGT` record under
the names by which `addKeyword` reads them. -/
structure DeckRecord where
  SRC_REGION : DeckItem Int
  TARGET_REGION : DeckItem Int
  TRAN_MULT : DeckItem ℚ
  DIRECTIONS : DeckItem String
  NNC_MULT : DeckItem String
  REGION_DEF : DeckItem String
  deriving DecidableEq, Repr

/-- Modelled from the spec: `DeckKeyword.hpp` is not among the sources.  A keyword is the
sequence of its records. -/
abbrev DeckKeyword := List DeckRecord

/-! ## Directives -/

namespace MULTREGT

/-- The NNC policy of a directive. -/
inductive NNCBehaviourEnum where
  | NNC | NONNC | ALL | NOAQUNNC
  deriving DecidableEq, Repr

/-- Source `MULTREGT::RegionNameFromDeckValue`. -/
def RegionNameFromDeckValue (stringValue : String) : Except Error String :=
  if stringValue = "O" then .ok "OPERNUM"
  else if stringValue = "F" then .ok "FLUXNUM"
  else if stringValue = "M" then .ok "MULTNUM"
  else .error (.invalid_argument
    ("The input string: " ++ stringValue ++ " was invalid. Expected: O/F/M"))

/-- Source `MULTREGT::NNCBehaviourFromString`. -/
def NNCBehaviourFromString (stringValue : String) : Except Error NNCBehaviourEnum :=
  if stringValue = "ALL" then .ok .ALL
  else if stringValue = "NNC" then .ok .NNC
  else if stringValue = "NONNC" then .ok .NONNC
  else if stringValue = "NOAQUNNC" then .ok .NOAQUNNC
  else .error (.invalid_argument
    ("The input string: " ++ stringValue ++ " was invalid. Expected: ALL/NNC/NONNC/NOAQUNNC"))

end MULTREGT

/-- One directive of the directive table (`MULTREGTRecord`), in the order of the aggregate
`{src_value, target_value, trans_mult, directions, nnc_behaviour, region_name}`. -/
structure MULTREGTRecord where
  src_value : Int
  target_value : Int
  trans_mult : ℚ
  directions : Nat
  nnc_behaviour : MULTREGT.NNCBehaviourEnum
  region_name : String
  deriving DecidableEq, Repr

/-- The inner map `MULTREGTSearchMap`: region pair to record position. -/
abbrev MULTREGTSearchMap := List ((Int × Int) × Nat)

/-- The state of a `MULTREGTScanner`. -/
structure MULTREGTScanner where
  gridDims : GridDims
  m_records : List MULTREGTRecord
  m_searchMap : List (String × MULTREGTSearchMap)
  regions : List (String × List Int)
  aquifer_cells : List Nat

/-! ## Adjacency -/

/-- Source `is_adjacent(int, int)`: `std::abs(x - y) == 1`.  The assertion
`(x >= 0) && (y >= 0)` holds at every call, the arguments being coordinates of `GridDims`. -/
def is_adjacent (x y : Int) : Bool := decide ((x - y).natAbs = 1)

/-- Source `is_adjacent(ijk1, ijk2, compIx)` for `compIx = {0, 1, 2}`. -/
def is_adjacent_I (ijk1 ijk2 : Nat × Nat × Nat) : Bool :=
  is_adjacent ijk1.1 ijk2.1 && decide (ijk1.2.1 = ijk2.2.1) && decide (ijk1.2.2 = ijk2.2.2)

/-- Source `is_adjacent(ijk1, ijk2, compIx)` for `compIx = {1, 2, 0}`. -/
def is_adjacent_J (ijk1 ijk2 : Nat × Nat × Nat) : Bool :=
  is_adjacent ijk1.2.1 ijk2.2.1 && decide (ijk1.2.2 = ijk2.2.2) && decide (ijk1.1 = ijk2.1)

/-- Source `is_adjacent(ijk1, ijk2, compIx)` for `compIx = {2, 0, 1}`. -/
def is_adjacent_K (ijk1 ijk2 : Nat × Nat × Nat) : Bool :=
  is_adjacent ijk1.2.2 ijk2.2.2 && decide (ijk1.1 = ijk2.1) && decide (ijk1.2.1 = ijk2.2.1)

/-- Source `is_adjacent(gridDims, gi1, gi2)`. -/
def is_adjacent_cells (gridDims : GridDims) (gi1 gi2 : Nat) : Bool :=
  let ijk1 := gridDims.getIJK gi1
  let ijk2 := gridDims.getIJK gi2
  is_adjacent_I ijk1 ijk2 || is_adjacent_J ijk1 ijk2 || is_adjacent_K ijk1 ijk2

/-! ## Sorting and removal of duplicates -/

/-- Library `std::sort` with the default order: the elements in non-decreasing order.  The
order being total, the result does not depend on the sorting algorithm. -/
def std_sort {α : Type} [LinearOrder α] (data : List α) : List α :=
  data.insertionSort (· ≤ ·)

/-- Library `std::unique` followed by `erase` of the tail: of every run of equal neighbours
the first element is kept. -/
def std_unique {α : Type} [DecidableEq α] : List α → List α
  | [] => []
  | [a] => [a]
  | a :: b :: rest => if a = b then std_unique (b :: rest) else a :: std_unique (b :: rest)

/-- Source `unique(std::vector<int>)` of the anonymous namespace. -/
def unique (data : List Int) : List Int :=
  std_unique (std_sort data)

/-! ## Aquifer cells -/

/-- Loop of `std::lower_bound` over the positions `[first, first + len)` of `xs`; the first
argument bounds the number of iterations and `len` iterations always suffice, the length of
the range being at least halved by each. -/
def lower_bound (xs : List Nat) (val : Nat) : Nat → Nat → Nat → Nat
  | 0, first, _ => first
  | fuel + 1, first, len =>
      if len = 0 then first
      else
        let half := len / 2
        let middle := first + half
        if xs.getD middle 0 < val then lower_bound xs val fuel (middle + 1) (len - half - 1)
        else lower_bound xs val fuel first half

/-- Library `std::binary_search(xs.begin(), xs.end(), val)`. -/
def binary_search (xs : List Nat) (val : Nat) : Bool :=
  let first := lower_bound xs val xs.length 0 xs.length
  decide (first ≠ xs.length) && !decide (val < xs.getD first 0)

namespace MULTREGTScanner

/-- Source `MULTREGTScanner::isAquCell`. -/
def isAquCell (s : MULTREGTScanner) (globalCellIdx : Nat) : Bool :=
  binary_search s.aquifer_cells globalCellIdx

/-- Source `MULTREGTScanner::isAquNNC`. -/
def isAquNNC (s : MULTREGTScanner) (globalCellIdx1 globalCellIdx2 : Nat) : Bool :=
  s.isAquCell globalCellIdx1 || s.isAquCell globalCellIdx2

/-- Source `MULTREGTScanner::applyNumericalAquifer`: append, sort, remove duplicates. -/
def applyNumericalAquifer (s : MULTREGTScanner) (aquifer_cells_arg : List Nat) :
    MULTREGTScanner :=
  { s with aquifer_cells := std_unique (std_sort (s.aquifer_cells ++ aquifer_cells_arg)) }

/-! ## Construction of the search index -/

/-- The pair under which the constructor files a record: `(src, target)` when
`src <= target`, `(target, src)` otherwise. -/
def orderedPair (srcRegion targetRegion : Int) : Int × Int :=
  if srcRegion ≤ targetRegion then (srcRegion, targetRegion) else (targetRegion, srcRegion)

/-- The locals that the first loop of the constructor updates: `searchPairs` and the member
`regions`. -/
structure CtorState where
  searchPairs : MULTREGTSearchMap
  regions : List (String × List Int)

/-- Body of the first loop of the constructor (source lines 157-182) for the record at
position `recordIx`. -/
def ctorRecord (fp : FieldPropsManager) (st : CtorState) (recordIx : Nat)
    (record : MULTREGTRecord) : Except Error CtorState :=
  let region_name := record.region_name
  if fp.has_int region_name then
    let srcRegion := record.src_value
    let targetRegion := record.target_value
    let searchPairs :=
      if srcRegion ≠ targetRegion then
        StdMap.assign StdMap.pairLt (orderedPair srcRegion targetRegion) recordIx st.searchPairs
      else st.searchPairs
    let regions :=
      if (StdMap.find region_name st.regions).isNone then
        StdMap.assign StdMap.strLt region_name (fp.get_global_int region_name) st.regions
      else st.regions
    .ok { searchPairs := searchPairs, regions := regions }
  else
    .error (.logic_error
      ("MULTREGT record is based on region: " ++ region_name ++ " which is not in the deck"))

/-- First loop of the constructor (source lines 156-183) over the records from position
`recordIx` on. -/
def ctorRecords (fp : FieldPropsManager) :
    Nat → List MULTREGTRecord → CtorState → Except Error CtorState
  | _, [], st => .ok st
  | recordIx, record :: rest, st =>
      match ctorRecord fp st recordIx record with
      | .error e => .error e
      | .ok st' => ctorRecords fp (recordIx + 1) rest st'

/-- Body of the second loop of the constructor (source lines 186-188):
`m_searchMap[keyword][regPair] = recordIx`. -/
def ctorSearchEntry (m_records : List MULTREGTRecord)
    (m_searchMap : List (String × MULTREGTSearchMap)) (regPair : Int × Int) (recordIx : Nat) :
    Except Error (List (String × MULTREGTSearchMap)) :=
  match m_records[recordIx]? with
  | none => .error .index_out_of_bounds
  | some record =>
      let keyword := record.region_name
      let inner := (StdMap.find keyword m_searchMap).getD []
      .ok (StdMap.assign StdMap.strLt keyword
            (StdMap.assign StdMap.pairLt regPair recordIx inner) m_searchMap)

/-- Second loop of the constructor (source lines 185-189) over the entries of `searchPairs`. -/
def ctorSearchMap (m_records : List MULTREGTRecord) :
    MULTREGTSearchMap → List (String × MULTREGTSearchMap) →
      Except Error (List (String × MULTREGTSearchMap))
  | [], m_searchMap => .ok m_searchMap
  | (regPair, recordIx) :: rest, m_searchMap =>
      match ctorSearchEntry m_records m_searchMap regPair recordIx with
      | .error e => .error e
      | .ok m_searchMap' => ctorSearchMap m_records rest m_searchMap'

/-- Source `MULTREGTScanner::MULTREGTScanner` from line 155 on: the construction of the
search index and of the region arrays from the directive table `m_records` that the
`addKeyword` loop of lines 151-153 has filled. -/
def fromRecords (gridDims : GridDims) (fp : FieldPropsManager)
    (m_records : List MULTREGTRecord) : Except Error MULTREGTScanner :=
  match ctorRecords fp 0 m_records { searchPairs := [], regions := [] } with
  | .error e => .error e
  | .ok st =>
      match ctorSearchMap m_records st.searchPairs [] with
      | .error e => .error e
      | .ok m_searchMap =>
          .ok { gridDims := gridDims
                m_records := m_records
                m_searchMap := m_searchMap
                regions := st.regions
                aquifer_cells := [] }

/-! ## Construction of the directive table -/

/-- Source `MULTREGTScanner::assertKeywordSupported`. -/
def assertKeywordSupported : DeckKeyword → Except Error Unit
  | [] => .ok ()
  | deckRecord :: rest =>
      let srcItem := deckRecord.SRC_REGION
      let targetItem := deckRecord.TARGET_REGION
      if !srcItem.defaultApplied && !targetItem.defaultApplied
          && decide (srcItem.get = targetItem.get) then
        .error (.invalid_argument
          "Sorry - MULTREGT applied internally to a region is not yet supported")
      else assertKeywordSupported rest

/-- The local `region_name` of `addKeyword` (source lines 413-415). -/
def regionNameFor (m_records : List MULTREGTRecord) (regionItem : DeckItem String) :
    Except Error String :=
  match m_records.getLast? with
  | some back =>
      if regionItem.defaultApplied then .ok back.region_name
      else MULTREGT.RegionNameFromDeckValue regionItem.get
  | none => MULTREGT.RegionNameFromDeckValue regionItem.get

/-- The locals `src_regions` and `target_regions` of `addKeyword` (source lines 417-429). -/
def regionsFor (fp : FieldPropsManager) (region_name : String) (item : DeckItem Int) :
    List Int :=
  if item.defaultApplied || decide (item.get < 0) then unique (fp.get_int region_name)
  else [item.get]

/-- Inner loop of `addKeyword` (source lines 432-442) over the target regions. -/
def pushTargets (mk : Int → Int → MULTREGTRecord) (src_region : Int) :
    List Int → List MULTREGTRecord → List MULTREGTRecord
  | [], m_records => m_records
  | target_region :: rest, m_records =>
      pushTargets mk src_region rest
        (if src_region ≤ target_region then
          (if src_region ≠ target_region then m_records ++ [mk src_region target_region]
           else m_records)
         else m_records ++ [mk target_region src_region])

/-- Outer loop of `addKeyword` (source lines 431-443) over the source regions. -/
def pushSources (mk : Int → Int → MULTREGTRecord) (target_regions : List Int) :
    List Int → List MULTREGTRecord → List MULTREGTRecord
  | [], m_records => m_records
  | src_region :: rest, m_records =>
      pushSources mk target_regions rest (pushTargets mk src_region target_regions m_records)

/-- Body of the loop of `addKeyword` (source lines 402-443) for one record: the directive
table after the record, or the exception of one of the conversions; an exception leaves the
table as it was, all conversions being made ahead of the first `push_back`. -/
def addRecord (fp : FieldPropsManager) (m_records : List MULTREGTRecord)
    (deckRecord : DeckRecord) : Except Error (List MULTREGTRecord) :=
  let trans_mult := deckRecord.TRAN_MULT.get
  match FaceDir.FromMULTREGTString deckRecord.DIRECTIONS.get with
  | .error e => .error e
  | .ok directions =>
    match MULTREGT.NNCBehaviourFromString deckRecord.NNC_MULT.get with
    | .error e => .error e
    | .ok nnc_behaviour =>
      match regionNameFor m_records deckRecord.REGION_DEF with
      | .error e => .error e
      | .ok region_name =>
        let src_regions := regionsFor fp region_name deckRecord.SRC_REGION
        let target_regions := regionsFor fp region_name deckRecord.TARGET_REGION
        .ok (pushSources
              (fun low high =>
                { src_value := low, target_value := high, trans_mult := trans_mult,
                  directions := directions, nnc_behaviour := nnc_behaviour,
                  region_name := region_name })
              target_regions src_regions m_records)

/-- Loop of `addKeyword` (source lines 401-444): the outcome and the directive table that
the loop leaves, also when a record throws. -/
def addRecords (fp : FieldPropsManager) :
    List MULTREGTRecord → DeckKeyword → Except Error Unit × List MULTREGTRecord
  | m_records, [] => (.ok (), m_records)
  | m_records, deckRecord :: rest =>
      match addRecord fp m_records deckRecord with
      | .error e => (.error e, m_records)
      | .ok m_records' => addRecords fp m_records' rest

/-- Source `MULTREGTScanner::addKeyword`: the outcome and the directive table it leaves. -/
def addKeyword (fp : FieldPropsManager) (m_records : List MULTREGTRecord)
    (deckKeyword : DeckKeyword) : Except Error Unit × List MULTREGTRecord :=
  match assertKeywordSupported deckKeyword with
  | .error e => (.error e, m_records)
  | .ok _ => addRecords fp m_records deckKeyword

/-- Loop of the constructor over the keywords (source lines 151-153). -/
def addKeywords (fp : FieldPropsManager) :
    List MULTREGTRecord → List DeckKeyword → Except Error Unit × List MULTREGTRecord
  | m_records, [] => (.ok (), m_records)
  | m_records, deckKeyword :: rest =>
      match addKeyword fp m_records deckKeyword with
      | (.error e, m_records') => (.error e, m_records')
      | (.ok _, m_records') => addKeywords fp m_records' rest

/-- Source `MULTREGTScanner::MULTREGTScanner(gridDims, fp, keywords)`: the directive table
of all keywords, then the search index over it. -/
def construct (gridDims : GridDims) (fp : FieldPropsManager) (keywords : List DeckKeyword) :
    Except Error MULTREGTScanner :=
  match addKeywords fp [] keywords with
  | (.error e, _) => .error e
  | (.ok _, m_records) => fromRecords gridDims fp m_records

/-! ## Queries -/

/-- The closure `ignoreMultiplierRecord` of `getRegionMultiplier` (source lines 286-300). -/
def ignoreMultiplierRecord (is_adj is_aqu : Bool)
    (nnc_behaviour : MULTREGT.NNCBehaviourEnum) : Bool :=
  ((is_adj && !is_aqu) && decide (nnc_behaviour = .NNC))
    || ((!is_adj || is_aqu) && decide (nnc_behaviour = .NONNC))
    || (is_aqu && decide (nnc_behaviour = .NOAQUNNC))

/-- The local `applyMultiplier` of `getRegionMultiplier` (source lines 319-321); the two
captures of the closure `ignoreMultiplierRecord` are computed from the scanner and the cells. -/
def applyMultiplier (s : MULTREGTScanner) (globalIndex1 globalIndex2 : Nat)
    (nnc_behaviour : MULTREGT.NNCBehaviourEnum) : Bool :=
  decide (nnc_behaviour = .ALL)
    || !ignoreMultiplierRecord (is_adjacent_cells s.gridDims globalIndex1 globalIndex2)
          (s.isAquNNC globalIndex1 globalIndex2) nnc_behaviour

/-- Body of the loop of `getRegionMultiplier` (source lines 303-325) for one entry of the
search index; the result is the new value of `multiplier`. -/
def faceStep (s : MULTREGTScanner) (globalIndex1 globalIndex2 : Nat) (faceDir : FaceDir.DirEnum)
    (multiplier : ℚ) (entry : String × MULTREGTSearchMap) : Except Error ℚ :=
  match StdMap.find entry.1 s.regions with
  | none => .error .out_of_range
  | some region_data =>
    match region_data[globalIndex1]?, region_data[globalIndex2]? with
    | some regionId1, some regionId2 =>
      let regPairPos :=
        if regionId1 ≤ regionId2 then StdMap.find (regionId1, regionId2) entry.2
        else StdMap.find (regionId2, regionId1) entry.2
      match regPairPos with
      | none => .ok multiplier
      | some recordIx =>
        match s.m_records[recordIx]? with
        | none => .error .index_out_of_bounds
        | some record =>
          if record.directions &&& faceDir.toNat = 0 then .ok multiplier
          else if regionId1 = regionId2 then .error .assertion_failed
          else if applyMultiplier s globalIndex1 globalIndex2 record.nnc_behaviour then
            .ok (multiplier * record.trans_mult)
          else .ok multiplier
    | _, _ => .error .index_out_of_bounds

/-- Loop of `getRegionMultiplier` (source lines 302-326). -/
def faceLoop (s : MULTREGTScanner) (globalIndex1 globalIndex2 : Nat) (faceDir : FaceDir.DirEnum) :
    List (String × MULTREGTSearchMap) → ℚ → Except Error ℚ
  | [], multiplier => .ok multiplier
  | entry :: rest, multiplier =>
      match faceStep s globalIndex1 globalIndex2 faceDir multiplier entry with
      | .error e => .error e
      | .ok multiplier' => faceLoop s globalIndex1 globalIndex2 faceDir rest multiplier'

/-- Source `MULTREGTScanner::getRegionMultiplier`. -/
def getRegionMultiplier (s : MULTREGTScanner) (globalIndex1 globalIndex2 : Nat)
    (faceDir : FaceDir.DirEnum) : Except Error ℚ :=
  if s.m_searchMap.isEmpty then .ok 1
  else faceLoop s globalIndex1 globalIndex2 faceDir s.m_searchMap 1

/-- The closure `ignoreMultiplierRecord` of `getRegionMultiplierNNC` (source lines 344-350). -/
def ignoreMultiplierRecordNNC (is_aqu : Bool) (nnc_behaviour : MULTREGT.NNCBehaviourEnum) : Bool :=
  decide (nnc_behaviour = .NONNC) || (is_aqu && decide (nnc_behaviour = .NOAQUNNC))

/-- Body of the loop of `getRegionMultiplierNNC` (source lines 353-371) for one entry of the
search index; the result is the new value of `multiplier`. -/
def nncStep (s : MULTREGTScanner) (globalCellIdx1 globalCellIdx2 : Nat)
    (multiplier : ℚ) (entry : String × MULTREGTSearchMap) : Except Error ℚ :=
  match StdMap.find entry.1 s.regions with
  | none => .error .out_of_range
  | some region_data =>
    match region_data[globalCellIdx1]?, region_data[globalCellIdx2]? with
    | some regionId1, some regionId2 =>
      match StdMap.find (regionId1, regionId2) entry.2 with
      | none => .ok multiplier
      | some recordIx =>
        if regionId1 = regionId2 then .error .assertion_failed
        else
          match s.m_records[recordIx]? with
          | none => .error .index_out_of_bounds
          | some record =>
            if !ignoreMultiplierRecordNNC (s.isAquNNC globalCellIdx1 globalCellIdx2)
                  record.nnc_behaviour
            then .ok (multiplier * record.trans_mult)
            else .ok multiplier
    | _, _ => .error .index_out_of_bounds

/-- Loop of `getRegionMultiplierNNC` (source lines 352-372). -/
def nncLoop (s : MULTREGTScanner) (globalCellIdx1 globalCellIdx2 : Nat) :
    List (String × MULTREGTSearchMap) → ℚ → Except Error ℚ
  | [], multiplier => .ok multiplier
  | entry :: rest, multiplier =>
      match nncStep s globalCellIdx1 globalCellIdx2 multiplier entry with
      | .error e => .error e
      | .ok multiplier' => nncLoop s globalCellIdx1 globalCellIdx2 rest multiplier'

/-- Source `MULTREGTScanner::getRegionMultiplierNNC`. -/
def getRegionMultiplierNNC (s : MULTREGTScanner) (globalCellIdx1 globalCellIdx2 : Nat) :
    Except Error ℚ :=
  if s.m_searchMap.isEmpty then .ok 1
  else nncLoop s globalCellIdx1 globalCellIdx2 s.m_searchMap 1

/-! ## Notions used by the statements -/

/-- The constructor files the record under the pair `p`: its two regions differ and `p` is
their ordered pair. -/
def FiledUnder (r : MULTREGTRecord) (p : Int × Int) : Prop :=
  r.src_value ≠ r.target_value ∧ orderedPair r.src_value r.target_value = p

instance (r : MULTREGTRecord) (p : Int × Int) : Decidable (FiledUnder r p) := by
  unfold FiledUnder
  infer_instance

/-- Position of the last record filed under `p` in a stretch of the directive table that
starts at position `recordIx`; `acc` when the stretch has none. -/
def lastFiled (p : Int × Int) : Nat → List MULTREGTRecord → Option Nat → Option Nat
  | _, [], acc => acc
  | recordIx, record :: rest, acc =>
      lastFiled p (recordIx + 1) rest (if FiledUnder record p then some recordIx else acc)

/-- The record at position `ix` of the directive table is the last one filed under `p`,
whatever the region sets of the records. -/
def IsLastFiled (m_records : List MULTREGTRecord) (p : Int × Int) (ix : Nat) : Prop :=
  ∃ r, m_records[ix]? = some r ∧ FiledUnder r p ∧
    ∀ k r', ix < k → m_records[k]? = some r' → ¬ FiledUnder r' p

/-- The position that the search index holds for pair `p` under the region-set name `name`. -/
def indexed (m_searchMap : List (String × MULTREGTSearchMap)) (name : String) (p : Int × Int) :
    Option Nat :=
  (StdMap.find name m_searchMap).bind (StdMap.find p)

/-- Consistency of a scanner state, as the constructor establishes it: every region set of
the search index has its region array, and every entry of the search index has an ordered
pair `low < high` of distinct regions and a position inside the directive table. -/
def Consistent (s : MULTREGTScanner) : Prop :=
  ∀ entry ∈ s.m_searchMap,
    (StdMap.find entry.1 s.regions).isSome = true ∧
      ∀ e ∈ entry.2, e.1.1 < e.1.2 ∧ e.2 < s.m_records.length

instance (s : MULTREGTScanner) : Decidable (Consistent s) := by
  unfold Consistent
  infer_instance

/-- The cell index `c` is inside every region array of the scanner. -/
def InRange (s : MULTREGTScanner) (c : Nat) : Prop :=
  ∀ entry ∈ s.regions, c < entry.2.length

instance (s : MULTREGTScanner) (c : Nat) : Decidable (InRange s c) := by
  unfold InRange
  infer_instance

/-- The position that one region set of the search index holds for the normalized pair of
the region IDs of the two cells; `none` when it holds no directive for that pair. -/
def positionFor (s : MULTREGTScanner) (c1 c2 : Nat) (entry : String × MULTREGTSearchMap) :
    Option Nat :=
  match StdMap.find entry.1 s.regions with
  | none => none
  | some data =>
    match data[c1]?, data[c2]? with
    | some r1, some r2 => StdMap.find (orderedPair r1 r2) entry.2
    | _, _ => none

/-- The directive that one region set of the search index holds for the normalized pair of
the region IDs of the two cells. -/
def faceDirective (s : MULTREGTScanner) (c1 c2 : Nat) (entry : String × MULTREGTSearchMap) :
    Option MULTREGTRecord :=
  match positionFor s c1 c2 entry with
  | none => none
  | some ix => s.m_records[ix]?

/-- Factor of one region set in the face query, in the words of the specification: the
multiplier of the indexed directive when one is found, is direction-eligible and is applied;
1 otherwise. -/
def faceFactor (s : MULTREGTScanner) (c1 c2 : Nat) (d : FaceDir.DirEnum)
    (entry : String × MULTREGTSearchMap) : ℚ :=
  match faceDirective s c1 c2 entry with
  | none => 1
  | some record =>
      if record.directions &&& d.toNat ≠ 0 ∧ applyMultiplier s c1 c2 record.nnc_behaviour = true
      then record.trans_mult else 1

/-- The directives that a record with the source regions `S` and the target regions `T`
appends, in the words of the specification: one directive for every pair `(src, tgt)` of
`S × T` with `src ≠ tgt`, the source regions outermost, with the pair normalized to
`(min, max)`; `mk low high` is the directive of the record for the pair `(low, high)`. -/
def expansion (mk : Int → Int → MULTREGTRecord) (S T : List Int) : List MULTREGTRecord :=
  S.flatMap (fun src =>
    (T.filter (fun tgt => decide (src ≠ tgt))).map (fun tgt => mk (min src tgt) (max src tgt)))

/-- The regions of a selector in the words of the specification: the single region `s` when
the selector is an explicit non-negative ID `s`, and otherwise (defaulted or negative) the
sorted distinct region IDs among `ids`, the IDs present in the region set. -/
def selectorSet (ids : List Int) (item : DeckItem Int) : List Int :=
  if item.defaultApplied = false ∧ 0 ≤ item.get then [item.get] else unique ids

/-- A deck record with the given source, target and region-set items, the multiplier `1/2`
and the defaulted direction and NNC items `XYZ` and `ALL`. -/
def exampleRecord (src tgt : DeckItem Int) (region : DeckItem String) : DeckRecord :=
  { SRC_REGION := src
    TARGET_REGION := tgt
    TRAN_MULT := { defaultApplied := false, get := 1 / 2 }
    DIRECTIONS := { defaultApplied := true, get := "XYZ" }
    NNC_MULT := { defaultApplied := true, get := "ALL" }
    REGION_DEF := region }

/-- A region store in which `MULTNUM` has the single region ID 7 and every other region set
has the region IDs 1, 2 and 3; the region set `OPERNUM` is not in the store. -/
def singleRegionStore : FieldPropsManager :=
  { has_int := fun name => decide (name = "MULTNUM") || decide (name = "FLUXNUM")
    get_global_int := fun name => if name = "MULTNUM" then [7, 7, 7] else [3, 1, 2]
    get_int := fun name => if name = "MULTNUM" then [7, 7, 7] else [3, 1, 2, 3, 1] }

/-- A keyword of three records: `1 2` in `F`; all regions to all regions in `M`, which over
`singleRegionStore` has a single region and expands into no directive; `1 3` with the
region set defaulted. -/
def defaultedRegionKeyword : DeckKeyword :=
  [ exampleRecord { defaultApplied := false, get := 1 } { defaultApplied := false, get := 2 }
      { defaultApplied := false, get := "F" },
    exampleRecord { defaultApplied := true, get := 0 } { defaultApplied := true, get := 0 }
      { defaultApplied := false, get := "M" },
    exampleRecord { defaultApplied := false, get := 1 } { defaultApplied := false, get := 3 }
      { defaultApplied := true, get := "M" } ]

/-- The opposite sense of the same axis. -/
def mirror : FaceDir.DirEnum → FaceDir.DirEnum
  | .XPlus => .XMinus
  | .XMinus => .XPlus
  | .YPlus => .YMinus
  | .YMinus => .YPlus
  | .ZPlus => .ZMinus
  | .ZMinus => .ZPlus

/-- The direction mask is collapsed to axes: it contains the plus sense of an axis if and
only if it contains the minus sense. -/
def Collapsed (mask : Nat) : Prop :=
  (mask &&& FaceDir.DirEnum.XPlus.toNat = 0 ↔ mask &&& FaceDir.DirEnum.XMinus.toNat = 0) ∧
  (mask &&& FaceDir.DirEnum.YPlus.toNat = 0 ↔ mask &&& FaceDir.DirEnum.YMinus.toNat = 0) ∧
  (mask &&& FaceDir.DirEnum.ZPlus.toNat = 0 ↔ mask &&& FaceDir.DirEnum.ZMinus.toNat = 0)

instance (mask : Nat) : Decidable (Collapsed mask) := by
  unfold Collapsed
  infer_instance

/-- The scanner that the constructor builds from the end-to-end directive list over
`twoCellStore` on a column of cells. -/
def endToEndScanner : MULTREGTScanner :=
  { gridDims := { getIJK := fun g => (0, 0, g) }
    m_records :=
      [ { src_value := 1, target_value := 2, trans_mult := 3 / 4, directions := 48,
          nnc_behaviour := .ALL, region_name := "MULTNUM" },
        { src_value := 1, target_value := 2, trans_mult := 5 / 2, directions := 15,
          nnc_behaviour := .ALL, region_name := "FLUXNUM" } ]
    m_searchMap := [("FLUXNUM", [((1, 2), 1)])]
    regions := [("FLUXNUM", [1, 2]), ("MULTNUM", [1, 2])]
    aquifer_cells := [] }

/-- The two cells carry the region IDs `a` and `b` in the region array `data`, one each, in
either order. -/
def HasValues (data : List Int) (c1 c2 : Nat) (a b : Int) : Prop :=
  (data[c1]? = some a ∧ data[c2]? = some b) ∨ (data[c1]? = some b ∧ data[c2]? = some a)

instance (data : List Int) (c1 c2 : Nat) (a b : Int) : Decidable (HasValues data c1 c2 a b) := by
  unfold HasValues
  infer_instance

/-- The directive list of the end-to-end example, `(1, 2, 0.75, Z, ALL, MULTNUM)` followed by
`(1, 2, 2.50, XY, ALL, FLUXNUM)`; the masks `48` and `15` are those of the direction strings
`Z` and `XY`. -/
def endToEndDirectives : List MULTREGTRecord :=
  [ { src_value := 1, target_value := 2, trans_mult := 3 / 4, directions := 48,
      nnc_behaviour := .ALL, region_name := "MULTNUM" },
    { src_value := 1, target_value := 2, trans_mult := 5 / 2, directions := 15,
      nnc_behaviour := .ALL, region_name := "FLUXNUM" } ]

/-- The directives of the keyword in the comment ahead of the constructor: the records
`2 4 0.75 Z ALL M` and `2 4 2.50 XY ALL F`, one directive each. -/
def documentedDirectives : List MULTREGTRecord :=
  [ { src_value := 2, target_value := 4, trans_mult := 3 / 4, directions := 48,
      nnc_behaviour := .ALL, region_name := "MULTNUM" },
    { src_value := 2, target_value := 4, trans_mult := 5 / 2, directions := 15,
      nnc_behaviour := .ALL, region_name := "FLUXNUM" } ]

/-- What the constructor reads of a directive when it builds the search index: the two
regions and the region-set name. -/
def keyOf (r : MULTREGTRecord) : Int × Int × String :=
  (r.src_value, r.target_value, r.region_name)

/-- Two directives of the region set `MULTNUM` for the same unordered pair of regions. -/
def repeatedDirectives : List MULTREGTRecord :=
  [ { src_value := 1, target_value := 2, trans_mult := 3 / 4, directions := 48,
      nnc_behaviour := .NNC, region_name := "MULTNUM" },
    { src_value := 1, target_value := 2, trans_mult := 5 / 2, directions := 15,
      nnc_behaviour := .ALL, region_name := "MULTNUM" } ]

/-- A region store of three cells: `MULTNUM` with the region IDs `1, 2, 4` and `FLUXNUM`
with the region IDs `1, 3, 4`. -/
def twoSetStore : FieldPropsManager :=
  { has_int := fun name => decide (name = "MULTNUM") || decide (name = "FLUXNUM")
    get_global_int := fun name => if name = "MULTNUM" then [1, 2, 4] else [1, 3, 4]
    get_int := fun name => if name = "MULTNUM" then [1, 2, 4] else [1, 3, 4] }

/-- A directive of `MULTNUM` for the regions 1 and 2 and a directive of `FLUXNUM` for the
regions 1 and 3, both for all face directions. -/
def twoSetDirectives : List MULTREGTRecord :=
  [ { src_value := 1, target_value := 2, trans_mult := 3 / 4, directions := 63,
      nnc_behaviour := .ALL, region_name := "MULTNUM" },
    { src_value := 1, target_value := 3, trans_mult := 5 / 2, directions := 63,
      nnc_behaviour := .NOAQUNNC, region_name := "FLUXNUM" } ]

/-- The scanner that the constructor builds from `twoSetDirectives` over `twoSetStore` on a
row of cells. -/
def twoSetScanner : MULTREGTScanner :=
  { gridDims := { getIJK := fun g => (g, 0, 0) }
    m_records := twoSetDirectives
    m_searchMap := [("FLUXNUM", [((1, 3), 1)]), ("MULTNUM", [((1, 2), 0)])]
    regions := [("FLUXNUM", [1, 3, 4]), ("MULTNUM", [1, 2, 4])]
    aquifer_cells := [] }

/-- A single directive of `MULTNUM` for the regions 1 and 2, for all face directions and all
connections. -/
def singleDirective : List MULTREGTRecord :=
  [ { src_value := 1, target_value := 2, trans_mult := 1 / 2, directions := 63,
      nnc_behaviour := .ALL, region_name := "MULTNUM" } ]

/-- A column of cells: the cell of index `g` has the coordinates `(0, 0, g)`. -/
def columnGrid : GridDims := { getIJK := fun g => (0, 0, g) }

/-- A row of cells: the cell of index `g` has the coordinates `(g, 0, 0)`. -/
def rowGrid : GridDims := { getIJK := fun g => (g, 0, 0) }

/-- A region store of two cells with the region sets `MULTNUM` and `FLUXNUM`, both with the
region IDs `1` and `2`. -/
def twoCellStore : FieldPropsManager :=
  { has_int := fun name => decide (name = "MULTNUM") || decide (name = "FLUXNUM")
    get_global_int := fun _ => [1, 2]
    get_int := fun _ => [1, 2] }

end MULTREGTScanner

/-! ## Well production controls -/

/-- Bit pattern of the 32-bit `int` of value `x`: the residue of `x` modulo `2^32`. -/
def intBits (x : Int) : Nat := (x % 4294967296).toNat

/-- The 32-bit `int` that has the bit pattern `p` in two's complement. -/
def intOfBits (p : Nat) : Int :=
  if p % 4294967296 < 2147483648 then ((p % 4294967296 : Nat) : Int)
  else ((p % 4294967296 : Nat) : Int) - 4294967296

/-- The operator `&` on two `int`: the conjunction of the bit patterns. -/
def intAnd (a b : Int) : Int := intOfBits (intBits a &&& intBits b)

/-- The operator `+` on two `int`, wrapped to 32 bits. -/
def intAdd (a b : Int) : Int := intOfBits (intBits (a + b))

/-- The operator `-` on two `int`, wrapped to 32 bits. -/
def intSub (a b : Int) : Int := intOfBits (intBits (a - b))

/-- Source `WellProductionControls`, the private member `controls`.  The public members
(`cmode`, the rates and the limits) are neither read nor written by `hasControl`,
`skipControl`, `addControl` and `clearControls`. -/
structure WellProductionControls where
  controls : Int
  deriving DecidableEq, Repr

namespace WellProductionControls

/-- Source `WellProductionControls::hasControl`; `cmode_arg` is the value of
`static_cast<int>(cmode_arg)`, the enumeration `WellProducerCMode` being declared in
`WellEnums.hpp`. -/
def hasControl (w : WellProductionControls) (cmode_arg : Int) : Bool :=
  decide (intAnd w.controls cmode_arg ≠ 0)

/-- Source `WellProductionControls::skipControl`. -/
def skipControl (w : WellProductionControls) (cmode_arg : Int) : WellProductionControls :=
  let int_arg := cmode_arg
  if intAnd w.controls int_arg ≠ 0 then { w with controls := intSub w.controls int_arg } else w

/-- Source `WellProductionControls::addControl`. -/
def addControl (w : WellProductionControls) (cmode_arg : Int) : WellProductionControls :=
  let int_arg := cmode_arg
  if intAnd w.controls int_arg = 0 then { w with controls := intAdd w.controls int_arg } else w

/-- Source `WellProductionControls::clearControls`. -/
def clearControls (w : WellProductionControls) : WellProductionControls :=
  { w with controls := 0 }

end WellProductionControls

end Opm

/-! # Properties -/

namespace Opm

/-! ## Lookup after assignment -/

namespace StdMap

theorem find_replace_ne {κ ν : Type} [DecidableEq κ]
    {k k' : κ} (v : ν) (m : List (κ × ν)) (h : k' ≠ k) :
    find k' (replace k v m) = find k' m := by
  induction m with
  | nil => rfl
  | cons e rest ih =>
    obtain ⟨k₀, v₀⟩ := e
    simp only [replace]
    split_ifs with h1
    · subst h1
      simp [find, Ne.symm h]
    · by_cases h3 : k₀ = k'
      · simp [find, h3]
      · simp [find, h3, ih]

theorem find_replace_self {κ ν : Type} [DecidableEq κ]
    (k : κ) (v : ν) (m : List (κ × ν)) (h : (find k m).isSome) :
    find k (replace k v m) = some v := by
  induction m with
  | nil => simp [find] at h
  | cons e rest ih =>
    obtain ⟨k₀, v₀⟩ := e
    simp only [replace]
    split_ifs with h1
    · simp [find, h1]
    · simp only [find, h1, if_false] at h ⊢
      exact ih h

theorem find_insert_self {κ ν : Type} [DecidableEq κ]
    (lt : κ → κ → Bool) (k : κ) (v : ν) (m : List (κ × ν))
    (h : find k m = none) : find k (insert lt k v m) = some v := by
  induction m with
  | nil => simp [insert, find]
  | cons e rest ih =>
    obtain ⟨k₀, v₀⟩ := e
    simp only [find] at h
    split_ifs at h with h1
    simp only [insert]
    split_ifs with h2
    · simp [find]
    · simp [find, h1, ih h]

theorem find_insert_ne {κ ν : Type} [DecidableEq κ]
    (lt : κ → κ → Bool) {k k' : κ} (v : ν) (m : List (κ × ν))
    (h : k' ≠ k) : find k' (insert lt k v m) = find k' m := by
  induction m with
  | nil => simp [insert, find, Ne.symm h]
  | cons e rest ih =>
    obtain ⟨k₀, v₀⟩ := e
    simp only [insert]
    split_ifs with h2
    · simp [find, Ne.symm h]
    · by_cases h3 : k₀ = k'
      · simp [find, h3]
      · simp [find, h3, ih]

theorem find_assign_self {κ ν : Type} [DecidableEq κ]
    (lt : κ → κ → Bool) (k : κ) (v : ν) (m : List (κ × ν)) :
    find k (assign lt k v m) = some v := by
  unfold assign
  split_ifs with h
  · exact find_replace_self k v m h
  · exact find_insert_self lt k v m (by simpa using h)

theorem find_assign_ne {κ ν : Type} [DecidableEq κ]
    (lt : κ → κ → Bool) {k k' : κ} (v : ν) (m : List (κ × ν))
    (h : k' ≠ k) : find k' (assign lt k v m) = find k' m := by
  unfold assign
  split_ifs with h1
  · exact find_replace_ne v m h
  · exact find_insert_ne lt v m h

theorem mem_of_find {κ ν : Type} [DecidableEq κ]
    {k : κ} {v : ν} {m : List (κ × ν)} (h : find k m = some v) :
    (k, v) ∈ m := by
  induction m with
  | nil => simp [find] at h
  | cons e rest ih =>
    obtain ⟨k₀, v₀⟩ := e
    simp only [find] at h
    split_ifs at h with h1
    · simp only [Option.some.injEq] at h
      subst h1 h
      exact List.mem_cons_self _ _
    · exact List.mem_cons_of_mem _ (ih h)

theorem find_eq_none_iff {κ ν : Type} [DecidableEq κ]
    {k : κ} {m : List (κ × ν)} :
    find k m = none ↔ k ∉ m.map Prod.fst := by
  induction m with
  | nil => simp [find]
  | cons e rest ih =>
    obtain ⟨k₀, v₀⟩ := e
    by_cases h1 : k₀ = k
    · simp [find, h1]
    · simp only [find, h1, if_false, ih, List.map_cons, List.mem_cons, not_or]
      exact ⟨fun h => ⟨fun hk => h1 hk.symm, h⟩, fun h => h.2⟩

theorem mem_replace {κ ν : Type} [DecidableEq κ]
    {k : κ} {v : ν} {m : List (κ × ν)} {e : κ × ν}
    (h : e ∈ replace k v m) : e = (k, v) ∨ e ∈ m := by
  induction m with
  | nil => simp [replace] at h
  | cons e₀ rest ih =>
    obtain ⟨k₀, v₀⟩ := e₀
    simp only [replace] at h
    split_ifs at h with h1
    · subst h1
      rcases List.mem_cons.mp h with h | h
      · exact Or.inl h
      · exact Or.inr (List.mem_cons_of_mem _ h)
    · rcases List.mem_cons.mp h with h | h
      · exact Or.inr (h ▸ List.mem_cons_self _ _)
      · rcases ih h with h | h
        · exact Or.inl h
        · exact Or.inr (List.mem_cons_of_mem _ h)

theorem mem_insert {κ ν : Type}
    {lt : κ → κ → Bool} {k : κ} {v : ν} {m : List (κ × ν)} {e : κ × ν}
    (h : e ∈ insert lt k v m) : e = (k, v) ∨ e ∈ m := by
  induction m with
  | nil => simpa [insert] using h
  | cons e₀ rest ih =>
    obtain ⟨k₀, v₀⟩ := e₀
    simp only [insert] at h
    split_ifs at h with h2
    · rcases List.mem_cons.mp h with h | h
      · exact Or.inl h
      · exact Or.inr h
    · rcases List.mem_cons.mp h with h | h
      · exact Or.inr (h ▸ List.mem_cons_self _ _)
      · rcases ih h with h | h
        · exact Or.inl h
        · exact Or.inr (List.mem_cons_of_mem _ h)

theorem mem_assign {κ ν : Type} [DecidableEq κ]
    {lt : κ → κ → Bool} {k : κ} {v : ν} {m : List (κ × ν)} {e : κ × ν}
    (h : e ∈ assign lt k v m) : e = (k, v) ∨ e ∈ m := by
  unfold assign at h
  split_ifs at h
  · exact mem_replace h
  · exact mem_insert h

theorem keys_replace {κ ν : Type} [DecidableEq κ]
    (k : κ) (v : ν) (m : List (κ × ν)) :
    (replace k v m).map Prod.fst = m.map Prod.fst := by
  induction m with
  | nil => rfl
  | cons e₀ rest ih =>
    obtain ⟨k₀, v₀⟩ := e₀
    simp only [replace]
    split_ifs with h1
    · simp
    · simp [ih]

theorem nodup_keys_insert {κ ν : Type} [DecidableEq κ]
    (lt : κ → κ → Bool) (k : κ) (v : ν) {m : List (κ × ν)}
    (hk : k ∉ m.map Prod.fst) (h : (m.map Prod.fst).Nodup) :
    ((insert lt k v m).map Prod.fst).Nodup := by
  induction m with
  | nil => simp [insert]
  | cons e₀ rest ih =>
    obtain ⟨k₀, v₀⟩ := e₀
    simp only [List.map_cons, List.nodup_cons, List.mem_cons, not_or] at h hk
    simp only [insert]
    split_ifs with h2
    · simp only [List.map_cons, List.nodup_cons, List.mem_cons, not_or]
      exact ⟨⟨hk.1, hk.2⟩, h.1, h.2⟩
    · simp only [List.map_cons, List.nodup_cons]
      refine ⟨fun hmem => ?_, ih hk.2 h.2⟩
      obtain ⟨e, he, hek⟩ := List.mem_map.mp hmem
      rcases mem_insert he with he | he
      · rw [he] at hek
        exact hk.1 hek
      · exact h.1 (List.mem_map.mpr ⟨e, he, hek⟩)

theorem nodup_keys_assign {κ ν : Type} [DecidableEq κ]
    (lt : κ → κ → Bool) (k : κ) (v : ν) {m : List (κ × ν)}
    (h : (m.map Prod.fst).Nodup) : ((assign lt k v m).map Prod.fst).Nodup := by
  unfold assign
  split_ifs with h1
  · rw [keys_replace]
    exact h
  · exact nodup_keys_insert lt k v (find_eq_none_iff.mp (by simpa using h1)) h

theorem find_of_mem {κ ν : Type} [DecidableEq κ]
    {k : κ} {v : ν} {m : List (κ × ν)} (hnd : (m.map Prod.fst).Nodup)
    (h : (k, v) ∈ m) : find k m = some v := by
  induction m with
  | nil => simp at h
  | cons e₀ rest ih =>
    obtain ⟨k₀, v₀⟩ := e₀
    simp only [List.map_cons, List.nodup_cons] at hnd
    rcases List.mem_cons.mp h with h | h
    · simp only [Prod.mk.injEq] at h
      simp [find, h.1, h.2]
    · have hne : k₀ ≠ k := fun hk => hnd.1 (hk ▸ List.mem_map.mpr ⟨(k, v), h, rfl⟩)
      simp [find, hne, ih hnd.2 h]

end StdMap

end Opm

namespace Opm

/-! ## Binary search in the aquifer-cell list -/

theorem getD_le_of_sorted {xs : List Nat} (hs : xs.Pairwise (· ≤ ·)) {i j : Nat} (hij : i ≤ j)
    (hj : j < xs.length) : xs.getD i 0 ≤ xs.getD j 0 := by
  rw [List.getD_eq_getElem xs 0 hj, List.getD_eq_getElem xs 0 (lt_of_le_of_lt hij hj)]
  rcases Nat.eq_or_lt_of_le hij with h | h
  · subst h
    exact le_refl _
  · exact List.pairwise_iff_getElem.mp hs i j _ hj h

theorem lower_bound_spec {xs : List Nat} (hs : xs.Pairwise (· ≤ ·)) (val : Nat) (fuel : Nat) :
    ∀ first len, len ≤ fuel → first + len ≤ xs.length →
      (∀ j, j < first → xs.getD j 0 < val) →
      (∀ j, first + len ≤ j → j < xs.length → val ≤ xs.getD j 0) →
      lower_bound xs val fuel first len ≤ xs.length ∧
      (∀ j, j < lower_bound xs val fuel first len → xs.getD j 0 < val) ∧
      (∀ j, lower_bound xs val fuel first len ≤ j → j < xs.length → val ≤ xs.getD j 0) := by
  induction fuel with
  | zero =>
    intro first len hlen hbound hlow hhigh
    have hz : len = 0 := Nat.le_zero.mp hlen
    subst hz
    exact ⟨by simpa [lower_bound] using hbound, by simpa [lower_bound] using hlow,
      by simpa [lower_bound] using hhigh⟩
  | succ fuel ih =>
    intro first len hlen hbound hlow hhigh
    by_cases hz : len = 0
    · subst hz
      simp only [lower_bound, if_true]
      exact ⟨by simpa using hbound, hlow, by simpa using hhigh⟩
    · have hhalf : len / 2 < len := Nat.div_lt_self (Nat.pos_of_ne_zero hz) (by decide)
      have hmid : first + len / 2 < xs.length := by omega
      simp only [lower_bound, hz, if_false]
      by_cases hcmp : xs.getD (first + len / 2) 0 < val
      · simp only [hcmp, if_true]
        refine ih (first + len / 2 + 1) (len - len / 2 - 1) (by omega) (by omega) ?_ ?_
        · intro j hj
          exact lt_of_le_of_lt (getD_le_of_sorted hs (by omega) hmid) hcmp
        · intro j hj hjlen
          exact hhigh j (by omega) hjlen
      · simp only [hcmp, if_false]
        refine ih first (len / 2) (by omega) (by omega) hlow ?_
        intro j hj hjlen
        exact le_trans (not_lt.mp hcmp) (getD_le_of_sorted hs hj hjlen)

/-- On a sorted list `std::binary_search` is the membership test. -/
theorem binary_search_iff_mem {xs : List Nat} (hs : xs.Pairwise (· ≤ ·)) (val : Nat) :
    binary_search xs val = true ↔ val ∈ xs := by
  obtain ⟨hle, hlow, hhigh⟩ :=
    lower_bound_spec hs val xs.length 0 xs.length (le_refl _) (by simp)
      (fun j hj => absurd hj (Nat.not_lt_zero j)) (fun j hj hj' => absurd hj' (by omega))
  simp only [binary_search, Bool.and_eq_true, decide_eq_true_eq, Bool.not_eq_true',
    decide_eq_false_iff_not, not_lt]
  constructor
  · rintro ⟨hne, hge⟩
    have hlt : lower_bound xs val xs.length 0 xs.length < xs.length := lt_of_le_of_ne hle hne
    have heq : xs.getD (lower_bound xs val xs.length 0 xs.length) 0 = val :=
      le_antisymm hge (hhigh _ (le_refl _) hlt)
    rw [List.getD_eq_getElem xs 0 hlt] at heq
    exact heq ▸ List.getElem_mem hlt
  · intro hmem
    obtain ⟨j, hj, hjv⟩ := List.mem_iff_getElem.mp hmem
    have hjd : xs.getD j 0 = val := by rw [List.getD_eq_getElem xs 0 hj, hjv]
    have hrj : lower_bound xs val xs.length 0 xs.length ≤ j := by
      by_contra hcon
      have := hlow j (not_le.mp hcon)
      omega
    have hle' := getD_le_of_sorted hs hrj hj
    rw [hjd] at hle'
    exact ⟨by omega, hle'⟩

namespace MULTREGTScanner

/-! ## The first loop of the constructor -/

theorem lastFiled_none (p : Int × Int) (rs : List MULTREGTRecord) (ix : Nat) (acc : Option Nat)
    (h : ∀ r ∈ rs, ¬ FiledUnder r p) : lastFiled p ix rs acc = acc := by
  induction rs generalizing ix acc with
  | nil => rfl
  | cons r rest ih =>
    have hr : ¬ FiledUnder r p := h r (List.mem_cons_self _ _)
    simp only [lastFiled, hr, if_false]
    exact ih _ _ (fun r' hr' => h r' (List.mem_cons_of_mem _ hr'))

theorem isLastFiled_zero {r : MULTREGTRecord} {rest : List MULTREGTRecord} {p : Int × Int} :
    IsLastFiled (r :: rest) p 0 ↔ FiledUnder r p ∧ ∀ r' ∈ rest, ¬ FiledUnder r' p := by
  constructor
  · rintro ⟨r₀, h0, hf, hlast⟩
    simp only [List.getElem?_cons_zero, Option.some.injEq] at h0
    subst h0
    refine ⟨hf, fun r' hr' => ?_⟩
    obtain ⟨n, hn⟩ := List.getElem?_of_mem hr'
    exact hlast (n + 1) r' (Nat.succ_pos n) (by simpa using hn)
  · rintro ⟨hf, hrest⟩
    refine ⟨r, by simp, hf, fun k r' hk hk' => ?_⟩
    obtain ⟨n, rfl⟩ : ∃ n, k = n + 1 := ⟨k - 1, by omega⟩
    simp only [List.getElem?_cons_succ] at hk'
    exact hrest r' (List.getElem?_mem hk')

theorem isLastFiled_succ {r : MULTREGTRecord} {rest : List MULTREGTRecord} {p : Int × Int}
    {i : Nat} : IsLastFiled (r :: rest) p (i + 1) ↔ IsLastFiled rest p i := by
  constructor
  · rintro ⟨r₀, h0, hf, hlast⟩
    refine ⟨r₀, by simpa using h0, hf, fun k r' hk hk' => ?_⟩
    exact hlast (k + 1) r' (by omega) (by simpa using hk')
  · rintro ⟨r₀, h0, hf, hlast⟩
    refine ⟨r₀, by simpa using h0, hf, fun k r' hk hk' => ?_⟩
    obtain ⟨n, rfl⟩ : ∃ n, k = n + 1 := ⟨k - 1, by omega⟩
    simp only [List.getElem?_cons_succ] at hk'
    exact hlast n r' (by omega) hk'

theorem lastFiled_eq_some (p : Int × Int) (rs : List MULTREGTRecord) (ix : Nat)
    (acc : Option Nat) (j : Nat) :
    lastFiled p ix rs acc = some j ↔
      (∃ i, j = ix + i ∧ IsLastFiled rs p i) ∨ (acc = some j ∧ ∀ r ∈ rs, ¬ FiledUnder r p) := by
  induction rs generalizing ix acc with
  | nil =>
    simp only [lastFiled, List.not_mem_nil, false_implies, implies_true, and_true]
    constructor
    · exact fun h => Or.inr h
    · rintro (⟨i, -, r, hr, -⟩ | h)
      · simp at hr
      · exact h
  | cons r rest ih =>
    simp only [lastFiled]
    rw [ih]
    constructor
    · rintro (⟨i, hj, hlast⟩ | ⟨hacc, hrest⟩)
      · exact Or.inl ⟨i + 1, by omega, isLastFiled_succ.mpr hlast⟩
      · by_cases hf : FiledUnder r p
        · simp only [hf, if_true, Option.some.injEq] at hacc
          exact Or.inl ⟨0, by omega, isLastFiled_zero.mpr ⟨hf, hrest⟩⟩
        · simp only [hf, if_false] at hacc
          refine Or.inr ⟨hacc, fun r' hr' => ?_⟩
          rcases List.mem_cons.mp hr' with h | h
          · exact h ▸ hf
          · exact hrest r' h
    · rintro (⟨i, hj, hlast⟩ | ⟨hacc, hall⟩)
      · cases i with
        | zero =>
          obtain ⟨hf, hrest⟩ := isLastFiled_zero.mp hlast
          exact Or.inr ⟨by simp [hf, hj], hrest⟩
        | succ n => exact Or.inl ⟨n, by omega, isLastFiled_succ.mp hlast⟩
      · have hf : ¬ FiledUnder r p := hall r (List.mem_cons_self _ _)
        exact Or.inr ⟨by simp [hf, hacc], fun r' hr' => hall r' (List.mem_cons_of_mem _ hr')⟩

theorem ctorRecord_ok {fp : FieldPropsManager} {st st' : CtorState} {ix : Nat}
    {r : MULTREGTRecord} (h : ctorRecord fp st ix r = .ok st') :
    fp.has_int r.region_name = true ∧
    st'.searchPairs
      = (if r.src_value ≠ r.target_value then
          StdMap.assign StdMap.pairLt (orderedPair r.src_value r.target_value) ix st.searchPairs
         else st.searchPairs) ∧
    st'.regions
      = (if (StdMap.find r.region_name st.regions).isNone then
          StdMap.assign StdMap.strLt r.region_name (fp.get_global_int r.region_name) st.regions
         else st.regions) := by
  dsimp only [ctorRecord] at h
  by_cases h1 : fp.has_int r.region_name = true
  · rw [if_pos h1] at h
    injection h with h
    subst h
    exact ⟨h1, rfl, rfl⟩
  · rw [if_neg h1] at h
    cases h

theorem ctorRecord_searchPairs {fp : FieldPropsManager} {st st' : CtorState} {ix : Nat}
    {r : MULTREGTRecord} (h : ctorRecord fp st ix r = .ok st') (p : Int × Int) :
    StdMap.find p st'.searchPairs
      = if FiledUnder r p then some ix else StdMap.find p st.searchPairs := by
  rw [(ctorRecord_ok h).2.1]
  simp only [FiledUnder]
  by_cases h2 : r.src_value = r.target_value
  · simp [h2]
  · by_cases h3 : orderedPair r.src_value r.target_value = p
    · subst h3
      simp [h2, StdMap.find_assign_self]
    · simp [h2, h3, StdMap.find_assign_ne _ _ _ (Ne.symm h3)]

theorem ctorRecords_searchPairs {fp : FieldPropsManager} {rs : List MULTREGTRecord}
    {st st' : CtorState} {ix : Nat} (h : ctorRecords fp ix rs st = .ok st') (p : Int × Int) :
    StdMap.find p st'.searchPairs = lastFiled p ix rs (StdMap.find p st.searchPairs) := by
  induction rs generalizing ix st with
  | nil =>
    simp only [ctorRecords, Except.ok.injEq] at h
    subst h
    rfl
  | cons r rest ih =>
    simp only [ctorRecords] at h
    split at h
    · simp at h
    · rename_i st₁ h₁
      rw [ih h, ctorRecord_searchPairs h₁ p]
      rfl

theorem ctorRecord_nodup {fp : FieldPropsManager} {st st' : CtorState} {ix : Nat}
    {r : MULTREGTRecord} (h : ctorRecord fp st ix r = .ok st')
    (hnd : (st.searchPairs.map Prod.fst).Nodup) : (st'.searchPairs.map Prod.fst).Nodup := by
  rw [(ctorRecord_ok h).2.1]
  split_ifs
  · exact StdMap.nodup_keys_assign _ _ _ hnd
  · exact hnd

theorem ctorRecords_nodup {fp : FieldPropsManager} {rs : List MULTREGTRecord}
    {st st' : CtorState} {ix : Nat} (h : ctorRecords fp ix rs st = .ok st')
    (hnd : (st.searchPairs.map Prod.fst).Nodup) : (st'.searchPairs.map Prod.fst).Nodup := by
  induction rs generalizing ix st with
  | nil =>
    simp only [ctorRecords, Except.ok.injEq] at h
    subst h
    exact hnd
  | cons r rest ih =>
    simp only [ctorRecords] at h
    split at h
    · simp at h
    · rename_i st₁ h₁
      exact ih h (ctorRecord_nodup h₁ hnd)

/-! ## The region arrays -/

theorem ctorRecord_regions {fp : FieldPropsManager} {st st' : CtorState} {ix : Nat}
    {r : MULTREGTRecord} (h : ctorRecord fp st ix r = .ok st') (name : String) :
    StdMap.find name st'.regions
      = if name = r.region_name ∧ StdMap.find name st.regions = none
          then some (fp.get_global_int name) else StdMap.find name st.regions := by
  rw [(ctorRecord_ok h).2.2]
  by_cases h1 : name = r.region_name
  · rw [h1]
    cases h2 : StdMap.find r.region_name st.regions with
    | none => simp [StdMap.find_assign_self]
    | some d => simp [h2]
  · simp only [h1, false_and, if_false]
    split_ifs
    · exact StdMap.find_assign_ne _ _ _ h1
    · rfl

theorem ctorRecords_regions_mono {fp : FieldPropsManager} {rs : List MULTREGTRecord}
    {st st' : CtorState} {ix : Nat} (h : ctorRecords fp ix rs st = .ok st') {name : String}
    {d : List Int} (hd : StdMap.find name st.regions = some d) :
    StdMap.find name st'.regions = some d := by
  induction rs generalizing ix st with
  | nil =>
    simp only [ctorRecords, Except.ok.injEq] at h
    subst h
    exact hd
  | cons r rest ih =>
    simp only [ctorRecords] at h
    split at h
    · simp at h
    · rename_i st₁ h₁
      refine ih h ?_
      rw [ctorRecord_regions h₁, hd]
      simp

theorem ctorRecords_regions_sound {fp : FieldPropsManager} {rs : List MULTREGTRecord}
    {st st' : CtorState} {ix : Nat} (h : ctorRecords fp ix rs st = .ok st')
    (hinv : ∀ name d, StdMap.find name st.regions = some d → d = fp.get_global_int name) :
    ∀ name d, StdMap.find name st'.regions = some d → d = fp.get_global_int name := by
  induction rs generalizing ix st with
  | nil =>
    simp only [ctorRecords, Except.ok.injEq] at h
    subst h
    exact hinv
  | cons r rest ih =>
    simp only [ctorRecords] at h
    split at h
    · simp at h
    · rename_i st₁ h₁
      refine ih h (fun name d hd => ?_)
      rw [ctorRecord_regions h₁] at hd
      split_ifs at hd
      · exact (Option.some.inj hd).symm
      · exact hinv name d hd

theorem ctorRecords_regions_present {fp : FieldPropsManager} {rs : List MULTREGTRecord}
    {st st' : CtorState} {ix : Nat} (h : ctorRecords fp ix rs st = .ok st') :
    ∀ r ∈ rs, fp.has_int r.region_name = true ∧
      (StdMap.find r.region_name st'.regions).isSome = true := by
  induction rs generalizing ix st with
  | nil => simp
  | cons r rest ih =>
    simp only [ctorRecords] at h
    split at h
    · simp at h
    · rename_i st₁ h₁
      intro r' hr'
      rcases List.mem_cons.mp hr' with hr' | hr'
      · subst hr'
        refine ⟨(ctorRecord_ok h₁).1, ?_⟩
        have h2 : (StdMap.find r'.region_name st₁.regions).isSome = true := by
          rw [ctorRecord_regions h₁]
          cases h3 : StdMap.find r'.region_name st.regions <;> simp
        obtain ⟨d, hd⟩ := Option.isSome_iff_exists.mp h2
        rw [ctorRecords_regions_mono h hd]
        rfl
      · exact ih h r' hr'

/-! ## The second loop of the constructor -/

theorem ctorSearchEntry_ok {rs : List MULTREGTRecord} {sm sm' : List (String × MULTREGTSearchMap)}
    {p : Int × Int} {ix : Nat} (h : ctorSearchEntry rs sm p ix = .ok sm') :
    ∃ r, rs[ix]? = some r ∧
      sm' = StdMap.assign StdMap.strLt r.region_name
              (StdMap.assign StdMap.pairLt p ix ((StdMap.find r.region_name sm).getD [])) sm := by
  unfold ctorSearchEntry at h
  split at h
  · cases h
  · rename_i r hr
    injection h with h
    exact ⟨r, hr, h.symm⟩

theorem ctorSearchEntry_inv (Q : String → (Int × Int) × Nat → Prop) {rs : List MULTREGTRecord}
    {sm sm' : List (String × MULTREGTSearchMap)} {p : Int × Int} {ix : Nat}
    (h : ctorSearchEntry rs sm p ix = .ok sm')
    (hinv : ∀ entry ∈ sm, ∀ e ∈ entry.2, Q entry.1 e)
    (hnew : ∀ r, rs[ix]? = some r → Q r.region_name (p, ix)) :
    ∀ entry ∈ sm', ∀ e ∈ entry.2, Q entry.1 e := by
  obtain ⟨r, hr, rfl⟩ := ctorSearchEntry_ok h
  intro entry hentry e he
  rcases StdMap.mem_assign hentry with hentry | hentry
  · subst hentry
    rcases StdMap.mem_assign he with he | he
    · subst he
      exact hnew r hr
    · cases hf : StdMap.find r.region_name sm with
      | none => simp [hf] at he
      | some inner =>
        rw [hf] at he
        exact hinv _ (StdMap.mem_of_find hf) e he
  · exact hinv entry hentry e he

theorem ctorSearchMap_inv (Q : String → (Int × Int) × Nat → Prop) {rs : List MULTREGTRecord}
    {sp : MULTREGTSearchMap} {sm sm' : List (String × MULTREGTSearchMap)}
    (h : ctorSearchMap rs sp sm = .ok sm')
    (hinv : ∀ entry ∈ sm, ∀ e ∈ entry.2, Q entry.1 e)
    (hnew : ∀ e ∈ sp, ∀ r, rs[e.2]? = some r → Q r.region_name e) :
    ∀ entry ∈ sm', ∀ e ∈ entry.2, Q entry.1 e := by
  induction sp generalizing sm with
  | nil =>
    simp only [ctorSearchMap, Except.ok.injEq] at h
    subst h
    exact hinv
  | cons e₀ rest ih =>
    obtain ⟨p, ix⟩ := e₀
    simp only [ctorSearchMap] at h
    split at h
    · simp at h
    · rename_i sm₁ h₁
      exact ih h
        (ctorSearchEntry_inv Q h₁ hinv (hnew (p, ix) (List.mem_cons_self _ _)))
        (fun e he => hnew e (List.mem_cons_of_mem _ he))

theorem ctorSearchEntry_indexed {rs : List MULTREGTRecord}
    {sm sm' : List (String × MULTREGTSearchMap)} {p : Int × Int} {ix : Nat}
    (h : ctorSearchEntry rs sm p ix = .ok sm') (name : String) (p' : Int × Int) :
    indexed sm' name p'
      = if p' = p ∧ (rs[ix]?).map (fun r => r.region_name) = some name then some ix
        else indexed sm name p' := by
  obtain ⟨r, hr, rfl⟩ := ctorSearchEntry_ok h
  simp only [hr, Option.map_some', Option.some.injEq, indexed]
  by_cases h1 : r.region_name = name
  · subst h1
    rw [StdMap.find_assign_self]
    simp only [Option.bind_some, and_true]
    by_cases h2 : p' = p
    · subst h2
      simp [StdMap.find_assign_self]
    · simp only [h2, if_false]
      show StdMap.find p' (StdMap.assign _ p ix _) = _
      rw [StdMap.find_assign_ne _ _ _ h2]
      cases StdMap.find r.region_name sm <;> rfl
  · rw [StdMap.find_assign_ne _ _ _ (Ne.symm h1)]
    simp [h1]

theorem ctorSearchMap_indexed {rs : List MULTREGTRecord} {sp : MULTREGTSearchMap}
    {sm sm' : List (String × MULTREGTSearchMap)} (h : ctorSearchMap rs sp sm = .ok sm')
    (hnd : (sp.map Prod.fst).Nodup) (name : String) (p : Int × Int) :
    indexed sm' name p
      = match StdMap.find p sp with
        | some ix =>
            if (rs[ix]?).map (fun r => r.region_name) = some name then some ix
            else indexed sm name p
        | none => indexed sm name p := by
  induction sp generalizing sm with
  | nil =>
    simp only [ctorSearchMap, Except.ok.injEq] at h
    subst h
    rfl
  | cons e₀ rest ih =>
    obtain ⟨p₀, ix₀⟩ := e₀
    simp only [List.map_cons, List.nodup_cons] at hnd
    simp only [ctorSearchMap] at h
    split at h
    · simp at h
    · rename_i sm₁ h₁
      rw [ih h hnd.2, ctorSearchEntry_indexed h₁]
      by_cases h2 : p₀ = p
      · subst h2
        have h3 : StdMap.find p₀ rest = none := StdMap.find_eq_none_iff.mpr hnd.1
        simp [StdMap.find, h3]
      · have h2' : ¬ p = p₀ := fun h => h2 h.symm
        simp only [StdMap.find, h2, if_false, h2', false_and]

theorem ctorSearchMap_names (P : String → Prop) {rs : List MULTREGTRecord}
    {sp : MULTREGTSearchMap} {sm sm' : List (String × MULTREGTSearchMap)}
    (h : ctorSearchMap rs sp sm = .ok sm') (hinv : ∀ entry ∈ sm, P entry.1)
    (hnew : ∀ r ∈ rs, P r.region_name) : ∀ entry ∈ sm', P entry.1 := by
  induction sp generalizing sm with
  | nil =>
    simp only [ctorSearchMap, Except.ok.injEq] at h
    subst h
    exact hinv
  | cons e₀ rest ih =>
    obtain ⟨p, ix⟩ := e₀
    simp only [ctorSearchMap] at h
    split at h
    · simp at h
    · rename_i sm₁ h₁
      refine ih h (fun entry hentry => ?_)
      obtain ⟨r, hr, rfl⟩ := ctorSearchEntry_ok h₁
      rcases StdMap.mem_assign hentry with hentry | hentry
      · subst hentry
        exact hnew r (List.getElem?_mem hr)
      · exact hinv entry hentry

/-! ## The constructed scanner -/

theorem fromRecords_ok {gd : GridDims} {fp : FieldPropsManager} {rs : List MULTREGTRecord}
    {s : MULTREGTScanner} (h : fromRecords gd fp rs = .ok s) :
    ∃ st, ctorRecords fp 0 rs { searchPairs := [], regions := [] } = .ok st ∧
      ctorSearchMap rs st.searchPairs [] = .ok s.m_searchMap ∧
      s.gridDims = gd ∧ s.m_records = rs ∧ s.regions = st.regions ∧ s.aquifer_cells = [] := by
  unfold fromRecords at h
  split at h
  · cases h
  · rename_i st hst
    split at h
    · cases h
    · rename_i sm hsm
      injection h with h
      subst h
      exact ⟨st, hst, hsm, rfl, rfl, rfl, rfl⟩

theorem orderedPair_lt {a b : Int} (h : a ≠ b) : (orderedPair a b).1 < (orderedPair a b).2 := by
  unfold orderedPair
  split_ifs with h1
  · exact lt_of_le_of_ne h1 h
  · exact lt_of_not_le h1

theorem orderedPair_comm (a b : Int) : orderedPair a b = orderedPair b a := by
  unfold orderedPair
  split_ifs with h1 h2 h2
  · have : a = b := le_antisymm h1 h2
    rw [this]
  · rfl
  · rfl
  · omega

theorem orderedPair_of_lt {a b : Int} (h : a < b) : orderedPair a b = (a, b) := by
  simp [orderedPair, le_of_lt h]

theorem filedUnder_lt {r : MULTREGTRecord} {p : Int × Int} (h : FiledUnder r p) : p.1 < p.2 := by
  obtain ⟨h1, h2⟩ := h
  rw [← h2]
  exact orderedPair_lt h1

theorem fromRecords_entries {gd : GridDims} {fp : FieldPropsManager} {rs : List MULTREGTRecord}
    {s : MULTREGTScanner} (h : fromRecords gd fp rs = .ok s) :
    ∀ entry ∈ s.m_searchMap, ∀ e ∈ entry.2,
      IsLastFiled rs e.1 e.2 ∧ (rs[e.2]?).map (fun r => r.region_name) = some entry.1 := by
  obtain ⟨st, hst, hsm, -, -, -, -⟩ := fromRecords_ok h
  have hnd : (st.searchPairs.map Prod.fst).Nodup := ctorRecords_nodup hst (by simp)
  refine ctorSearchMap_inv
    (fun name e => IsLastFiled rs e.1 e.2 ∧ (rs[e.2]?).map (fun r => r.region_name) = some name)
    hsm (by simp) ?_
  rintro ⟨p, ix⟩ he r hr
  refine ⟨?_, by simp [hr]⟩
  have hfind := StdMap.find_of_mem hnd he
  rw [ctorRecords_searchPairs hst p, lastFiled_eq_some] at hfind
  rcases hfind with ⟨i, hi, hlast⟩ | ⟨hacc, -⟩
  · have : ix = i := by omega
    rw [this]
    exact hlast
  · simp [StdMap.find] at hacc

theorem fromRecords_indexed {gd : GridDims} {fp : FieldPropsManager} {rs : List MULTREGTRecord}
    {s : MULTREGTScanner} (h : fromRecords gd fp rs = .ok s) (name : String) (p : Int × Int)
    (ix : Nat) :
    indexed s.m_searchMap name p = some ix ↔
      IsLastFiled rs p ix ∧ (rs[ix]?).map (fun r => r.region_name) = some name := by
  obtain ⟨st, hst, hsm, -, -, -, -⟩ := fromRecords_ok h
  have hnd : (st.searchPairs.map Prod.fst).Nodup := ctorRecords_nodup hst (by simp)
  have hfind : ∀ j, StdMap.find p st.searchPairs = some j ↔ IsLastFiled rs p j := by
    intro j
    rw [ctorRecords_searchPairs hst p, lastFiled_eq_some]
    constructor
    · rintro (⟨i, hi, hlast⟩ | ⟨hacc, -⟩)
      · have : j = i := by omega
        rw [this]
        exact hlast
      · simp [StdMap.find] at hacc
    · exact fun hlast => Or.inl ⟨j, by omega, hlast⟩
  rw [ctorSearchMap_indexed hsm hnd]
  cases hf : StdMap.find p st.searchPairs with
  | none =>
    simp only [indexed, StdMap.find, Option.none_bind, false_iff, not_and, reduceCtorEq]
    intro hlast
    rw [(hfind ix).mpr hlast] at hf
    cases hf
  | some j =>
    simp only [indexed, StdMap.find, Option.none_bind]
    constructor
    · intro h1
      split_ifs at h1 with h2
      · injection h1 with h1
        subst h1
        exact ⟨(hfind j).mp hf, h2⟩
    · rintro ⟨hlast, hname⟩
      have hj : j = ix := by
        have := (hfind ix).mpr hlast
        rw [hf] at this
        exact Option.some.inj this
      subst hj
      simp [hname]

theorem fromRecords_regions {gd : GridDims} {fp : FieldPropsManager} {rs : List MULTREGTRecord}
    {s : MULTREGTScanner} (h : fromRecords gd fp rs = .ok s) :
    (∀ entry ∈ s.m_searchMap,
        StdMap.find entry.1 s.regions = some (fp.get_global_int entry.1)) ∧
    (∀ name d, StdMap.find name s.regions = some d → d = fp.get_global_int name) := by
  obtain ⟨st, hst, hsm, -, -, hreg, -⟩ := fromRecords_ok h
  have hsound := ctorRecords_regions_sound hst (by simp [StdMap.find])
  rw [hreg]
  refine ⟨?_, hsound⟩
  refine ctorSearchMap_names
    (fun name => StdMap.find name st.regions = some (fp.get_global_int name)) hsm (by simp) ?_
  intro r hr
  obtain ⟨d, hd⟩ := Option.isSome_iff_exists.mp (ctorRecords_regions_present hst r hr).2
  rw [hd, hsound _ _ hd]

/-- The constructor establishes the consistency of the scanner state. -/
theorem fromRecords_consistent {gd : GridDims} {fp : FieldPropsManager}
    {rs : List MULTREGTRecord} {s : MULTREGTScanner} (h : fromRecords gd fp rs = .ok s) :
    Consistent s := by
  intro entry hentry
  refine ⟨by simp [(fromRecords_regions h).1 entry hentry], fun e he => ?_⟩
  obtain ⟨⟨r, hr, hf, -⟩, -⟩ := fromRecords_entries h entry hentry e he
  obtain ⟨st, -, -, -, hrec, -, -⟩ := fromRecords_ok h
  refine ⟨filedUnder_lt hf, ?_⟩
  rw [hrec]
  exact (List.getElem?_eq_some.mp hr).1

theorem ctorRecords_regions_values {fp : FieldPropsManager} {rs : List MULTREGTRecord}
    {st st' : CtorState} {ix : Nat} (h : ctorRecords fp ix rs st = .ok st')
    (hinv : ∀ entry ∈ st.regions, entry.2 = fp.get_global_int entry.1) :
    ∀ entry ∈ st'.regions, entry.2 = fp.get_global_int entry.1 := by
  induction rs generalizing ix st with
  | nil =>
    simp only [ctorRecords, Except.ok.injEq] at h
    subst h
    exact hinv
  | cons r rest ih =>
    simp only [ctorRecords] at h
    split at h
    · simp at h
    · rename_i st₁ h₁
      refine ih h (fun entry hentry => ?_)
      rw [(ctorRecord_ok h₁).2.2] at hentry
      split_ifs at hentry
      · rcases StdMap.mem_assign hentry with hentry | hentry
        · rw [hentry]
        · exact hinv entry hentry
      · exact hinv entry hentry

/-- Cell indices below the cell count are in range for the constructed scanner, when every
region array of the store has one region ID per cell. -/
theorem fromRecords_inRange {gd : GridDims} {fp : FieldPropsManager}
    {rs : List MULTREGTRecord} {s : MULTREGTScanner} (h : fromRecords gd fp rs = .ok s)
    {c : Nat} (hc : ∀ name, c < (fp.get_global_int name).length) : InRange s c := by
  obtain ⟨st, hst, -, -, -, hreg, -⟩ := fromRecords_ok h
  intro entry hentry
  rw [hreg] at hentry
  rw [ctorRecords_regions_values hst (by simp) entry hentry]
  exact hc entry.1

theorem isLastFiled_unique {rs : List MULTREGTRecord} {p : Int × Int} {i j : Nat}
    (hi : IsLastFiled rs p i) (hj : IsLastFiled rs p j) : i = j := by
  obtain ⟨ri, hri, hfi, hlasti⟩ := hi
  obtain ⟨rj, hrj, hfj, hlastj⟩ := hj
  rcases Nat.lt_trichotomy i j with h | h | h
  · exact absurd hfj (hlasti j rj h hrj)
  · exact h
  · exact absurd hfi (hlastj i ri h hri)

theorem exists_isLastFiled {rs : List MULTREGTRecord} {p : Int × Int}
    (h : ∃ r ∈ rs, FiledUnder r p) : ∃ ix, IsLastFiled rs p ix := by
  induction rs with
  | nil => simp at h
  | cons r rest ih =>
    by_cases hrest : ∃ r' ∈ rest, FiledUnder r' p
    · obtain ⟨ix, hix⟩ := ih hrest
      exact ⟨ix + 1, isLastFiled_succ.mpr hix⟩
    · have hnone : ∀ r' ∈ rest, ¬ FiledUnder r' p := fun r' hr' hf => hrest ⟨r', hr', hf⟩
      obtain ⟨r₀, hr₀, hf₀⟩ := h
      rcases List.mem_cons.mp hr₀ with hr₀ | hr₀
      · subst hr₀
        exact ⟨0, isLastFiled_zero.mpr ⟨hf₀, hnone⟩⟩
      · exact absurd hf₀ (hnone r₀ hr₀)

theorem fromRecords_documented (gd : GridDims) (fp : FieldPropsManager)
    (hM : fp.has_int "MULTNUM" = true) (hF : fp.has_int "FLUXNUM" = true) :
    fromRecords gd fp documentedDirectives
      = .ok { gridDims := gd
              m_records := documentedDirectives
              m_searchMap := [("FLUXNUM", [((2, 4), 1)])]
              regions := [("FLUXNUM", fp.get_global_int "FLUXNUM"),
                          ("MULTNUM", fp.get_global_int "MULTNUM")]
              aquifer_cells := [] } := by
  simp only [fromRecords, ctorRecords, ctorRecord, documentedDirectives, hM, hF, if_true]
  rfl

/-! ## Queries read the directive table through the search index only -/

theorem faceStep_congr {s s' : MULTREGTScanner} (hg : s'.gridDims = s.gridDims)
    (hreg : s'.regions = s.regions) (haq : s'.aquifer_cells = s.aquifer_cells)
    (c1 c2 : Nat) (d : FaceDir.DirEnum) (acc : ℚ) (entry : String × MULTREGTSearchMap)
    (hrec : ∀ e ∈ entry.2, s'.m_records[e.2]? = s.m_records[e.2]?) :
    faceStep s' c1 c2 d acc entry = faceStep s c1 c2 d acc entry := by
  have happ : ∀ nnc, s'.applyMultiplier c1 c2 nnc = s.applyMultiplier c1 c2 nnc := by
    intro nnc
    simp [applyMultiplier, isAquNNC, isAquCell, haq, hg]
  unfold faceStep
  simp only [hreg, happ]
  cases StdMap.find entry.1 s.regions with
  | none => rfl
  | some data =>
    dsimp only
    cases data[c1]? <;> cases data[c2]? <;> try rfl
    rename_i r1 r2
    dsimp only
    generalize hpos :
      (if r1 ≤ r2 then StdMap.find (r1, r2) entry.2 else StdMap.find (r2, r1) entry.2) = pos
    cases pos with
    | none => rfl
    | some ix =>
      have hmem : ∃ p, (p, ix) ∈ entry.2 := by
        split_ifs at hpos
        · exact ⟨_, StdMap.mem_of_find hpos⟩
        · exact ⟨_, StdMap.mem_of_find hpos⟩
      obtain ⟨p, hp⟩ := hmem
      dsimp only
      rw [hrec _ hp]

theorem nncStep_congr {s s' : MULTREGTScanner}
    (hreg : s'.regions = s.regions) (haq : s'.aquifer_cells = s.aquifer_cells)
    (c1 c2 : Nat) (acc : ℚ) (entry : String × MULTREGTSearchMap)
    (hrec : ∀ e ∈ entry.2, s'.m_records[e.2]? = s.m_records[e.2]?) :
    nncStep s' c1 c2 acc entry = nncStep s c1 c2 acc entry := by
  have haqu : s'.isAquNNC c1 c2 = s.isAquNNC c1 c2 := by simp [isAquNNC, isAquCell, haq]
  unfold nncStep
  rw [hreg, haqu]
  cases StdMap.find entry.1 s.regions with
  | none => rfl
  | some data =>
    dsimp only
    cases data[c1]? <;> cases data[c2]? <;> try rfl
    rename_i r1 r2
    dsimp only
    cases hpos : StdMap.find (r1, r2) entry.2 with
    | none => rfl
    | some ix =>
      dsimp only
      rw [hrec _ (StdMap.mem_of_find hpos)]

theorem faceLoop_congr {s s' : MULTREGTScanner} (hg : s'.gridDims = s.gridDims)
    (hreg : s'.regions = s.regions) (haq : s'.aquifer_cells = s.aquifer_cells)
    (c1 c2 : Nat) (d : FaceDir.DirEnum) (l : List (String × MULTREGTSearchMap)) (acc : ℚ)
    (hrec : ∀ entry ∈ l, ∀ e ∈ entry.2, s'.m_records[e.2]? = s.m_records[e.2]?) :
    faceLoop s' c1 c2 d l acc = faceLoop s c1 c2 d l acc := by
  induction l generalizing acc with
  | nil => rfl
  | cons entry rest ih =>
    simp only [faceLoop]
    rw [faceStep_congr hg hreg haq c1 c2 d acc entry (hrec entry (List.mem_cons_self _ _))]
    cases faceStep s c1 c2 d acc entry with
    | error e => rfl
    | ok acc' => exact ih acc' (fun entry' h' => hrec entry' (List.mem_cons_of_mem _ h'))

theorem nncLoop_congr {s s' : MULTREGTScanner}
    (hreg : s'.regions = s.regions) (haq : s'.aquifer_cells = s.aquifer_cells)
    (c1 c2 : Nat) (l : List (String × MULTREGTSearchMap)) (acc : ℚ)
    (hrec : ∀ entry ∈ l, ∀ e ∈ entry.2, s'.m_records[e.2]? = s.m_records[e.2]?) :
    nncLoop s' c1 c2 l acc = nncLoop s c1 c2 l acc := by
  induction l generalizing acc with
  | nil => rfl
  | cons entry rest ih =>
    simp only [nncLoop]
    rw [nncStep_congr hreg haq c1 c2 acc entry (hrec entry (List.mem_cons_self _ _))]
    cases nncStep s c1 c2 acc entry with
    | error e => rfl
    | ok acc' => exact ih acc' (fun entry' h' => hrec entry' (List.mem_cons_of_mem _ h'))

theorem queries_congr {s s' : MULTREGTScanner} (hg : s'.gridDims = s.gridDims)
    (hsm : s'.m_searchMap = s.m_searchMap)
    (hreg : s'.regions = s.regions) (haq : s'.aquifer_cells = s.aquifer_cells)
    (hrec : ∀ entry ∈ s.m_searchMap, ∀ e ∈ entry.2, s'.m_records[e.2]? = s.m_records[e.2]?)
    (c1 c2 : Nat) :
    getRegionMultiplierNNC s' c1 c2 = getRegionMultiplierNNC s c1 c2 ∧
      ∀ d, getRegionMultiplier s' c1 c2 d = getRegionMultiplier s c1 c2 d := by
  refine ⟨?_, fun d => ?_⟩
  · unfold getRegionMultiplierNNC
    rw [hsm, nncLoop_congr hreg haq c1 c2 _ _ hrec]
  · unfold getRegionMultiplier
    rw [hsm, faceLoop_congr hg hreg haq c1 c2 d _ _ hrec]

/-! ## The search index depends on the regions and names of the directives only -/

theorem ctorRecord_keyOf (fp : FieldPropsManager) (st : CtorState) (ix : Nat)
    {r r' : MULTREGTRecord} (h : keyOf r = keyOf r') :
    ctorRecord fp st ix r = ctorRecord fp st ix r' := by
  simp only [keyOf, Prod.mk.injEq] at h
  simp only [ctorRecord, h.1, h.2.1, h.2.2]

theorem ctorRecords_keyOf (fp : FieldPropsManager) {rs rs' : List MULTREGTRecord}
    (h : rs.map keyOf = rs'.map keyOf) (ix : Nat) (st : CtorState) :
    ctorRecords fp ix rs st = ctorRecords fp ix rs' st := by
  induction rs generalizing rs' ix st with
  | nil =>
    cases rs' with
    | nil => rfl
    | cons r' rest' => simp at h
  | cons r rest ih =>
    cases rs' with
    | nil => simp at h
    | cons r' rest' =>
      simp only [List.map_cons, List.cons.injEq] at h
      simp only [ctorRecords]
      rw [ctorRecord_keyOf fp st ix h.1]
      cases ctorRecord fp st ix r' with
      | error e => rfl
      | ok st' => exact ih h.2 _ _

theorem ctorSearchEntry_keyOf {rs rs' : List MULTREGTRecord} (h : rs.map keyOf = rs'.map keyOf)
    (sm : List (String × MULTREGTSearchMap)) (p : Int × Int) (ix : Nat) :
    ctorSearchEntry rs sm p ix = ctorSearchEntry rs' sm p ix := by
  have h1 : (rs[ix]?).map keyOf = (rs'[ix]?).map keyOf := by
    rw [← List.getElem?_map, ← List.getElem?_map, h]
  unfold ctorSearchEntry
  cases hr : rs[ix]? with
  | none =>
    cases hr' : rs'[ix]? with
    | none => rfl
    | some r' => simp [hr, hr'] at h1
  | some r =>
    cases hr' : rs'[ix]? with
    | none => simp [hr, hr'] at h1
    | some r' =>
      simp only [hr, hr', Option.map_some', Option.some.injEq, keyOf, Prod.mk.injEq] at h1
      simp only [h1.2.2]

theorem ctorSearchMap_keyOf {rs rs' : List MULTREGTRecord} (h : rs.map keyOf = rs'.map keyOf)
    (sp : MULTREGTSearchMap) (sm : List (String × MULTREGTSearchMap)) :
    ctorSearchMap rs sp sm = ctorSearchMap rs' sp sm := by
  induction sp generalizing sm with
  | nil => rfl
  | cons e rest ih =>
    obtain ⟨p, ix⟩ := e
    simp only [ctorSearchMap]
    rw [ctorSearchEntry_keyOf h sm p ix]
    cases ctorSearchEntry rs' sm p ix with
    | error e => rfl
    | ok sm' => exact ih sm'

theorem fromRecords_keyOf {gd : GridDims} {fp : FieldPropsManager}
    {rs rs' : List MULTREGTRecord} (hk : rs.map keyOf = rs'.map keyOf) {s : MULTREGTScanner}
    (h : fromRecords gd fp rs = .ok s) :
    fromRecords gd fp rs' = .ok { s with m_records := rs' } := by
  obtain ⟨st, hst, hsm, hg, hrec, hreg, haq⟩ := fromRecords_ok h
  unfold fromRecords
  rw [← ctorRecords_keyOf fp hk, hst]
  dsimp only
  rw [← ctorSearchMap_keyOf hk, hsm]
  dsimp only
  rw [hg, hreg, haq]

theorem map_set_of_eq {α β : Type} (f : α → β) {l : List α} {i : Nat} {a a' : α}
    (hi : l[i]? = some a) (h : f a' = f a) : (l.set i a').map f = l.map f := by
  induction l generalizing i with
  | nil => rfl
  | cons x rest ih =>
    cases i with
    | zero =>
      simp only [List.getElem?_cons_zero, Option.some.injEq] at hi
      subst hi
      simp [h]
    | succ n =>
      simp only [List.getElem?_cons_succ] at hi
      simp [ih hi]

theorem filedUnder_of_pair_eq {r r' : MULTREGTRecord} {p : Int × Int} (h : FiledUnder r p)
    (hpair : orderedPair r.src_value r.target_value
      = orderedPair r'.src_value r'.target_value) : FiledUnder r' p := by
  refine ⟨fun heq => ?_, hpair ▸ h.2⟩
  have hlt := orderedPair_lt h.1
  rw [hpair, heq] at hlt
  simp [orderedPair] at hlt

/-! ## The face query as a product -/

theorem find_orderedPair (r1 r2 : Int) (m : MULTREGTSearchMap) :
    (if r1 ≤ r2 then StdMap.find (r1, r2) m else StdMap.find (r2, r1) m)
      = StdMap.find (orderedPair r1 r2) m := by
  unfold orderedPair
  split_ifs <;> rfl

theorem inRange_getElem? {s : MULTREGTScanner} {c : Nat} (hc : InRange s c) {name : String}
    {data : List Int} (h : StdMap.find name s.regions = some data) :
    ∃ r, data[c]? = some r := by
  have hlt : c < data.length := hc _ (StdMap.mem_of_find h)
  exact ⟨data[c], List.getElem?_eq_getElem hlt⟩

theorem faceStep_eq {s : MULTREGTScanner} {c1 c2 : Nat} (d : FaceDir.DirEnum) (acc : ℚ)
    {entry : String × MULTREGTSearchMap}
    (hreg : (StdMap.find entry.1 s.regions).isSome = true)
    (hent : ∀ e ∈ entry.2, e.1.1 < e.1.2 ∧ e.2 < s.m_records.length)
    (h1 : InRange s c1) (h2 : InRange s c2) :
    faceStep s c1 c2 d acc entry = .ok (acc * faceFactor s c1 c2 d entry) := by
  obtain ⟨data, hdata⟩ := Option.isSome_iff_exists.mp hreg
  obtain ⟨r1, hr1⟩ := inRange_getElem? h1 hdata
  obtain ⟨r2, hr2⟩ := inRange_getElem? h2 hdata
  simp only [faceStep, faceFactor, faceDirective, positionFor, hdata, hr1, hr2,
    find_orderedPair]
  cases hpos : StdMap.find (orderedPair r1 r2) entry.2 with
  | none => simp
  | some ix =>
    obtain ⟨hlt, hix⟩ := hent _ (StdMap.mem_of_find hpos)
    obtain ⟨record, hrec⟩ : ∃ record, s.m_records[ix]? = some record :=
      ⟨s.m_records[ix], List.getElem?_eq_getElem hix⟩
    have hne : r1 ≠ r2 := by
      intro heq
      rw [heq] at hlt
      simp [orderedPair] at hlt
    simp only [hrec, hne, if_false]
    by_cases hdir : record.directions &&& d.toNat = 0
    · simp [hdir]
    · by_cases happ : applyMultiplier s c1 c2 record.nnc_behaviour = true
      · simp [hdir, happ]
      · simp [hdir, happ]

theorem faceLoop_eq {s : MULTREGTScanner} {c1 c2 : Nat} (d : FaceDir.DirEnum)
    (l : List (String × MULTREGTSearchMap)) (acc : ℚ)
    (hl : ∀ entry ∈ l, (StdMap.find entry.1 s.regions).isSome = true ∧
      ∀ e ∈ entry.2, e.1.1 < e.1.2 ∧ e.2 < s.m_records.length)
    (h1 : InRange s c1) (h2 : InRange s c2) :
    faceLoop s c1 c2 d l acc = .ok (acc * (l.map (faceFactor s c1 c2 d)).prod) := by
  induction l generalizing acc with
  | nil => simp [faceLoop]
  | cons entry rest ih =>
    obtain ⟨hreg, hent⟩ := hl entry (List.mem_cons_self _ _)
    simp only [faceLoop, faceStep_eq d acc hreg hent h1 h2, List.map_cons, List.prod_cons]
    rw [ih _ (fun e he => hl e (List.mem_cons_of_mem _ he)), mul_assoc]

theorem getRegionMultiplier_eq_prod {s : MULTREGTScanner} {c1 c2 : Nat} (d : FaceDir.DirEnum)
    (hs : Consistent s) (h1 : InRange s c1) (h2 : InRange s c2) :
    getRegionMultiplier s c1 c2 d = .ok ((s.m_searchMap.map (faceFactor s c1 c2 d)).prod) := by
  unfold getRegionMultiplier
  split_ifs with hempty
  · have : s.m_searchMap = [] := by simpa using hempty
    simp [this]
  · rw [faceLoop_eq d _ 1 hs h1 h2, one_mul]

theorem twoSetScanner_constructed :
    fromRecords { getIJK := fun g => (g, 0, 0) } twoSetStore twoSetDirectives
      = .ok twoSetScanner :=
  rfl

theorem consistent_of_perm {s : MULTREGTScanner} {sm : List (String × MULTREGTSearchMap)}
    (hp : sm.Perm s.m_searchMap) (hs : Consistent s) :
    Consistent { s with m_searchMap := sm } :=
  fun entry hentry => hs entry (hp.mem_iff.mp hentry)

theorem faceFactor_searchMap (s : MULTREGTScanner) (sm : List (String × MULTREGTSearchMap))
    (c1 c2 : Nat) (d : FaceDir.DirEnum) :
    faceFactor { s with m_searchMap := sm } c1 c2 d = faceFactor s c1 c2 d :=
  rfl

theorem faceFactor_of_none {s : MULTREGTScanner} {c1 c2 : Nat} (d : FaceDir.DirEnum)
    {entry : String × MULTREGTSearchMap} (h : positionFor s c1 c2 entry = none) :
    faceFactor s c1 c2 d entry = 1 := by
  simp [faceFactor, faceDirective, h]

theorem faceLoop_id {s : MULTREGTScanner} {c1 c2 : Nat} {d : FaceDir.DirEnum}
    (l : List (String × MULTREGTSearchMap)) (acc : ℚ)
    (hl : ∀ entry ∈ l, ∀ acc', faceStep s c1 c2 d acc' entry = .ok acc') :
    faceLoop s c1 c2 d l acc = .ok acc := by
  induction l with
  | nil => rfl
  | cons entry rest ih =>
    simp only [faceLoop, hl entry (List.mem_cons_self _ _) acc]
    exact ih (fun e he => hl e (List.mem_cons_of_mem _ he))

theorem nncLoop_id {s : MULTREGTScanner} {c1 c2 : Nat}
    (l : List (String × MULTREGTSearchMap)) (acc : ℚ)
    (hl : ∀ entry ∈ l, ∀ acc', nncStep s c1 c2 acc' entry = .ok acc') :
    nncLoop s c1 c2 l acc = .ok acc := by
  induction l with
  | nil => rfl
  | cons entry rest ih =>
    simp only [nncLoop, hl entry (List.mem_cons_self _ _) acc]
    exact ih (fun e he => hl e (List.mem_cons_of_mem _ he))

theorem nncStep_of_none {s : MULTREGTScanner} {c1 c2 : Nat} (acc : ℚ)
    {entry : String × MULTREGTSearchMap}
    (hreg : (StdMap.find entry.1 s.regions).isSome = true)
    (hent : ∀ e ∈ entry.2, e.1.1 < e.1.2 ∧ e.2 < s.m_records.length)
    (h1 : InRange s c1) (h2 : InRange s c2) (h : positionFor s c1 c2 entry = none) :
    nncStep s c1 c2 acc entry = .ok acc := by
  obtain ⟨data, hdata⟩ := Option.isSome_iff_exists.mp hreg
  obtain ⟨r1, hr1⟩ := inRange_getElem? h1 hdata
  obtain ⟨r2, hr2⟩ := inRange_getElem? h2 hdata
  simp only [positionFor, hdata, hr1, hr2] at h
  simp only [nncStep, hdata, hr1, hr2]
  cases hpos : StdMap.find (r1, r2) entry.2 with
  | none => rfl
  | some ix =>
    have hlt : r1 < r2 := (hent _ (StdMap.mem_of_find hpos)).1
    rw [orderedPair_of_lt hlt, hpos] at h
    cases h

/-! ## The decision to apply a directive -/

theorem applyMultiplier_eq_false_iff (s : MULTREGTScanner) (c1 c2 : Nat)
    (nnc : MULTREGT.NNCBehaviourEnum) :
    applyMultiplier s c1 c2 nnc = false ↔
      (nnc = .NNC ∧ is_adjacent_cells s.gridDims c1 c2 = true ∧
          (s.isAquCell c1 = false ∧ s.isAquCell c2 = false)) ∨
      (nnc = .NONNC ∧ (is_adjacent_cells s.gridDims c1 c2 = false ∨
          (s.isAquCell c1 = true ∨ s.isAquCell c2 = true))) ∨
      (nnc = .NOAQUNNC ∧ (s.isAquCell c1 = true ∨ s.isAquCell c2 = true)) := by
  unfold applyMultiplier ignoreMultiplierRecord isAquNNC
  cases nnc <;> cases is_adjacent_cells s.gridDims c1 c2 <;> cases s.isAquCell c1 <;>
    cases s.isAquCell c2 <;> simp

theorem faceFactor_of_directive {s : MULTREGTScanner} {c1 c2 : Nat} {d : FaceDir.DirEnum}
    {entry : String × MULTREGTSearchMap} {record : MULTREGTRecord}
    (hrec : faceDirective s c1 c2 entry = some record)
    (hdir : record.directions &&& d.toNat ≠ 0) :
    faceFactor s c1 c2 d entry
      = if applyMultiplier s c1 c2 record.nnc_behaviour = false then 1
        else record.trans_mult := by
  simp only [faceFactor, hrec, hdir, ne_eq, not_false_eq_true, true_and]
  cases applyMultiplier s c1 c2 record.nnc_behaviour <;> simp

/-! ## Directives that an aquifer connection switches off -/

theorem faceStep_set_noaqu {s : MULTREGTScanner} {c1 c2 : Nat}
    (haqu : s.isAquNNC c1 c2 = true) {i : Nat} {r : MULTREGTRecord}
    (hi : s.m_records[i]? = some r) (hnnc : r.nnc_behaviour = .NOAQUNNC) (mult : ℚ)
    (d : FaceDir.DirEnum) (acc : ℚ) (entry : String × MULTREGTSearchMap) :
    faceStep { s with m_records := s.m_records.set i { r with trans_mult := mult } }
        c1 c2 d acc entry
      = faceStep s c1 c2 d acc entry := by
  have happ : ∀ nnc,
      applyMultiplier { s with m_records := s.m_records.set i { r with trans_mult := mult } }
        c1 c2 nnc = applyMultiplier s c1 c2 nnc := fun _ => rfl
  have hoff : applyMultiplier s c1 c2 .NOAQUNNC = false := by
    simp [applyMultiplier, ignoreMultiplierRecord, haqu]
  unfold faceStep
  simp only [happ]
  cases StdMap.find entry.1 s.regions with
  | none => rfl
  | some data =>
    dsimp only
    cases data[c1]? <;> cases data[c2]? <;> try rfl
    rename_i r1 r2
    dsimp only
    generalize
      (if r1 ≤ r2 then StdMap.find (r1, r2) entry.2 else StdMap.find (r2, r1) entry.2) = pos
    cases pos with
    | none => rfl
    | some ix =>
      dsimp only
      by_cases hix : i = ix
      · subst hix
        rw [List.getElem?_set_self (List.getElem?_eq_some.mp hi).1, hi]
        simp [hnnc, hoff]
      · rw [List.getElem?_set_ne hix]

theorem nncStep_set_noaqu {s : MULTREGTScanner} {c1 c2 : Nat}
    (haqu : s.isAquNNC c1 c2 = true) {i : Nat} {r : MULTREGTRecord}
    (hi : s.m_records[i]? = some r) (hnnc : r.nnc_behaviour = .NOAQUNNC) (mult : ℚ)
    (acc : ℚ) (entry : String × MULTREGTSearchMap) :
    nncStep { s with m_records := s.m_records.set i { r with trans_mult := mult } }
        c1 c2 acc entry
      = nncStep s c1 c2 acc entry := by
  have haqu' :
      isAquNNC { s with m_records := s.m_records.set i { r with trans_mult := mult } } c1 c2
        = true := haqu
  unfold nncStep
  simp only [haqu, haqu']
  cases StdMap.find entry.1 s.regions with
  | none => rfl
  | some data =>
    dsimp only
    cases data[c1]? <;> cases data[c2]? <;> try rfl
    rename_i r1 r2
    dsimp only
    cases StdMap.find (r1, r2) entry.2 with
    | none => rfl
    | some ix =>
      dsimp only
      by_cases hix : i = ix
      · subst hix
        rw [List.getElem?_set_self (List.getElem?_eq_some.mp hi).1, hi]
        simp [hnnc, ignoreMultiplierRecordNNC]
      · rw [List.getElem?_set_ne hix]

theorem faceLoop_of_step {s s' : MULTREGTScanner} {c1 c2 : Nat} {d : FaceDir.DirEnum}
    (hstep : ∀ acc entry, faceStep s' c1 c2 d acc entry = faceStep s c1 c2 d acc entry)
    (l : List (String × MULTREGTSearchMap)) (acc : ℚ) :
    faceLoop s' c1 c2 d l acc = faceLoop s c1 c2 d l acc := by
  induction l generalizing acc with
  | nil => rfl
  | cons entry rest ih =>
    simp only [faceLoop, hstep]
    cases faceStep s c1 c2 d acc entry with
    | error e => rfl
    | ok acc' => exact ih acc'

theorem nncLoop_of_step {s s' : MULTREGTScanner} {c1 c2 : Nat}
    (hstep : ∀ acc entry, nncStep s' c1 c2 acc entry = nncStep s c1 c2 acc entry)
    (l : List (String × MULTREGTSearchMap)) (acc : ℚ) :
    nncLoop s' c1 c2 l acc = nncLoop s c1 c2 l acc := by
  induction l generalizing acc with
  | nil => rfl
  | cons entry rest ih =>
    simp only [nncLoop, hstep]
    cases nncStep s c1 c2 acc entry with
    | error e => rfl
    | ok acc' => exact ih acc'

/-! ## The end-to-end example -/

theorem endToEnd_masks :
    FaceDir.FromMULTREGTString "Z" = .ok 48 ∧ FaceDir.FromMULTREGTString "XY" = .ok 15 := by
  decide

theorem fromRecords_endToEnd (gd : GridDims) (fp : FieldPropsManager)
    (hM : fp.has_int "MULTNUM" = true) (hF : fp.has_int "FLUXNUM" = true) :
    fromRecords gd fp endToEndDirectives
      = .ok { gridDims := gd
              m_records := endToEndDirectives
              m_searchMap := [("FLUXNUM", [((1, 2), 1)])]
              regions := [("FLUXNUM", fp.get_global_int "FLUXNUM"),
                          ("MULTNUM", fp.get_global_int "MULTNUM")]
              aquifer_cells := [] } := by
  simp only [fromRecords, ctorRecords, ctorRecord, endToEndDirectives, hM, hF, if_true]
  rfl

/-- C1 as stated fails: in a column of two cells with `MULTNUM` and `FLUXNUM` values `1` and
`2`, the scanner built from the end-to-end directive list answers the `Z` face query on the
two adjacent cells with `1`, not with `0.75`. -/
theorem endToEnd_Z_refuted :
    is_adjacent_cells columnGrid 0 1 = true ∧
    HasValues (twoCellStore.get_global_int "MULTNUM") 0 1 1 2 ∧
    HasValues (twoCellStore.get_global_int "FLUXNUM") 0 1 1 2 ∧
    (fromRecords columnGrid twoCellStore endToEndDirectives).bind
        (fun s => s.getRegionMultiplier 0 1 .ZPlus) = .ok 1 ∧
    (fromRecords columnGrid twoCellStore endToEndDirectives).bind
        (fun s => s.getRegionMultiplier 0 1 .ZPlus) ≠ .ok (3 / 4) := by
  with_unfolding_all decide

/-- C1, amended: for the scanner built from the directive list
`[(1, 2, 0.75, Z, ALL, MULTNUM), (1, 2, 2.50, XY, ALL, FLUXNUM)]` and any two structurally
adjacent cells whose `MULTNUM` values are 1 and 2 and whose `FLUXNUM` values are 1 and 2,
the face query with a `Z` face direction returns `1`: the `FLUXNUM` directive has taken the
place of the `MULTNUM` directive for the pair (1, 2), and its mask does not include `Z`. -/
theorem endToEnd_Z (gd : GridDims) (fp : FieldPropsManager) (c1 c2 : Nat)
    (d : FaceDir.DirEnum) (hd : d = .ZPlus ∨ d = .ZMinus)
    (hM : fp.has_int "MULTNUM" = true) (hF : fp.has_int "FLUXNUM" = true)
    (_hadj : is_adjacent_cells gd c1 c2 = true)
    (_hm : HasValues (fp.get_global_int "MULTNUM") c1 c2 1 2)
    (hf : HasValues (fp.get_global_int "FLUXNUM") c1 c2 1 2) :
    ∃ s, fromRecords gd fp endToEndDirectives = .ok s ∧
      s.getRegionMultiplier c1 c2 d = .ok 1 := by
  refine ⟨_, fromRecords_endToEnd gd fp hM hF, ?_⟩
  rcases hf with ⟨h1, h2⟩ | ⟨h1, h2⟩ <;> rcases hd with rfl | rfl <;>
    simp [getRegionMultiplier, faceLoop, faceStep, StdMap.find, h1, h2, endToEndDirectives,
      FaceDir.DirEnum.toNat, (by decide : (15 &&& 16 : Nat) = 0),
      (by decide : (15 &&& 32 : Nat) = 0)]

theorem endToEnd_Z_witness :
    ∃ s, fromRecords columnGrid twoCellStore endToEndDirectives = .ok s ∧
      s.getRegionMultiplier 0 1 .ZPlus = .ok 1 :=
  endToEnd_Z columnGrid twoCellStore 0 1 .ZPlus (Or.inl rfl) (by decide) (by decide)
    (by decide) (by decide) (by decide)

/-- C2: for the scanner built from the directive list
`[(1, 2, 0.75, Z, ALL, MULTNUM), (1, 2, 2.50, XY, ALL, FLUXNUM)]` and any two structurally
adjacent cells whose `MULTNUM` values are 1 and 2 and whose `FLUXNUM` values are 1 and 2,
the face query with an `X` face direction returns `2.50`. -/
theorem endToEnd_X (gd : GridDims) (fp : FieldPropsManager) (c1 c2 : Nat)
    (d : FaceDir.DirEnum) (hd : d = .XPlus ∨ d = .XMinus)
    (hM : fp.has_int "MULTNUM" = true) (hF : fp.has_int "FLUXNUM" = true)
    (_hadj : is_adjacent_cells gd c1 c2 = true)
    (_hm : HasValues (fp.get_global_int "MULTNUM") c1 c2 1 2)
    (hf : HasValues (fp.get_global_int "FLUXNUM") c1 c2 1 2) :
    ∃ s, fromRecords gd fp endToEndDirectives = .ok s ∧
      s.getRegionMultiplier c1 c2 d = .ok (5 / 2) := by
  refine ⟨_, fromRecords_endToEnd gd fp hM hF, ?_⟩
  rcases hf with ⟨h1, h2⟩ | ⟨h1, h2⟩ <;> rcases hd with rfl | rfl <;>
    simp [getRegionMultiplier, faceLoop, faceStep, StdMap.find, h1, h2, endToEndDirectives,
      FaceDir.DirEnum.toNat, applyMultiplier, (by decide : (15 &&& 1 : Nat) = 1),
      (by decide : (15 &&& 2 : Nat) = 2)]

theorem endToEnd_X_witness :
    ∃ s, fromRecords rowGrid twoCellStore endToEndDirectives = .ok s ∧
      s.getRegionMultiplier 0 1 .XPlus = .ok (5 / 2) :=
  endToEnd_X rowGrid twoCellStore 0 1 .XPlus (Or.inl rfl) (by decide) (by decide)
    (by decide) (by decide) (by decide)

/-! ## Which directives the search index holds -/

/-- C3 as stated fails: the end-to-end directive list is accepted and has a `MULTNUM`
directive for the pair (1, 2), yet the search index has no entry for (1, 2) under `MULTNUM`;
the pair is found under `FLUXNUM` only. -/
theorem searchIndex_namespacing_refuted :
    (∃ r ∈ endToEndDirectives, r.region_name = "MULTNUM" ∧ FiledUnder r (1, 2)) ∧
    (∃ r ∈ endToEndDirectives, r.region_name = "FLUXNUM" ∧ FiledUnder r (1, 2)) ∧
    (fromRecords columnGrid twoCellStore endToEndDirectives).bind
        (fun s => .ok (indexed s.m_searchMap "MULTNUM" (1, 2),
                       indexed s.m_searchMap "FLUXNUM" (1, 2)))
      = (.ok (none, some 1) : Except Error (Option Nat × Option Nat)) := by
  decide

/-- C3, amended: for every directive sequence accepted by the constructor, every region-set
name `N` and every ordered pair `p` such that the last directive carrying `p`, over all
region sets, has the name `N`, the search index has an entry for `p` under `N`, and it is the
position of that directive.  Directives of two region sets for the same numeric pair do
overwrite each other: under every other name the search index has no entry for `p`. -/
theorem searchIndex_namespacing (gd : GridDims) (fp : FieldPropsManager)
    (rs : List MULTREGTRecord) (s : MULTREGTScanner) (h : fromRecords gd fp rs = .ok s)
    (N : String) (p : Int × Int) (ix : Nat) (r : MULTREGTRecord)
    (hr : rs[ix]? = some r) (hN : r.region_name = N) (hp : FiledUnder r p)
    (hlast : ∀ k r', ix < k → rs[k]? = some r' → ¬ FiledUnder r' p) :
    indexed s.m_searchMap N p = some ix ∧
      ∀ N', N' ≠ N → indexed s.m_searchMap N' p = none := by
  have hl : IsLastFiled rs p ix := ⟨r, hr, hp, hlast⟩
  refine ⟨(fromRecords_indexed h N p ix).mpr ⟨hl, by simp [hr, hN]⟩, fun N' hN' => ?_⟩
  cases hidx : indexed s.m_searchMap N' p with
  | none => rfl
  | some j =>
    obtain ⟨hj, hname⟩ := (fromRecords_indexed h N' p j).mp hidx
    have hji : j = ix := isLastFiled_unique hj hl
    subst hji
    simp only [hr, Option.map_some', Option.some.injEq] at hname
    exact absurd (hname.symm.trans hN) hN'

theorem searchIndex_namespacing_witness :
    indexed [("FLUXNUM", [((1, 2), 1)])] "FLUXNUM" (1, 2) = some 1 ∧
      ∀ N', N' ≠ "FLUXNUM" → indexed [("FLUXNUM", [((1, 2), 1)])] N' (1, 2) = none :=
  searchIndex_namespacing columnGrid twoCellStore endToEndDirectives _
    (fromRecords_endToEnd columnGrid twoCellStore (by decide) (by decide))
    "FLUXNUM" (1, 2) 1 _ rfl (by decide) (by decide)
    (fun k r' hk hr' => by
      have hlen : k < endToEndDirectives.length := (List.getElem?_eq_some.mp hr').1
      simp only [endToEndDirectives, List.length_cons, List.length_nil] at hlen
      omega)

/-- C4: the overwrite rule of the comment ahead of the constructor.  For the documented
keyword, records `2 4 0.75 Z ALL M` and `2 4 2.50 XY ALL F`, the constructed search index is
the single entry (2, 4) under `FLUXNUM`, at the position of the second record, and has no
entry for (2, 4) under `MULTNUM`.  In general an entry of the search index under a name `N`
for a pair `p` is the position of the last directive carrying `p`, over all region sets, and
`N` is the name of that directive; hence a pair that any directive carries is held under
exactly one region-set name. -/
theorem overwrite_rule (gd : GridDims) (fp : FieldPropsManager) :
    (fp.has_int "MULTNUM" = true → fp.has_int "FLUXNUM" = true →
      ∃ s, fromRecords gd fp documentedDirectives = .ok s ∧
        s.m_searchMap = [("FLUXNUM", [((2, 4), 1)])] ∧
        indexed s.m_searchMap "FLUXNUM" (2, 4) = some 1 ∧
        indexed s.m_searchMap "MULTNUM" (2, 4) = none) ∧
    (∀ rs s, fromRecords gd fp rs = .ok s →
      (∀ N p ix, indexed s.m_searchMap N p = some ix ↔
        IsLastFiled rs p ix ∧ (rs[ix]?).map (fun r => r.region_name) = some N) ∧
      (∀ p, (∃ r ∈ rs, FiledUnder r p) →
        ∃ ix r, rs[ix]? = some r ∧ IsLastFiled rs p ix ∧
          indexed s.m_searchMap r.region_name p = some ix ∧
          ∀ N, N ≠ r.region_name → indexed s.m_searchMap N p = none)) := by
  refine ⟨fun hM hF => ⟨_, fromRecords_documented gd fp hM hF, rfl, rfl, rfl⟩, ?_⟩
  intro rs s h
  refine ⟨fun N p ix => fromRecords_indexed h N p ix, fun p hp => ?_⟩
  obtain ⟨ix, hl⟩ := exists_isLastFiled hp
  obtain ⟨r, hr, hf, hlast⟩ := hl
  refine ⟨ix, r, hr, ⟨r, hr, hf, hlast⟩, ?_, fun N hN => ?_⟩
  · exact (fromRecords_indexed h r.region_name p ix).mpr ⟨⟨r, hr, hf, hlast⟩, by simp [hr]⟩
  · cases hidx : indexed s.m_searchMap N p with
    | none => rfl
    | some j =>
      obtain ⟨hj, hname⟩ := (fromRecords_indexed h N p j).mp hidx
      have hji : j = ix := isLastFiled_unique hj ⟨r, hr, hf, hlast⟩
      subst hji
      simp only [hr, Option.map_some', Option.some.injEq] at hname
      exact absurd hname.symm hN

theorem overwrite_rule_witness :
    ∃ s, fromRecords columnGrid twoCellStore documentedDirectives = .ok s ∧
      s.m_searchMap = [("FLUXNUM", [((2, 4), 1)])] ∧
      indexed s.m_searchMap "FLUXNUM" (2, 4) = some 1 ∧
      indexed s.m_searchMap "MULTNUM" (2, 4) = none :=
  (overwrite_rule columnGrid twoCellStore).1 (by decide) (by decide)

/-- C5: last directive wins within a region set.  When the directive at position `i` and a
later directive at position `j` of an accepted directive sequence have the same region-set
name and the same unordered region pair, replacing the multiplier, the direction mask and
the NNC behaviour of the earlier one by any other values gives a sequence that is accepted
as well and a scanner on which every query, `getRegionMultiplier` for every face direction
and `getRegionMultiplierNNC`, for all cells and every aquifer-cell set, has the same result:
nothing of the earlier directive is observable, alone or combined with the later one. -/
theorem lastDirectiveWins (gd : GridDims) (fp : FieldPropsManager)
    (rs : List MULTREGTRecord) (s : MULTREGTScanner) (h : fromRecords gd fp rs = .ok s)
    (i j : Nat) (ri rj : MULTREGTRecord) (hij : i < j)
    (hi : rs[i]? = some ri) (hj : rs[j]? = some rj)
    (_hname : ri.region_name = rj.region_name)
    (hpair : orderedPair ri.src_value ri.target_value
      = orderedPair rj.src_value rj.target_value)
    (mult : ℚ) (dirs : Nat) (nnc : MULTREGT.NNCBehaviourEnum) :
    ∃ s', fromRecords gd fp
            (rs.set i { ri with trans_mult := mult, directions := dirs, nnc_behaviour := nnc })
          = .ok s' ∧
      ∀ (aq : List Nat) (c1 c2 : Nat),
        getRegionMultiplierNNC { s' with aquifer_cells := aq } c1 c2
          = getRegionMultiplierNNC { s with aquifer_cells := aq } c1 c2 ∧
        ∀ d, getRegionMultiplier { s' with aquifer_cells := aq } c1 c2 d
          = getRegionMultiplier { s with aquifer_cells := aq } c1 c2 d := by
  have hk : rs.map keyOf
      = (rs.set i { ri with trans_mult := mult, directions := dirs,
                            nnc_behaviour := nnc }).map keyOf := by
    symm
    exact map_set_of_eq keyOf hi rfl
  refine ⟨_, fromRecords_keyOf hk h, fun aq c1 c2 => ?_⟩
  obtain ⟨st, -, -, -, hrec, -, -⟩ := fromRecords_ok h
  apply queries_congr (by rfl) (by rfl) (by rfl) (by rfl)
  intro entry hentry e he
  have hne : i ≠ e.2 := by
    intro heq
    obtain ⟨⟨r, hr, hf, hlast⟩, -⟩ := fromRecords_entries h entry hentry e he
    rw [← heq, hi] at hr
    injection hr with hr
    subst hr
    exact hlast j rj (heq ▸ hij) hj (filedUnder_of_pair_eq hf hpair)
  show (rs.set i _)[e.2]? = s.m_records[e.2]?
  rw [hrec, List.getElem?_set_ne hne]

theorem lastDirectiveWins_witness :
    ∃ s s', fromRecords columnGrid twoCellStore repeatedDirectives = .ok s ∧
      fromRecords columnGrid twoCellStore
          (repeatedDirectives.set 0
            { src_value := 1, target_value := 2, trans_mult := 7, directions := 63,
              nnc_behaviour := .NONNC, region_name := "MULTNUM" }) = .ok s' ∧
      ∀ (aq : List Nat) (c1 c2 : Nat),
        getRegionMultiplierNNC { s' with aquifer_cells := aq } c1 c2
          = getRegionMultiplierNNC { s with aquifer_cells := aq } c1 c2 ∧
        ∀ d, getRegionMultiplier { s' with aquifer_cells := aq } c1 c2 d
          = getRegionMultiplier { s with aquifer_cells := aq } c1 c2 d := by
  have h : fromRecords columnGrid twoCellStore repeatedDirectives
      = .ok { gridDims := columnGrid
              m_records := repeatedDirectives
              m_searchMap := [("MULTNUM", [((1, 2), 1)])]
              regions := [("MULTNUM", [1, 2])]
              aquifer_cells := [] } := rfl
  obtain ⟨s', h1, h2⟩ :=
    lastDirectiveWins columnGrid twoCellStore repeatedDirectives _ h 0 1 _ _ (by decide) rfl rfl
      rfl rfl 7 63 .NONNC
  exact ⟨_, s', h, h1, h2⟩

/-! ## The multiplier queries -/

/-- C6: multiplicativity across region sets, over exact rational multiplication.  On a
consistent scanner and for in-range cells, `getRegionMultiplier` is the product over the
region sets of the search index of the factor of each set (the multiplier of the indexed
directive when it is found, direction-eligible and applied; 1 otherwise).  Hence when the
sets `A` and `B` contribute and every other set has factor 1 the result is the product of
the factors of `A` and `B`, and visiting the region sets in another order gives the same
result. -/
theorem face_multiplicative (s : MULTREGTScanner) (c1 c2 : Nat) (d : FaceDir.DirEnum)
    (hs : Consistent s) (h1 : InRange s c1) (h2 : InRange s c2) :
    getRegionMultiplier s c1 c2 d = .ok ((s.m_searchMap.map (faceFactor s c1 c2 d)).prod) ∧
    (∀ A B rest, s.m_searchMap.Perm (A :: B :: rest) →
      (∀ e ∈ rest, faceFactor s c1 c2 d e = 1) →
      getRegionMultiplier s c1 c2 d
        = .ok (faceFactor s c1 c2 d A * faceFactor s c1 c2 d B)) ∧
    (∀ sm, sm.Perm s.m_searchMap →
      getRegionMultiplier { s with m_searchMap := sm } c1 c2 d
        = getRegionMultiplier s c1 c2 d) := by
  have hprod := getRegionMultiplier_eq_prod d hs h1 h2
  refine ⟨hprod, fun A B rest hperm hrest => ?_, fun sm hperm => ?_⟩
  · rw [hprod, (hperm.map (faceFactor s c1 c2 d)).prod_eq]
    have hone : (rest.map (faceFactor s c1 c2 d)).prod = 1 :=
      List.prod_eq_one (fun x hx => by
        obtain ⟨e, he, rfl⟩ := List.mem_map.mp hx
        exact hrest e he)
    simp [hone]
  · rw [hprod, getRegionMultiplier_eq_prod d (consistent_of_perm hperm hs) h1 h2]
    simp only [faceFactor_searchMap]
    rw [(hperm.map (faceFactor s c1 c2 d)).prod_eq]

theorem face_multiplicative_witness :
    getRegionMultiplier twoSetScanner 0 1 .XPlus
        = .ok ((twoSetScanner.m_searchMap.map (faceFactor twoSetScanner 0 1 .XPlus)).prod) ∧
      getRegionMultiplier twoSetScanner 0 1 .XPlus
        = .ok (faceFactor twoSetScanner 0 1 .XPlus ("FLUXNUM", [((1, 3), 1)])
                * faceFactor twoSetScanner 0 1 .XPlus ("MULTNUM", [((1, 2), 0)])) :=
  ⟨(face_multiplicative twoSetScanner 0 1 .XPlus (by decide) (by decide) (by decide)).1,
   (face_multiplicative twoSetScanner 0 1 .XPlus (by decide) (by decide) (by decide)).2.1
      _ _ [] (List.Perm.refl _) (by simp)⟩

/-- C7: identity when nothing matches.  On a consistent scanner and for in-range cells, a
region set of the search index that holds no directive for the normalized pair of the
cells' region IDs leaves the running product unchanged in both queries (factor 1); and when
no region set holds one, also when the search index is empty, `getRegionMultiplier` for
every face direction and `getRegionMultiplierNNC` both return exactly 1. -/
theorem identity_when_nothing_matches (s : MULTREGTScanner) (c1 c2 : Nat)
    (hs : Consistent s) (h1 : InRange s c1) (h2 : InRange s c2) :
    (∀ entry ∈ s.m_searchMap, positionFor s c1 c2 entry = none →
      ∀ acc, (∀ d, faceStep s c1 c2 d acc entry = .ok acc) ∧
        nncStep s c1 c2 acc entry = .ok acc) ∧
    ((∀ entry ∈ s.m_searchMap, positionFor s c1 c2 entry = none) →
      (∀ d, getRegionMultiplier s c1 c2 d = .ok 1) ∧ getRegionMultiplierNNC s c1 c2 = .ok 1) := by
  have hstep : ∀ entry ∈ s.m_searchMap, positionFor s c1 c2 entry = none →
      ∀ acc, (∀ d, faceStep s c1 c2 d acc entry = .ok acc) ∧
        nncStep s c1 c2 acc entry = .ok acc := by
    intro entry hentry hnone acc
    obtain ⟨hreg, hent⟩ := hs entry hentry
    refine ⟨fun d => ?_, nncStep_of_none acc hreg hent h1 h2 hnone⟩
    rw [faceStep_eq d acc hreg hent h1 h2, faceFactor_of_none d hnone, mul_one]
  refine ⟨hstep, fun hall => ⟨fun d => ?_, ?_⟩⟩
  · unfold getRegionMultiplier
    split_ifs
    · rfl
    · exact faceLoop_id _ _
        (fun entry hentry acc => (hstep entry hentry (hall entry hentry) acc).1 d)
  · unfold getRegionMultiplierNNC
    split_ifs
    · rfl
    · exact nncLoop_id _ _
        (fun entry hentry acc => (hstep entry hentry (hall entry hentry) acc).2)

theorem identity_when_nothing_matches_witness :
    (∀ d, getRegionMultiplier twoSetScanner 0 2 d = .ok 1) ∧
      getRegionMultiplierNNC twoSetScanner 0 2 = .ok 1 :=
  (identity_when_nothing_matches twoSetScanner 0 2 (by decide) (by decide) (by decide)).2
    (by decide)

/-- C8: the apply/ignore decision of the face query.  On a consistent scanner and for
in-range cells, when a region set of the search index holds a directive for the cell pair
and the direction mask of the directive includes the queried face direction, the loop of
`getRegionMultiplier` multiplies the multiplier of the directive in if and only if none of
the following holds: the behaviour is `NNC` and the cells are structurally adjacent and
neither is an aquifer cell; the behaviour is `NONNC` and the cells are not structurally
adjacent or one of them is an aquifer cell; the behaviour is `NOAQUNNC` and one of them is
an aquifer cell.  A directive with the behaviour `ALL` is always applied.  The same
decision gives the factor of the region set in the product that the query returns. -/
theorem apply_ignore_decision (s : MULTREGTScanner) (c1 c2 : Nat) (d : FaceDir.DirEnum)
    (hs : Consistent s) (h1 : InRange s c1) (h2 : InRange s c2)
    (entry : String × MULTREGTSearchMap) (hentry : entry ∈ s.m_searchMap)
    (record : MULTREGTRecord) (hrec : faceDirective s c1 c2 entry = some record)
    (hdir : record.directions &&& d.toNat ≠ 0) :
    (∀ acc, faceStep s c1 c2 d acc entry
      = .ok (if (record.nnc_behaviour = .NNC ∧ is_adjacent_cells s.gridDims c1 c2 = true ∧
                  (s.isAquCell c1 = false ∧ s.isAquCell c2 = false)) ∨
                (record.nnc_behaviour = .NONNC ∧ (is_adjacent_cells s.gridDims c1 c2 = false ∨
                  (s.isAquCell c1 = true ∨ s.isAquCell c2 = true))) ∨
                (record.nnc_behaviour = .NOAQUNNC ∧
                  (s.isAquCell c1 = true ∨ s.isAquCell c2 = true))
             then acc else acc * record.trans_mult)) ∧
    (record.nnc_behaviour = .ALL →
      ∀ acc, faceStep s c1 c2 d acc entry = .ok (acc * record.trans_mult)) ∧
    (faceFactor s c1 c2 d entry
      = if (record.nnc_behaviour = .NNC ∧ is_adjacent_cells s.gridDims c1 c2 = true ∧
              (s.isAquCell c1 = false ∧ s.isAquCell c2 = false)) ∨
            (record.nnc_behaviour = .NONNC ∧ (is_adjacent_cells s.gridDims c1 c2 = false ∨
              (s.isAquCell c1 = true ∨ s.isAquCell c2 = true))) ∨
            (record.nnc_behaviour = .NOAQUNNC ∧
              (s.isAquCell c1 = true ∨ s.isAquCell c2 = true))
        then 1 else record.trans_mult) ∧
    getRegionMultiplier s c1 c2 d = .ok ((s.m_searchMap.map (faceFactor s c1 c2 d)).prod) := by
  obtain ⟨hreg, hent⟩ := hs entry hentry
  have hfac := faceFactor_of_directive hrec hdir
  simp only [applyMultiplier_eq_false_iff] at hfac
  refine ⟨fun acc => ?_, fun hall acc => ?_, hfac, getRegionMultiplier_eq_prod d hs h1 h2⟩
  · rw [faceStep_eq d acc hreg hent h1 h2, hfac]
    split_ifs <;> simp
  · rw [faceStep_eq d acc hreg hent h1 h2, hfac]
    simp [hall]

theorem apply_ignore_decision_witness :
    faceStep twoSetScanner 0 1 .XPlus 2 ("MULTNUM", [((1, 2), 0)]) = .ok (2 * (3 / 4)) :=
  (apply_ignore_decision twoSetScanner 0 1 .XPlus (by decide) (by decide) (by decide)
    ("MULTNUM", [((1, 2), 0)]) (by decide)
    { src_value := 1, target_value := 2, trans_mult := 3 / 4, directions := 63,
      nnc_behaviour := .ALL, region_name := "MULTNUM" } rfl (by decide)).2.1 rfl 2

/-- C9: the aquifer exception.  For every scanner with a sorted aquifer-cell list and all
cells `c1`, `c2` of which at least one is in the aquifer-cell set, a directive with the
behaviour `NOAQUNNC` has no part in `getRegionMultiplier c1 c2 d`, for every direction `d`,
nor in `getRegionMultiplierNNC c1 c2`, whether or not the cells are structurally adjacent:
giving the directive any other multiplier changes neither result. -/
theorem aquifer_exception (s : MULTREGTScanner) (c1 c2 : Nat)
    (hsorted : s.aquifer_cells.Pairwise (· ≤ ·))
    (haq : c1 ∈ s.aquifer_cells ∨ c2 ∈ s.aquifer_cells)
    (i : Nat) (r : MULTREGTRecord) (hi : s.m_records[i]? = some r)
    (hnnc : r.nnc_behaviour = .NOAQUNNC) (mult : ℚ) :
    (∀ d, getRegionMultiplier
            { s with m_records := s.m_records.set i { r with trans_mult := mult } } c1 c2 d
          = getRegionMultiplier s c1 c2 d) ∧
    getRegionMultiplierNNC
        { s with m_records := s.m_records.set i { r with trans_mult := mult } } c1 c2
      = getRegionMultiplierNNC s c1 c2 := by
  have haqu : s.isAquNNC c1 c2 = true := by
    simp only [isAquNNC, isAquCell, Bool.or_eq_true, binary_search_iff_mem hsorted]
    exact haq
  refine ⟨fun d => ?_, ?_⟩
  · unfold getRegionMultiplier
    exact congrArg _
      (faceLoop_of_step (fun acc entry => faceStep_set_noaqu haqu hi hnnc mult d acc entry) _ _)
  · unfold getRegionMultiplierNNC
    exact congrArg _
      (nncLoop_of_step (fun acc entry => nncStep_set_noaqu haqu hi hnnc mult acc entry) _ _)

theorem aquifer_exception_witness :
    (∀ d, getRegionMultiplier
            { twoSetScanner with
                aquifer_cells := [1]
                m_records := twoSetDirectives.set 1
                  { src_value := 1, target_value := 3, trans_mult := 7, directions := 63,
                    nnc_behaviour := .NOAQUNNC, region_name := "FLUXNUM" } } 0 1 d
          = getRegionMultiplier { twoSetScanner with aquifer_cells := [1] } 0 1 d) ∧
    getRegionMultiplierNNC
        { twoSetScanner with
            aquifer_cells := [1]
            m_records := twoSetDirectives.set 1
              { src_value := 1, target_value := 3, trans_mult := 7, directions := 63,
                nnc_behaviour := .NOAQUNNC, region_name := "FLUXNUM" } } 0 1
      = getRegionMultiplierNNC { twoSetScanner with aquifer_cells := [1] } 0 1 :=
  aquifer_exception { twoSetScanner with aquifer_cells := [1] } 0 1 (by decide) (by decide) 1
    { src_value := 1, target_value := 3, trans_mult := 5 / 2, directions := 63,
      nnc_behaviour := .NOAQUNNC, region_name := "FLUXNUM" } rfl rfl 7

/-- C10, the code at the failing input: the scanner built from a single `MULTNUM` directive
for the regions 1 and 2 with multiplier 1/2 and behaviour `ALL`, over cells 0 and 1 with the
`MULTNUM` values 1 and 2.  The NNC query with the cell of the higher region ID first returns
`1`, where the same query with the cells swapped and the face query on the same cells
return `1/2`: `getRegionMultiplierNNC` looks the pair up as given, not normalized. -/
theorem nnc_lookup_not_normalized :
    (fromRecords columnGrid twoCellStore singleDirective).bind
        (fun s => s.getRegionMultiplierNNC 1 0) = .ok 1 ∧
    (fromRecords columnGrid twoCellStore singleDirective).bind
        (fun s => s.getRegionMultiplierNNC 0 1) = .ok (1 / 2) ∧
    (fromRecords columnGrid twoCellStore singleDirective).bind
        (fun s => s.getRegionMultiplier 1 0 .ZMinus) = .ok (1 / 2) := by
  with_unfolding_all decide

/-! ## Symmetry, direction filtering and adjacency -/

theorem endToEndScanner_constructed :
    fromRecords { getIJK := fun g => (0, 0, g) } twoCellStore endToEndDirectives
      = .ok endToEndScanner :=
  rfl

theorem is_adjacent_comm (x y : Int) : is_adjacent x y = is_adjacent y x := by
  unfold is_adjacent
  have h : (x - y).natAbs = (y - x).natAbs := by omega
  rw [h]

theorem is_adjacent_cells_comm (gd : GridDims) (a b : Nat) :
    is_adjacent_cells gd a b = is_adjacent_cells gd b a := by
  simp only [is_adjacent_cells, is_adjacent_I, is_adjacent_J, is_adjacent_K,
    is_adjacent_comm (gd.getIJK a).1, is_adjacent_comm (gd.getIJK a).2.1,
    is_adjacent_comm (gd.getIJK a).2.2, @eq_comm _ (gd.getIJK a).1,
    @eq_comm _ (gd.getIJK a).2.1, @eq_comm _ (gd.getIJK a).2.2]

theorem applyMultiplier_comm (s : MULTREGTScanner) (a b : Nat)
    (nnc : MULTREGT.NNCBehaviourEnum) :
    applyMultiplier s a b nnc = applyMultiplier s b a nnc := by
  simp only [applyMultiplier, isAquNNC, is_adjacent_cells_comm s.gridDims a b,
    Bool.or_comm (s.isAquCell a)]

theorem collapsed_mirror {mask : Nat} (h : Collapsed mask) (d : FaceDir.DirEnum) :
    mask &&& d.toNat = 0 ↔ mask &&& (mirror d).toNat = 0 := by
  obtain ⟨hx, hy, hz⟩ := h
  cases d
  · exact hx
  · exact hx.symm
  · exact hy
  · exact hy.symm
  · exact hz
  · exact hz.symm

theorem faceStep_symm {s : MULTREGTScanner}
    (hmask : ∀ r ∈ s.m_records, Collapsed r.directions) (a b : Nat) (d : FaceDir.DirEnum)
    (acc : ℚ) (entry : String × MULTREGTSearchMap) :
    faceStep s a b d acc entry = faceStep s b a (mirror d) acc entry := by
  unfold faceStep
  cases StdMap.find entry.1 s.regions with
  | none => rfl
  | some data =>
    dsimp only
    cases data[a]? <;> cases data[b]? <;> try rfl
    rename_i r1 r2
    simp only [find_orderedPair, orderedPair_comm r2 r1]
    cases StdMap.find (orderedPair r1 r2) entry.2 with
    | none => rfl
    | some ix =>
      dsimp only
      cases hrec : s.m_records[ix]? with
      | none => rfl
      | some record =>
        dsimp only
        have hd := collapsed_mirror (hmask record (List.getElem?_mem hrec)) d
        by_cases h0 : record.directions &&& d.toNat = 0
        · rw [if_pos h0, if_pos (hd.mp h0)]
        · rw [if_neg h0, if_neg (fun h => h0 (hd.mpr h)), applyMultiplier_comm s a b]
          by_cases hr : r1 = r2
          · rw [if_pos hr, if_pos hr.symm]
          · have hr' : ¬ r2 = r1 := fun h => hr h.symm
            simp only [hr, hr', if_false]

theorem faceLoop_symm {s : MULTREGTScanner}
    (hmask : ∀ r ∈ s.m_records, Collapsed r.directions) (a b : Nat) (d : FaceDir.DirEnum)
    (l : List (String × MULTREGTSearchMap)) (acc : ℚ) :
    faceLoop s a b d l acc = faceLoop s b a (mirror d) l acc := by
  induction l generalizing acc with
  | nil => rfl
  | cons entry rest ih =>
    simp only [faceLoop, faceStep_symm hmask a b d acc entry]
    cases faceStep s b a (mirror d) acc entry with
    | error e => rfl
    | ok acc' => exact ih acc'

/-- C11, the code at the failing input: on the scanner built from a `MULTNUM` directive for
the regions 1 and 2 (multiplier 3/4) and a `FLUXNUM` directive for the regions 1 and 3
(multiplier 5/2), over cells 0 and 1 with the `MULTNUM` values 1, 2 and the `FLUXNUM` values
1, 3, the NNC query of the cells 0 and 1 returns 15/8 and the query of the same cells in
the other order returns 1. -/
theorem nnc_not_symmetric :
    (fromRecords rowGrid twoSetStore twoSetDirectives).bind
        (fun s => s.getRegionMultiplierNNC 0 1) = .ok (15 / 8) ∧
    (fromRecords rowGrid twoSetStore twoSetDirectives).bind
        (fun s => s.getRegionMultiplierNNC 1 0) = .ok 1 := by
  with_unfolding_all decide

/-- C12: symmetry of the face query.  For every scanner whose directives have direction
masks collapsed to axes, all cells `a`, `b` (in range or not) and every face direction `d`,
`getRegionMultiplier a b d` and `getRegionMultiplier b a (mirror d)` have the same result,
where `mirror` swaps the plus and the minus sense of an axis. -/
theorem face_symmetry (s : MULTREGTScanner)
    (hmask : ∀ r ∈ s.m_records, Collapsed r.directions) (a b : Nat) (d : FaceDir.DirEnum) :
    getRegionMultiplier s a b d = getRegionMultiplier s b a (mirror d) := by
  unfold getRegionMultiplier
  rw [faceLoop_symm hmask a b d]

theorem face_symmetry_witness :
    getRegionMultiplier twoSetScanner 0 1 .XPlus
      = getRegionMultiplier twoSetScanner 1 0 (mirror .XPlus) :=
  face_symmetry twoSetScanner (by decide) 0 1 .XPlus

/-- C13: direction filtering in the face query.  For every scanner, cells `c1`, `c2` and
face direction `d`, a region set of the search index whose indexed directive for the
normalized region pair of the cells has a direction mask without `d` is skipped: the loop of
`getRegionMultiplier` leaves the running product unchanged and the factor of the region set
is 1, whatever the multiplier and the NNC behaviour of the directive. -/
theorem direction_filtering (s : MULTREGTScanner) (c1 c2 : Nat) (d : FaceDir.DirEnum)
    (entry : String × MULTREGTSearchMap) (record : MULTREGTRecord)
    (hrec : faceDirective s c1 c2 entry = some record)
    (hdir : record.directions &&& d.toNat = 0) :
    (∀ acc, faceStep s c1 c2 d acc entry = .ok acc) ∧ faceFactor s c1 c2 d entry = 1 := by
  refine ⟨fun acc => ?_, by simp [faceFactor, hrec, hdir]⟩
  unfold faceDirective positionFor at hrec
  unfold faceStep
  cases hfind : StdMap.find entry.1 s.regions with
  | none => simp [hfind] at hrec
  | some data =>
    rw [hfind] at hrec
    dsimp only at hrec ⊢
    cases h1 : data[c1]? <;> cases h2 : data[c2]? <;> simp only [h1, h2] at hrec <;>
      try cases hrec
    rename_i r1 r2
    simp only [find_orderedPair]
    cases hpos : StdMap.find (orderedPair r1 r2) entry.2 with
    | none => simp [hpos] at hrec
    | some ix =>
      simp only [hpos] at hrec
      simp [hrec, hdir]

theorem direction_filtering_witness :
    (∀ acc, faceStep endToEndScanner 0 1 .ZPlus acc ("FLUXNUM", [((1, 2), 1)]) = .ok acc) ∧
      faceFactor endToEndScanner 0 1 .ZPlus ("FLUXNUM", [((1, 2), 1)]) = 1 :=
  direction_filtering endToEndScanner 0 1 .ZPlus ("FLUXNUM", [((1, 2), 1)])
    { src_value := 1, target_value := 2, trans_mult := 5 / 2, directions := 15,
      nnc_behaviour := .ALL, region_name := "FLUXNUM" } rfl (by decide)

/-- C14: adjacency classification.  For all cells, with the coordinates `(i1, j1, k1)` and
`(i2, j2, k2)` that `GridDims` gives them, `is_adjacent` is true if and only if exactly one
of the three coordinates differs by exactly 1 and the other two are equal, that is
`|i1 - i2| + |j1 - j2| + |k1 - k2| = 1`.  Hence `(I, J, K)` and `(I + 1, J, K)` are adjacent,
`(I, J, K)` and `(I + 1, J + 1, K)` are not, and no cell is adjacent to itself. -/
theorem adjacency_classification :
    (∀ (gd : GridDims) (g1 g2 : Nat),
      is_adjacent_cells gd g1 g2 = true ↔
        ((((gd.getIJK g1).1 : Int) - ((gd.getIJK g2).1 : Int)).natAbs = 1
            ∧ (gd.getIJK g1).2.1 = (gd.getIJK g2).2.1
            ∧ (gd.getIJK g1).2.2 = (gd.getIJK g2).2.2)
          ∨ ((((gd.getIJK g1).2.1 : Int) - ((gd.getIJK g2).2.1 : Int)).natAbs = 1
            ∧ (gd.getIJK g1).2.2 = (gd.getIJK g2).2.2
            ∧ (gd.getIJK g1).1 = (gd.getIJK g2).1)
          ∨ ((((gd.getIJK g1).2.2 : Int) - ((gd.getIJK g2).2.2 : Int)).natAbs = 1
            ∧ (gd.getIJK g1).1 = (gd.getIJK g2).1
            ∧ (gd.getIJK g1).2.1 = (gd.getIJK g2).2.1)) ∧
    (∀ (gd : GridDims) (g1 g2 : Nat),
      is_adjacent_cells gd g1 g2 = true ↔
        (((gd.getIJK g1).1 : Int) - ((gd.getIJK g2).1 : Int)).natAbs
          + (((gd.getIJK g1).2.1 : Int) - ((gd.getIJK g2).2.1 : Int)).natAbs
          + (((gd.getIJK g1).2.2 : Int) - ((gd.getIJK g2).2.2 : Int)).natAbs = 1) ∧
    (∀ I J K : Nat,
      is_adjacent_cells { getIJK := fun g => if g = 0 then (I, J, K) else (I + 1, J, K) } 0 1
        = true) ∧
    (∀ I J K : Nat,
      is_adjacent_cells { getIJK := fun g => if g = 0 then (I, J, K) else (I + 1, J + 1, K) }
        0 1 = false) ∧
    (∀ (gd : GridDims) (g : Nat), is_adjacent_cells gd g g = false) := by
  have key : ∀ (gd : GridDims) (g1 g2 : Nat),
      is_adjacent_cells gd g1 g2 = true ↔
        ((((gd.getIJK g1).1 : Int) - ((gd.getIJK g2).1 : Int)).natAbs = 1
            ∧ (gd.getIJK g1).2.1 = (gd.getIJK g2).2.1
            ∧ (gd.getIJK g1).2.2 = (gd.getIJK g2).2.2)
          ∨ ((((gd.getIJK g1).2.1 : Int) - ((gd.getIJK g2).2.1 : Int)).natAbs = 1
            ∧ (gd.getIJK g1).2.2 = (gd.getIJK g2).2.2
            ∧ (gd.getIJK g1).1 = (gd.getIJK g2).1)
          ∨ ((((gd.getIJK g1).2.2 : Int) - ((gd.getIJK g2).2.2 : Int)).natAbs = 1
            ∧ (gd.getIJK g1).1 = (gd.getIJK g2).1
            ∧ (gd.getIJK g1).2.1 = (gd.getIJK g2).2.1) := by
    intro gd g1 g2
    simp only [is_adjacent_cells, is_adjacent_I, is_adjacent_J, is_adjacent_K, is_adjacent,
      Bool.or_eq_true, Bool.and_eq_true, decide_eq_true_eq, and_assoc, or_assoc]
  refine ⟨key, fun gd g1 g2 => ?_, fun I J K => ?_, fun I J K => ?_, fun gd g => ?_⟩
  · rw [key]
    omega
  · rw [key]
    simp
  · rw [Bool.eq_false_iff, Ne, key]
    simp
  · rw [Bool.eq_false_iff, Ne, key]
    simp

/-! ## Sorted lists without duplicates -/

theorem mem_std_unique {α : Type} [DecidableEq α] (x : α) :
    ∀ l : List α, x ∈ std_unique l ↔ x ∈ l
  | [] => by simp [std_unique]
  | [a] => by simp [std_unique]
  | a :: b :: rest => by
    have ih := mem_std_unique x (b :: rest)
    simp only [std_unique]
    split_ifs with h
    · subst h
      rw [ih]
      simp
    · simp only [List.mem_cons] at ih ⊢
      rw [ih]

theorem sorted_std_unique {α : Type} [LinearOrder α] :
    ∀ l : List α, l.Sorted (· ≤ ·) → (std_unique l).Sorted (· < ·)
  | [], _ => by simp [std_unique]
  | [a], _ => by simp [std_unique]
  | a :: b :: rest, h => by
    have hrest : (b :: rest).Sorted (· ≤ ·) := h.of_cons
    have ih := sorted_std_unique (b :: rest) hrest
    simp only [std_unique]
    split_ifs with hab
    · exact ih
    · refine List.sorted_cons.mpr ⟨fun x hx => ?_, ih⟩
      have hx' : x ∈ b :: rest := (mem_std_unique x _).mp hx
      have hlt : a < b :=
        lt_of_le_of_ne (List.rel_of_sorted_cons h b (List.mem_cons_self _ _)) hab
      rcases List.mem_cons.mp hx' with hxb | hxr
      · exact hxb ▸ hlt
      · exact lt_of_lt_of_le hlt (List.rel_of_sorted_cons hrest x hxr)

theorem mem_std_sort {α : Type} [LinearOrder α] (x : α) (l : List α) :
    x ∈ std_sort l ↔ x ∈ l :=
  (List.perm_insertionSort (· ≤ ·) l).mem_iff

theorem sorted_std_sort {α : Type} [LinearOrder α] (l : List α) :
    (std_sort l).Sorted (· ≤ ·) :=
  List.sorted_insertionSort (· ≤ ·) l

/-- The result of `std::sort` and `std::unique` is the strictly increasing list of the
elements of the argument. -/
theorem sort_unique_spec {α : Type} [LinearOrder α] (l : List α) :
    (std_unique (std_sort l)).Sorted (· < ·) ∧ ∀ x, x ∈ std_unique (std_sort l) ↔ x ∈ l :=
  ⟨sorted_std_unique _ (sorted_std_sort l),
   fun x => (mem_std_unique x _).trans (mem_std_sort x l)⟩

/-- The result of `std::sort` and `std::unique` depends on the set of the elements only. -/
theorem sort_unique_congr {α : Type} [LinearOrder α] {l l' : List α}
    (h : ∀ x, x ∈ l ↔ x ∈ l') : std_unique (std_sort l) = std_unique (std_sort l') := by
  obtain ⟨hs, hm⟩ := sort_unique_spec l
  obtain ⟨hs', hm'⟩ := sort_unique_spec l'
  refine List.eq_of_perm_of_sorted ?_ hs hs'
  exact (List.perm_ext_iff_of_nodup hs.nodup hs'.nodup).mpr
    (fun x => (hm x).trans ((h x).trans (hm' x).symm))

/-! ## The directive table -/

theorem assertKeywordSupported_error {kw : DeckKeyword} {deckRecord : DeckRecord}
    (hmem : deckRecord ∈ kw) (hs : deckRecord.SRC_REGION.defaultApplied = false)
    (ht : deckRecord.TARGET_REGION.defaultApplied = false)
    (heq : deckRecord.SRC_REGION.get = deckRecord.TARGET_REGION.get) :
    assertKeywordSupported kw
      = .error (.invalid_argument
          "Sorry - MULTREGT applied internally to a region is not yet supported") := by
  induction kw with
  | nil => simp at hmem
  | cons head rest ih =>
    simp only [assertKeywordSupported]
    split_ifs with hhead
    · rfl
    · rcases List.mem_cons.mp hmem with h | h
      · subst h
        simp [hs, ht, heq] at hhead
      · exact ih h

theorem addKeywords_error {fp : FieldPropsManager} {kw : DeckKeyword}
    (hkw : ∀ m, ∃ e, addKeyword fp m kw = (.error e, m)) :
    ∀ (kws : List DeckKeyword) (m : List MULTREGTRecord), kw ∈ kws →
      ∃ e m', addKeywords fp m kws = (.error e, m')
  | [], _, h => by simp at h
  | head :: rest, m, h => by
    simp only [addKeywords]
    rcases hout : addKeyword fp m head with ⟨out, m₁⟩
    cases out with
    | error e => exact ⟨e, m₁, rfl⟩
    | ok u =>
      rcases List.mem_cons.mp h with h | h
      · subst h
        obtain ⟨e, he⟩ := hkw m
        rw [he] at hout
        cases hout
      · exact addKeywords_error hkw rest m₁ h

theorem pushTargets_eq (mk : Int → Int → MULTREGTRecord) (src : Int) (T : List Int)
    (m : List MULTREGTRecord) :
    pushTargets mk src T m
      = m ++ (T.filter (fun tgt => decide (src ≠ tgt))).map
          (fun tgt => mk (min src tgt) (max src tgt)) := by
  induction T generalizing m with
  | nil => simp [pushTargets]
  | cons tgt rest ih =>
    simp only [pushTargets]
    rw [ih]
    by_cases hle : src ≤ tgt
    · by_cases hne : src = tgt
      · simp [hle, hne]
      · simp [hle, hne, min_eq_left hle, max_eq_right hle]
    · have hlt : tgt ≤ src := le_of_not_le hle
      have hne : ¬ src = tgt := fun h => hle (le_of_eq h)
      simp [hle, hne, min_eq_right hlt, max_eq_left hlt]

theorem pushSources_eq (mk : Int → Int → MULTREGTRecord) (T S : List Int)
    (m : List MULTREGTRecord) : pushSources mk T S m = m ++ expansion mk S T := by
  induction S generalizing m with
  | nil => simp [pushSources, expansion]
  | cons src rest ih =>
    simp only [pushSources]
    rw [ih, pushTargets_eq]
    simp [expansion, List.flatMap_cons]

theorem regionsFor_eq (fp : FieldPropsManager) (region_name : String) (item : DeckItem Int) :
    regionsFor fp region_name item = selectorSet (fp.get_int region_name) item := by
  unfold regionsFor selectorSet
  cases hd : item.defaultApplied
  · by_cases hneg : item.get < 0
    · simp [hneg, not_le.mpr hneg]
    · simp [hneg, not_lt.mp hneg]
  · simp

/-- The table after one record: the table before followed by the expansion of the record. -/
theorem addRecord_eq (fp : FieldPropsManager) (m_records : List MULTREGTRecord)
    (deckRecord : DeckRecord) {directions : Nat} {nnc_behaviour : MULTREGT.NNCBehaviourEnum}
    {region_name : String}
    (hd : FaceDir.FromMULTREGTString deckRecord.DIRECTIONS.get = .ok directions)
    (hb : MULTREGT.NNCBehaviourFromString deckRecord.NNC_MULT.get = .ok nnc_behaviour)
    (hn : regionNameFor m_records deckRecord.REGION_DEF = .ok region_name) :
    addRecord fp m_records deckRecord
      = .ok (m_records ++ expansion
          (fun low high =>
            { src_value := low, target_value := high, trans_mult := deckRecord.TRAN_MULT.get,
              directions := directions, nnc_behaviour := nnc_behaviour,
              region_name := region_name })
          (selectorSet (fp.get_int region_name) deckRecord.SRC_REGION)
          (selectorSet (fp.get_int region_name) deckRecord.TARGET_REGION)) := by
  simp only [addRecord, hd, hb, hn, pushSources_eq, regionsFor_eq]

theorem addRecord_ok {fp : FieldPropsManager} {m_records m' : List MULTREGTRecord}
    {deckRecord : DeckRecord} (h : addRecord fp m_records deckRecord = .ok m') :
    ∃ directions nnc_behaviour region_name,
      FaceDir.FromMULTREGTString deckRecord.DIRECTIONS.get = .ok directions ∧
      MULTREGT.NNCBehaviourFromString deckRecord.NNC_MULT.get = .ok nnc_behaviour ∧
      regionNameFor m_records deckRecord.REGION_DEF = .ok region_name := by
  unfold addRecord at h
  cases hd : FaceDir.FromMULTREGTString deckRecord.DIRECTIONS.get with
  | error e => simp [hd] at h
  | ok directions =>
    cases hb : MULTREGT.NNCBehaviourFromString deckRecord.NNC_MULT.get with
    | error e => simp [hd, hb] at h
    | ok nnc_behaviour =>
      cases hn : regionNameFor m_records deckRecord.REGION_DEF with
      | error e => simp [hd, hb, hn] at h
      | ok region_name => exact ⟨directions, nnc_behaviour, region_name, rfl, rfl, rfl⟩

theorem region_name_of_mem_expansion {mk : Int → Int → MULTREGTRecord} {name : String}
    (hmk : ∀ low high, (mk low high).region_name = name) {S T : List Int}
    {r : MULTREGTRecord} (h : r ∈ expansion mk S T) : r.region_name = name := by
  simp only [expansion, List.mem_flatMap, List.mem_map] at h
  obtain ⟨src, -, tgt, -, rfl⟩ := h
  exact hmk _ _

theorem expansion_row (mk : Int → Int → MULTREGTRecord) (src : Int) (T : List Int) :
    (T.filter (fun tgt => decide (src ≠ tgt))).map (fun tgt => mk (min src tgt) (max src tgt))
      = (((T.map (Prod.mk src)).filter (fun p => decide (p.1 ≠ p.2))).map
          (fun p => mk (min p.1 p.2) (max p.1 p.2))) := by
  induction T with
  | nil => rfl
  | cons tgt T' ihT =>
    by_cases h : src = tgt
    · simpa [h] using ihT
    · simpa [h] using ihT

theorem expansion_eq_product (mk : Int → Int → MULTREGTRecord) (S T : List Int) :
    expansion mk S T
      = ((S.product T).filter (fun p => decide (p.1 ≠ p.2))).map
          (fun p => mk (min p.1 p.2) (max p.1 p.2)) := by
  unfold List.product
  induction S with
  | nil => rfl
  | cons src rest ih =>
    rw [List.flatMap_cons, List.filter_append, List.map_append, ← ih, ← expansion_row]
    simp [expansion, List.flatMap_cons]

theorem getLast?_append_expansion {m : List MULTREGTRecord}
    {mk : Int → Int → MULTREGTRecord} {name : String} {S T : List Int}
    (hne : m ++ expansion mk S T ≠ m) (hmk : ∀ low high, (mk low high).region_name = name) :
    ∃ back, (m ++ expansion mk S T).getLast? = some back ∧ back.region_name = name := by
  have hnew : expansion mk S T ≠ [] := fun h => hne (by rw [h, List.append_nil])
  obtain ⟨back, hback⟩ := Option.isSome_iff_exists.mp (List.getLast?_isSome.mpr hnew)
  refine ⟨back, ?_, region_name_of_mem_expansion hmk (List.mem_of_getLast?_eq_some hback)⟩
  rw [List.getLast?_append, hback]
  rfl

/-! ## Failure and success of the construction of the search index -/

theorem ctorRecords_error_of {fp : FieldPropsManager} :
    ∀ (rs : List MULTREGTRecord) (ix : Nat) (st : CtorState),
      (∃ r ∈ rs, fp.has_int r.region_name = false) →
      ∃ r ∈ rs, fp.has_int r.region_name = false ∧
        ctorRecords fp ix rs st = .error (.logic_error
          ("MULTREGT record is based on region: " ++ r.region_name
            ++ " which is not in the deck"))
  | [], _, _, h => by simp at h
  | r :: rest, ix, st, h => by
    by_cases hr : fp.has_int r.region_name = true
    · have hrest : ∃ r' ∈ rest, fp.has_int r'.region_name = false := by
        obtain ⟨r', hr', hf⟩ := h
        rcases List.mem_cons.mp hr' with h1 | h1
        · subst h1
          rw [hr] at hf
          cases hf
        · exact ⟨r', h1, hf⟩
      cases hstep : ctorRecord fp st ix r with
      | error e => simp [ctorRecord, hr] at hstep
      | ok st' =>
        obtain ⟨r', hr', hf, herr⟩ := ctorRecords_error_of rest (ix + 1) st' hrest
        exact ⟨r', List.mem_cons_of_mem _ hr', hf, by simp only [ctorRecords, hstep, herr]⟩
    · refine ⟨r, List.mem_cons_self _ _, by simpa using hr, ?_⟩
      simp [ctorRecords, ctorRecord, hr]

theorem ctorRecords_ok_of {fp : FieldPropsManager} :
    ∀ (rs : List MULTREGTRecord) (ix : Nat) (st : CtorState),
      (∀ r ∈ rs, fp.has_int r.region_name = true) → ∃ st', ctorRecords fp ix rs st = .ok st'
  | [], _, st, _ => ⟨st, rfl⟩
  | r :: rest, ix, st, h => by
    have hr : fp.has_int r.region_name = true := h r (List.mem_cons_self _ _)
    cases hstep : ctorRecord fp st ix r with
    | error e => simp [ctorRecord, hr] at hstep
    | ok st' =>
      obtain ⟨st'', hst''⟩ :=
        ctorRecords_ok_of rest (ix + 1) st' (fun r' hr' => h r' (List.mem_cons_of_mem _ hr'))
      exact ⟨st'', by simp only [ctorRecords, hstep, hst'']⟩

theorem ctorSearchMap_ok_of {rs : List MULTREGTRecord} :
    ∀ (sp : MULTREGTSearchMap) (sm : List (String × MULTREGTSearchMap)),
      (∀ e ∈ sp, ∃ r, rs[e.2]? = some r) → ∃ sm', ctorSearchMap rs sp sm = .ok sm'
  | [], sm, _ => ⟨sm, rfl⟩
  | (p, ix) :: rest, sm, h => by
    obtain ⟨r, hr⟩ := h (p, ix) (List.mem_cons_self _ _)
    have hstep : ∃ sm₁, ctorSearchEntry rs sm p ix = .ok sm₁ := by
      simp only [ctorSearchEntry]
      simp only [show rs[ix]? = some r from hr]
      exact ⟨_, rfl⟩
    obtain ⟨sm₁, hsm₁⟩ := hstep
    obtain ⟨sm', hsm'⟩ :=
      ctorSearchMap_ok_of rest sm₁ (fun e he => h e (List.mem_cons_of_mem _ he))
    exact ⟨sm', by simp only [ctorSearchMap, hsm₁, hsm']⟩

theorem ctorRecords_positions {fp : FieldPropsManager} {rs : List MULTREGTRecord}
    {st : CtorState} (h : ctorRecords fp 0 rs { searchPairs := [], regions := [] } = .ok st) :
    ∀ e ∈ st.searchPairs, ∃ r, rs[e.2]? = some r := by
  rintro ⟨p, ix⟩ he
  have hnd : (st.searchPairs.map Prod.fst).Nodup := ctorRecords_nodup h (by simp)
  have hfind := StdMap.find_of_mem hnd he
  rw [ctorRecords_searchPairs h p, lastFiled_eq_some] at hfind
  rcases hfind with ⟨i, hi, r, hr, -⟩ | ⟨hacc, -⟩
  · have hix : ix = i := by omega
    exact ⟨r, by rw [hix]; exact hr⟩
  · simp [StdMap.find] at hacc

/-! ## Records, keywords and the directive table -/

/-- C15: self-directive rejection.  When a record of a `MULTREGT` keyword gives the source
and the target region explicitly and the two are equal, `assertKeywordSupported` and
`addKeyword` fail with the invalid-argument error of the source, `addKeyword` leaves the
directive table as it was (no directive of the keyword is appended, those of the records
ahead of the offending one included), and the construction of a scanner from any keyword
list with this keyword fails. -/
theorem self_directive_rejected (fp : FieldPropsManager) (m_records : List MULTREGTRecord)
    (deckKeyword : DeckKeyword) (deckRecord : DeckRecord) (hmem : deckRecord ∈ deckKeyword)
    (hs : deckRecord.SRC_REGION.defaultApplied = false)
    (ht : deckRecord.TARGET_REGION.defaultApplied = false)
    (heq : deckRecord.SRC_REGION.get = deckRecord.TARGET_REGION.get) :
    assertKeywordSupported deckKeyword
      = .error (.invalid_argument
          "Sorry - MULTREGT applied internally to a region is not yet supported") ∧
    addKeyword fp m_records deckKeyword
      = (.error (.invalid_argument
          "Sorry - MULTREGT applied internally to a region is not yet supported"),
         m_records) ∧
    (∀ gd, construct gd fp [deckKeyword]
      = .error (.invalid_argument
          "Sorry - MULTREGT applied internally to a region is not yet supported")) ∧
    (∀ gd keywords, deckKeyword ∈ keywords → ∃ e, construct gd fp keywords = .error e) := by
  have hassert := assertKeywordSupported_error hmem hs ht heq
  have hadd : ∀ m, addKeyword fp m deckKeyword
      = (.error (.invalid_argument
          "Sorry - MULTREGT applied internally to a region is not yet supported"), m) := by
    intro m
    simp only [addKeyword, hassert]
  refine ⟨hassert, hadd m_records, fun gd => ?_, fun gd keywords hk => ?_⟩
  · simp only [construct, addKeywords, hadd]
  · obtain ⟨e, m', he⟩ := addKeywords_error (fun m => ⟨_, hadd m⟩) keywords [] hk
    exact ⟨e, by simp only [construct, he]⟩

theorem self_directive_rejected_witness :
    addKeyword twoCellStore []
        [ exampleRecord { defaultApplied := false, get := 1 }
            { defaultApplied := false, get := 2 } { defaultApplied := false, get := "M" },
          exampleRecord { defaultApplied := false, get := 2 }
            { defaultApplied := false, get := 2 } { defaultApplied := false, get := "M" } ]
      = (.error (.invalid_argument
          "Sorry - MULTREGT applied internally to a region is not yet supported"), []) :=
  (self_directive_rejected twoCellStore []
    [ exampleRecord { defaultApplied := false, get := 1 }
        { defaultApplied := false, get := 2 } { defaultApplied := false, get := "M" },
      exampleRecord { defaultApplied := false, get := 2 }
        { defaultApplied := false, get := 2 } { defaultApplied := false, get := "M" } ]
    (exampleRecord { defaultApplied := false, get := 2 }
        { defaultApplied := false, get := 2 } { defaultApplied := false, get := "M" })
    (by simp) rfl rfl rfl).2.1

/-- C16: an unknown region set is fatal.  When the directive table has a directive whose
region set is not in the region store (`has_int` is false), the construction of the search
index fails with the logic error of the source for such a directive and no scanner is
produced, from the directive table as well as from the keywords that give it; when the
region set of every directive is in the store the construction succeeds. -/
theorem unknown_region_fatal (gd : GridDims) (fp : FieldPropsManager)
    (rs : List MULTREGTRecord) :
    ((∃ r ∈ rs, fp.has_int r.region_name = false) →
      ∃ r ∈ rs, fp.has_int r.region_name = false ∧
        fromRecords gd fp rs = .error (.logic_error
          ("MULTREGT record is based on region: " ++ r.region_name
            ++ " which is not in the deck"))) ∧
    ((∃ r ∈ rs, fp.has_int r.region_name = false) →
      ∀ keywords, addKeywords fp [] keywords = (.ok (), rs) →
        ∃ e, construct gd fp keywords = .error e) ∧
    ((∀ r ∈ rs, fp.has_int r.region_name = true) → ∃ s, fromRecords gd fp rs = .ok s) := by
  have hfail : (∃ r ∈ rs, fp.has_int r.region_name = false) →
      ∃ r ∈ rs, fp.has_int r.region_name = false ∧
        fromRecords gd fp rs = .error (.logic_error
          ("MULTREGT record is based on region: " ++ r.region_name
            ++ " which is not in the deck")) := by
    intro h
    obtain ⟨r, hr, hf, herr⟩ :=
      ctorRecords_error_of rs 0 { searchPairs := [], regions := [] } h
    exact ⟨r, hr, hf, by simp only [fromRecords, herr]⟩
  refine ⟨hfail, fun h keywords hk => ?_, fun h => ?_⟩
  · obtain ⟨r, -, -, herr⟩ := hfail h
    simp only [construct, hk, herr]
    exact ⟨_, rfl⟩
  · obtain ⟨st, hst⟩ := ctorRecords_ok_of rs 0 { searchPairs := [], regions := [] } h
    obtain ⟨sm, hsm⟩ := ctorSearchMap_ok_of st.searchPairs [] (ctorRecords_positions hst)
    simp only [fromRecords, hst, hsm]
    exact ⟨_, rfl⟩

theorem unknown_region_fatal_witness :
    (∃ r ∈ [({ src_value := 1, target_value := 2, trans_mult := 1 / 2, directions := 63,
               nnc_behaviour := .ALL, region_name := "OPERNUM" } : MULTREGTRecord)],
        singleRegionStore.has_int r.region_name = false ∧
        fromRecords rowGrid singleRegionStore
            [{ src_value := 1, target_value := 2, trans_mult := 1 / 2, directions := 63,
               nnc_behaviour := .ALL, region_name := "OPERNUM" }]
          = .error (.logic_error
              ("MULTREGT record is based on region: " ++ r.region_name
                ++ " which is not in the deck"))) ∧
    (∃ s, fromRecords rowGrid singleRegionStore singleDirective = .ok s) :=
  ⟨(unknown_region_fatal rowGrid singleRegionStore
      [{ src_value := 1, target_value := 2, trans_mult := 1 / 2, directions := 63,
         nnc_behaviour := .ALL, region_name := "OPERNUM" }]).1 (by decide),
   (unknown_region_fatal rowGrid singleRegionStore singleDirective).2.2 (by decide)⟩

/-- C17: wildcard expansion.  For a record whose direction, NNC and region-set items
convert, let `S` be the single region `s` when the source is an explicit non-negative ID
`s`, and otherwise (defaulted or negative) the sorted distinct region IDs present in the
region set of the record, and `T` likewise for the target.  The loop body of `addKeyword`
appends to the directive table exactly one directive for every `(src, tgt)` of `S × T` with
`src ≠ tgt`, in the order of the product (source outermost), each with the pair normalized
to `(min, max)` and the multiplier, direction mask, NNC behaviour and region-set name of
the record; pairs with `src = tgt` give nothing.  `addKeyword` on a keyword of this one
record does the same. -/
theorem wildcard_expansion (fp : FieldPropsManager) (m_records : List MULTREGTRecord)
    (deckRecord : DeckRecord) (directions : Nat) (nnc_behaviour : MULTREGT.NNCBehaviourEnum)
    (region_name : String)
    (hd : FaceDir.FromMULTREGTString deckRecord.DIRECTIONS.get = .ok directions)
    (hb : MULTREGT.NNCBehaviourFromString deckRecord.NNC_MULT.get = .ok nnc_behaviour)
    (hn : regionNameFor m_records deckRecord.REGION_DEF = .ok region_name) :
    addRecord fp m_records deckRecord
      = .ok (m_records ++
          ((((selectorSet (fp.get_int region_name) deckRecord.SRC_REGION).product
              (selectorSet (fp.get_int region_name) deckRecord.TARGET_REGION)).filter
            (fun p => decide (p.1 ≠ p.2))).map
            (fun p =>
              { src_value := min p.1 p.2, target_value := max p.1 p.2,
                trans_mult := deckRecord.TRAN_MULT.get, directions := directions,
                nnc_behaviour := nnc_behaviour, region_name := region_name }))) ∧
    (assertKeywordSupported [deckRecord] = .ok () →
      addKeyword fp m_records [deckRecord]
        = (.ok (), m_records ++
          ((((selectorSet (fp.get_int region_name) deckRecord.SRC_REGION).product
              (selectorSet (fp.get_int region_name) deckRecord.TARGET_REGION)).filter
            (fun p => decide (p.1 ≠ p.2))).map
            (fun p =>
              { src_value := min p.1 p.2, target_value := max p.1 p.2,
                trans_mult := deckRecord.TRAN_MULT.get, directions := directions,
                nnc_behaviour := nnc_behaviour, region_name := region_name })))) ∧
    (unique (fp.get_int region_name)).Sorted (· < ·) ∧
    (∀ x, x ∈ unique (fp.get_int region_name) ↔ x ∈ fp.get_int region_name) := by
  have hrec := addRecord_eq fp m_records deckRecord hd hb hn
  rw [expansion_eq_product] at hrec
  refine ⟨hrec, fun hassert => ?_, (sort_unique_spec _).1, (sort_unique_spec _).2⟩
  simp only [addKeyword, hassert, addRecords, hrec]

theorem wildcard_expansion_witness :
    addRecord singleRegionStore []
        (exampleRecord { defaultApplied := true, get := 0 }
          { defaultApplied := false, get := 2 } { defaultApplied := false, get := "F" })
      = .ok [ { src_value := 1, target_value := 2, trans_mult := 1 / 2, directions := 63,
                nnc_behaviour := .ALL, region_name := "FLUXNUM" },
              { src_value := 2, target_value := 3, trans_mult := 1 / 2, directions := 63,
                nnc_behaviour := .ALL, region_name := "FLUXNUM" } ] :=
  (wildcard_expansion singleRegionStore []
    (exampleRecord { defaultApplied := true, get := 0 }
      { defaultApplied := false, get := 2 } { defaultApplied := false, get := "F" })
    63 .ALL "FLUXNUM" (by decide) (by decide) (by decide)).1

/-- C18, the code at the failing input: a keyword whose single record gives the source and
the target selector explicitly as `-1` and `-1` is rejected by `assertKeywordSupported` as a
self-directive and `addKeyword` appends nothing, where the same record with the selectors
`-1` and `-2` is accepted and expanded into the directives for every pair of distinct region
IDs present in the region set: `addKeyword` reads a negative selector as a wildcard,
`assertKeywordSupported` does not. -/
theorem negative_selectors_rejected :
    addKeyword singleRegionStore []
        [exampleRecord { defaultApplied := false, get := -1 }
          { defaultApplied := false, get := -1 } { defaultApplied := false, get := "F" }]
      = (.error (.invalid_argument
          "Sorry - MULTREGT applied internally to a region is not yet supported"), []) ∧
    (addKeyword singleRegionStore []
        [exampleRecord { defaultApplied := false, get := -1 }
          { defaultApplied := false, get := -2 } { defaultApplied := false, get := "F" }]).1
      = .ok () ∧
    (addKeyword singleRegionStore []
        [exampleRecord { defaultApplied := false, get := -1 }
          { defaultApplied := false, get := -2 } { defaultApplied := false, get := "F" }]).2.map
        (fun r => (r.src_value, r.target_value))
      = [(1, 2), (1, 3), (1, 2), (2, 3), (1, 3), (2, 3)] := by
  with_unfolding_all decide

/-- C19 as stated fails: in `defaultedRegionKeyword` over `singleRegionStore` the second
record names `MULTNUM` and expands into no directive, and the third record, whose
region-set field is defaulted and which is processed with a directive in the table, gets
the region set `FLUXNUM` of the first record, not the `MULTNUM` of the record preceding it. -/
theorem defaulted_region_set_refuted :
    addRecords singleRegionStore [] (defaultedRegionKeyword.take 1)
      = (.ok (), [ { src_value := 1, target_value := 2, trans_mult := 1 / 2,
                     directions := 63, nnc_behaviour := .ALL, region_name := "FLUXNUM" } ]) ∧
    addRecords singleRegionStore [] (defaultedRegionKeyword.take 2)
      = addRecords singleRegionStore [] (defaultedRegionKeyword.take 1) ∧
    (defaultedRegionKeyword.get? 1).map (fun r => r.REGION_DEF)
      = some { defaultApplied := false, get := "M" } ∧
    (defaultedRegionKeyword.get? 2).map (fun r => r.REGION_DEF.defaultApplied) = some true ∧
    addKeyword singleRegionStore [] defaultedRegionKeyword
      = (.ok (), [ { src_value := 1, target_value := 2, trans_mult := 1 / 2,
                     directions := 63, nnc_behaviour := .ALL, region_name := "FLUXNUM" },
                   { src_value := 1, target_value := 3, trans_mult := 1 / 2,
                     directions := 63, nnc_behaviour := .ALL, region_name := "FLUXNUM" } ]) := by
  with_unfolding_all decide

/-- C19, amended: a record whose region-set field is defaulted, processed when the
directive table is not empty, gets the region-set name of the last directive of the table.
When the immediately preceding record has appended at least one directive that is the
region set of the preceding record; when the preceding record expanded into zero
directives it is the region set of the last directive from before that record. -/
theorem defaulted_region_set (fp : FieldPropsManager) (m m₁ : List MULTREGTRecord)
    (preceding deckRecord : DeckRecord) (name₁ : String)
    (h₁ : addRecord fp m preceding = .ok m₁)
    (hn₁ : regionNameFor m preceding.REGION_DEF = .ok name₁)
    (hdef : deckRecord.REGION_DEF.defaultApplied = true) (hne : m₁ ≠ []) :
    (∃ back, m₁.getLast? = some back ∧
      regionNameFor m₁ deckRecord.REGION_DEF = .ok back.region_name) ∧
    (m₁ ≠ m → regionNameFor m₁ deckRecord.REGION_DEF = .ok name₁) ∧
    (m₁ = m → ∃ back, m.getLast? = some back ∧
      regionNameFor m₁ deckRecord.REGION_DEF = .ok back.region_name) := by
  have hlast : ∀ (t : List MULTREGTRecord) (back : MULTREGTRecord), t.getLast? = some back →
      regionNameFor t deckRecord.REGION_DEF = .ok back.region_name := by
    intro t back hback
    simp only [regionNameFor, hback, hdef, if_true]
  obtain ⟨back, hback⟩ := Option.isSome_iff_exists.mp (List.getLast?_isSome.mpr hne)
  refine ⟨⟨back, hback, hlast m₁ back hback⟩, fun hchange => ?_, fun hsame => ?_⟩
  · obtain ⟨directions, nnc_behaviour, region_name, hd, hb, hn⟩ := addRecord_ok h₁
    have heq := addRecord_eq fp m preceding hd hb hn
    rw [h₁] at heq
    injection heq with heq
    rw [hn₁] at hn
    injection hn with hn
    subst hn
    rw [heq] at hchange
    obtain ⟨back', hback', hname⟩ := getLast?_append_expansion hchange (fun _ _ => rfl)
    rw [← heq] at hback'
    rw [hlast m₁ back' hback', hname]
  · subst hsame
    exact ⟨back, hback, hlast m₁ back hback⟩

theorem defaulted_region_set_witness :
    regionNameFor
        [ { src_value := 1, target_value := 2, trans_mult := 1 / 2, directions := 63,
            nnc_behaviour := .ALL, region_name := "FLUXNUM" } ]
        { defaultApplied := true, get := "M" } = .ok "FLUXNUM" :=
  (defaulted_region_set singleRegionStore [] _
    (exampleRecord { defaultApplied := false, get := 1 } { defaultApplied := false, get := 2 }
      { defaultApplied := false, get := "F" })
    (exampleRecord { defaultApplied := false, get := 1 } { defaultApplied := false, get := 3 }
      { defaultApplied := true, get := "M" })
    "FLUXNUM" (by with_unfolding_all decide) (by decide) rfl (by simp)).2.1 (by simp)

/-! ## Merging aquifer cells -/

theorem applyNumericalAquifer_congr (s : MULTREGTScanner) {l l' : List Nat}
    (h : ∀ c, c ∈ s.aquifer_cells ++ l ↔ c ∈ s.aquifer_cells ++ l') :
    s.applyNumericalAquifer l = s.applyNumericalAquifer l' := by
  simp only [applyNumericalAquifer, sort_unique_congr h]

theorem applyNumericalAquifer_again (s : MULTREGTScanner) {xs ys : List Nat}
    (h : ∀ c ∈ ys, c ∈ xs) :
    (s.applyNumericalAquifer xs).applyNumericalAquifer ys = s.applyNumericalAquifer xs := by
  have hset : ∀ c, c ∈ std_unique (std_sort (s.aquifer_cells ++ xs)) ++ ys
      ↔ c ∈ s.aquifer_cells ++ xs := by
    intro c
    rw [List.mem_append, (sort_unique_spec (s.aquifer_cells ++ xs)).2 c]
    constructor
    · rintro (hc | hc)
      · exact hc
      · exact List.mem_append_right _ (h c hc)
    · exact Or.inl
  simp only [applyNumericalAquifer, sort_unique_congr hset]

/-- C20: idempotence of `applyNumericalAquifer`.  For every scanner state and every list
`xs` of cell indices, merging `xs` a second time, or merging afterwards any list of indices
taken from `xs`, or merging instead of `xs` a list with the same indices repeated or in
another order, leaves the same scanner state, hence the same aquifer-cell list and the
same `isAquCell` result for every cell index, as merging `xs` once. -/
theorem merge_idempotent (s : MULTREGTScanner) (xs : List Nat) :
    (s.applyNumericalAquifer xs).applyNumericalAquifer xs = s.applyNumericalAquifer xs ∧
    (∀ ys, (∀ c ∈ ys, c ∈ xs) →
      (s.applyNumericalAquifer xs).applyNumericalAquifer ys = s.applyNumericalAquifer xs) ∧
    (∀ ys, (∀ c, c ∈ ys ↔ c ∈ xs) →
      s.applyNumericalAquifer ys = s.applyNumericalAquifer xs) ∧
    s.applyNumericalAquifer (xs ++ xs) = s.applyNumericalAquifer xs ∧
    (∀ c, ((s.applyNumericalAquifer xs).applyNumericalAquifer xs).isAquCell c
      = (s.applyNumericalAquifer xs).isAquCell c) ∧
    (∀ c, (s.applyNumericalAquifer (xs ++ xs)).isAquCell c
      = (s.applyNumericalAquifer xs).isAquCell c) := by
  have htwice := applyNumericalAquifer_again s (fun c (hc : c ∈ xs) => hc)
  have hsame : ∀ ys, (∀ c, c ∈ ys ↔ c ∈ xs) →
      s.applyNumericalAquifer ys = s.applyNumericalAquifer xs := by
    intro ys hys
    refine applyNumericalAquifer_congr s (fun c => ?_)
    simp only [List.mem_append, hys c]
  have hrep : s.applyNumericalAquifer (xs ++ xs) = s.applyNumericalAquifer xs :=
    hsame (xs ++ xs) (fun c => by simp)
  exact ⟨htwice, fun ys hys => applyNumericalAquifer_again s hys, hsame, hrep,
    fun c => by rw [htwice], fun c => by rw [hrep]⟩

theorem merge_idempotent_witness :
    ((twoSetScanner.applyNumericalAquifer [5, 3, 5, 1]).applyNumericalAquifer [3, 5]).aquifer_cells
      = (twoSetScanner.applyNumericalAquifer [5, 3, 5, 1]).aquifer_cells :=
  congrArg MULTREGTScanner.aquifer_cells
    ((merge_idempotent twoSetScanner [5, 3, 5, 1]).2.1 [3, 5] (by decide))

/-! ## The aquifer-cell list after a merge -/

theorem applyNumericalAquifer_sorted (s : MULTREGTScanner) (xs : List Nat) :
    (s.applyNumericalAquifer xs).aquifer_cells.Sorted (· < ·) :=
  (sort_unique_spec (s.aquifer_cells ++ xs)).1

theorem mem_applyNumericalAquifer (s : MULTREGTScanner) (xs : List Nat) (c : Nat) :
    c ∈ (s.applyNumericalAquifer xs).aquifer_cells ↔ c ∈ s.aquifer_cells ∨ c ∈ xs :=
  ((sort_unique_spec (s.aquifer_cells ++ xs)).2 c).trans List.mem_append

theorem pairwise_le_of_sorted_lt {l : List Nat} (h : l.Sorted (· < ·)) :
    l.Pairwise (· ≤ ·) :=
  List.Pairwise.imp (fun hab => le_of_lt hab) h

theorem isAquCell_applyNumericalAquifer (s : MULTREGTScanner)
    (hs : s.aquifer_cells.Pairwise (· ≤ ·)) (xs : List Nat) (c : Nat) :
    (s.applyNumericalAquifer xs).isAquCell c = true ↔ (s.isAquCell c = true ∨ c ∈ xs) := by
  unfold isAquCell
  rw [binary_search_iff_mem (pairwise_le_of_sorted_lt (applyNumericalAquifer_sorted s xs)),
    binary_search_iff_mem hs, mem_applyNumericalAquifer]

/-- The fields that `applyNumericalAquifer` does not write, after any number of merges. -/
theorem foldl_applyNumericalAquifer_frame (merges : List (List Nat)) (s : MULTREGTScanner) :
    (merges.foldl applyNumericalAquifer s).gridDims = s.gridDims ∧
    (merges.foldl applyNumericalAquifer s).m_records = s.m_records ∧
    (merges.foldl applyNumericalAquifer s).m_searchMap = s.m_searchMap ∧
    (merges.foldl applyNumericalAquifer s).regions = s.regions := by
  induction merges generalizing s with
  | nil => exact ⟨rfl, rfl, rfl, rfl⟩
  | cons xs rest ih => exact ih (s.applyNumericalAquifer xs)

theorem foldl_applyNumericalAquifer_sorted (merges : List (List Nat)) (s : MULTREGTScanner)
    (hs : s.aquifer_cells.Sorted (· < ·)) :
    (merges.foldl applyNumericalAquifer s).aquifer_cells.Sorted (· < ·) := by
  induction merges generalizing s with
  | nil => exact hs
  | cons xs rest ih => exact ih (s.applyNumericalAquifer xs) (applyNumericalAquifer_sorted s xs)

theorem construct_ok {gd : GridDims} {fp : FieldPropsManager} {keywords : List DeckKeyword}
    {s : MULTREGTScanner} (h : construct gd fp keywords = .ok s) :
    ∃ rs, addKeywords fp [] keywords = (.ok (), rs) ∧ fromRecords gd fp rs = .ok s := by
  unfold construct at h
  rcases hk : addKeywords fp [] keywords with ⟨out, rs⟩
  rw [hk] at h
  cases out with
  | error e => cases h
  | ok u => exact ⟨rs, rfl, h⟩

/-- C21: aquifer membership after a merge.  For every scanner whose aquifer-cell list is
sorted, every list `xs` and every cell index `c`, after `applyNumericalAquifer xs` the
binary search of `isAquCell c` is true if and only if it was true before the merge or `c`
occurs in `xs`; in particular no member is lost by a merge. -/
theorem aquifer_membership_after_merge (s : MULTREGTScanner)
    (hs : s.aquifer_cells.Pairwise (· ≤ ·)) (xs : List Nat) (c : Nat) :
    ((s.applyNumericalAquifer xs).isAquCell c = true ↔ (s.isAquCell c = true ∨ c ∈ xs)) ∧
    (s.isAquCell c = true ↔ c ∈ s.aquifer_cells) ∧
    (s.isAquCell c = true → (s.applyNumericalAquifer xs).isAquCell c = true) := by
  have h := isAquCell_applyNumericalAquifer s hs xs c
  exact ⟨h, binary_search_iff_mem hs c, fun hc => h.mpr (Or.inl hc)⟩

theorem aquifer_membership_after_merge_witness :
    ((({ twoSetScanner with aquifer_cells := [1, 7] }).applyNumericalAquifer [9, 3]).isAquCell 3
        = true ↔
      (({ twoSetScanner with aquifer_cells := [1, 7] }).isAquCell 3 = true ∨ 3 ∈ [9, 3])) :=
  (aquifer_membership_after_merge { twoSetScanner with aquifer_cells := [1, 7] } (by decide)
    [9, 3] 3).1

/-- C22: the sortedness invariant of the aquifer-cell list.  The list is empty, hence
strictly increasing, in the scanner that the constructor returns, and it is strictly
increasing (sorted, without duplicates) after every call of `applyNumericalAquifer`, for
any scanner state and any argument list, and so after any sequence of merges on a
constructed scanner. -/
theorem aquifer_cells_sorted :
    (∀ gd fp rs s, fromRecords gd fp rs = .ok s →
      s.aquifer_cells = [] ∧ s.aquifer_cells.Sorted (· < ·)) ∧
    (∀ gd fp keywords s, construct gd fp keywords = .ok s →
      s.aquifer_cells = [] ∧ s.aquifer_cells.Sorted (· < ·)) ∧
    (∀ (s : MULTREGTScanner) (xs : List Nat),
      (s.applyNumericalAquifer xs).aquifer_cells.Sorted (· < ·)) ∧
    (∀ gd fp rs s, fromRecords gd fp rs = .ok s → ∀ merges : List (List Nat),
      (merges.foldl applyNumericalAquifer s).aquifer_cells.Sorted (· < ·)) := by
  have hctor : ∀ gd fp rs s, fromRecords gd fp rs = .ok s →
      s.aquifer_cells = [] ∧ s.aquifer_cells.Sorted (· < ·) := by
    intro gd fp rs s h
    obtain ⟨st, -, -, -, -, -, haq⟩ := fromRecords_ok h
    rw [haq]
    exact ⟨rfl, List.sorted_nil⟩
  refine ⟨hctor, fun gd fp keywords s h => ?_, applyNumericalAquifer_sorted,
    fun gd fp rs s h merges => foldl_applyNumericalAquifer_sorted merges s (hctor gd fp rs s h).2⟩
  obtain ⟨rs, -, hrs⟩ := construct_ok h
  exact hctor gd fp rs s hrs

theorem aquifer_cells_sorted_witness :
    ([[5, 3, 5, 1], [4, 4], [0, 9]].foldl applyNumericalAquifer twoSetScanner).aquifer_cells.Sorted
      (· < ·) :=
  aquifer_cells_sorted.2.2.2 _ twoSetStore twoSetDirectives twoSetScanner
    twoSetScanner_constructed [[5, 3, 5, 1], [4, 4], [0, 9]]

/-! ## Invariants of the directives that `addKeyword` appends -/

theorem lt_of_mem_expansion {mk : Int → Int → MULTREGTRecord}
    (hsrc : ∀ low high, (mk low high).src_value = low)
    (htgt : ∀ low high, (mk low high).target_value = high) {S T : List Int}
    {r : MULTREGTRecord} (h : r ∈ expansion mk S T) : r.src_value < r.target_value := by
  simp only [expansion, List.mem_flatMap, List.mem_map, List.mem_filter,
    decide_eq_true_eq] at h
  obtain ⟨src, -, tgt, ⟨-, hne⟩, rfl⟩ := h
  rw [hsrc, htgt]
  rcases lt_or_gt_of_ne hne with hlt | hgt
  · rw [min_eq_left (le_of_lt hlt), max_eq_right (le_of_lt hlt)]
    exact hlt
  · rw [min_eq_right (le_of_lt hgt), max_eq_left (le_of_lt hgt)]
    exact hgt

/-- What one record appends: the directives of one region set, each with `low < high`. -/
theorem addRecord_appended {fp : FieldPropsManager} {m m' : List MULTREGTRecord}
    {deckRecord : DeckRecord} (h : addRecord fp m deckRecord = .ok m') :
    ∃ region_name new, regionNameFor m deckRecord.REGION_DEF = .ok region_name ∧
      m' = m ++ new ∧
      ∀ r ∈ new, r.src_value < r.target_value ∧ r.region_name = region_name := by
  obtain ⟨directions, nnc_behaviour, region_name, hd, hb, hn⟩ := addRecord_ok h
  have heq := addRecord_eq fp m deckRecord hd hb hn
  rw [h] at heq
  injection heq with heq
  refine ⟨region_name, _, hn, heq, fun r hr => ⟨?_, ?_⟩⟩
  · apply lt_of_mem_expansion ?_ ?_ hr
    · exact fun _ _ => rfl
    · exact fun _ _ => rfl
  · apply region_name_of_mem_expansion ?_ hr
    exact fun _ _ => rfl

theorem addRecords_appended (P : MULTREGTRecord → Prop) (fp : FieldPropsManager)
    (hP : ∀ m deckRecord m', addRecord fp m deckRecord = .ok m' →
      ∃ new, m' = m ++ new ∧ ∀ r ∈ new, P r) :
    ∀ (kw : DeckKeyword) (m : List MULTREGTRecord),
      ∃ new, (addRecords fp m kw).2 = m ++ new ∧ ∀ r ∈ new, P r
  | [], m => ⟨[], by simp [addRecords], by simp⟩
  | deckRecord :: rest, m => by
    simp only [addRecords]
    cases hstep : addRecord fp m deckRecord with
    | error e => exact ⟨[], by simp, by simp⟩
    | ok m' =>
      obtain ⟨new₁, hm', hnew₁⟩ := hP m deckRecord m' hstep
      obtain ⟨new₂, hm'', hnew₂⟩ := addRecords_appended P fp hP rest m'
      refine ⟨new₁ ++ new₂, ?_, fun r hr => ?_⟩
      · show (addRecords fp m' rest).2 = _
        rw [hm'', hm', List.append_assoc]
      · rcases List.mem_append.mp hr with hr | hr
        · exact hnew₁ r hr
        · exact hnew₂ r hr

theorem addKeyword_appended (P : MULTREGTRecord → Prop) (fp : FieldPropsManager)
    (hP : ∀ m deckRecord m', addRecord fp m deckRecord = .ok m' →
      ∃ new, m' = m ++ new ∧ ∀ r ∈ new, P r)
    (kw : DeckKeyword) (m : List MULTREGTRecord) :
    ∃ new, (addKeyword fp m kw).2 = m ++ new ∧ ∀ r ∈ new, P r := by
  unfold addKeyword
  cases assertKeywordSupported kw with
  | error e => exact ⟨[], by simp, by simp⟩
  | ok u => exact addRecords_appended P fp hP kw m

theorem addKeywords_appended (P : MULTREGTRecord → Prop) (fp : FieldPropsManager)
    (hP : ∀ m deckRecord m', addRecord fp m deckRecord = .ok m' →
      ∃ new, m' = m ++ new ∧ ∀ r ∈ new, P r) :
    ∀ (kws : List DeckKeyword) (m : List MULTREGTRecord),
      ∃ new, (addKeywords fp m kws).2 = m ++ new ∧ ∀ r ∈ new, P r
  | [], m => ⟨[], by simp [addKeywords], by simp⟩
  | kw :: rest, m => by
    obtain ⟨new₁, hm', hnew₁⟩ := addKeyword_appended P fp hP kw m
    simp only [addKeywords]
    rcases hout : addKeyword fp m kw with ⟨out, m'⟩
    rw [hout] at hm'
    cases out with
    | error e => exact ⟨new₁, hm', hnew₁⟩
    | ok u =>
      obtain ⟨new₂, hm'', hnew₂⟩ := addKeywords_appended P fp hP rest m'
      refine ⟨new₁ ++ new₂, ?_, fun r hr => ?_⟩
      · show (addKeywords fp m' rest).2 = _
        rw [hm'']
        simp only at hm'
        rw [hm', List.append_assoc]
      · rcases List.mem_append.mp hr with hr | hr
        · exact hnew₁ r hr
        · exact hnew₂ r hr

/-- C23: the directive invariant.  Every directive that `addKeyword` appends to the
directive table has its source region strictly below its target region, so no stored
directive pairs a region with itself; this holds for every record sequence and all region
contents, also for the directives appended ahead of a record that throws, and for the
whole directive table that the constructor collects from its keywords. -/
theorem directive_invariant (fp : FieldPropsManager) :
    (∀ (m : List MULTREGTRecord) (deckKeyword : DeckKeyword),
      ∃ new, (addKeyword fp m deckKeyword).2 = m ++ new ∧
        ∀ r ∈ new, r.src_value < r.target_value ∧ r.src_value ≠ r.target_value) ∧
    (∀ (keywords : List DeckKeyword),
      ∀ r ∈ (addKeywords fp [] keywords).2,
        r.src_value < r.target_value ∧ r.src_value ≠ r.target_value) := by
  have hP : ∀ m deckRecord m', addRecord fp m deckRecord = .ok m' →
      ∃ new, m' = m ++ new ∧
        ∀ r ∈ new, r.src_value < r.target_value ∧ r.src_value ≠ r.target_value := by
    intro m deckRecord m' h
    obtain ⟨region_name, new, hn, hm', hnew⟩ := addRecord_appended h
    exact ⟨new, hm', fun r hr => ⟨(hnew r hr).1, ne_of_lt (hnew r hr).1⟩⟩
  refine ⟨fun m kw => addKeyword_appended _ fp hP kw m, fun keywords r hr => ?_⟩
  obtain ⟨new, hm', hnew⟩ := addKeywords_appended _ fp hP keywords []
  rw [hm', List.nil_append] at hr
  exact hnew r hr

/-- C24: parsing of the NNC-behaviour token.  `NNCBehaviourFromString` returns `ALL`, `NNC`,
`NONNC` and `NOAQUNNC` for exactly the strings `ALL`, `NNC`, `NONNC` and `NOAQUNNC`, and the
invalid-argument error of the source for every other string; the match is exact and
case-sensitive. -/
theorem nnc_behaviour_parsing :
    MULTREGT.NNCBehaviourFromString "ALL" = .ok .ALL ∧
    MULTREGT.NNCBehaviourFromString "NNC" = .ok .NNC ∧
    MULTREGT.NNCBehaviourFromString "NONNC" = .ok .NONNC ∧
    MULTREGT.NNCBehaviourFromString "NOAQUNNC" = .ok .NOAQUNNC ∧
    (∀ stringValue : String,
      stringValue ≠ "ALL" → stringValue ≠ "NNC" → stringValue ≠ "NONNC" →
      stringValue ≠ "NOAQUNNC" →
      MULTREGT.NNCBehaviourFromString stringValue
        = .error (.invalid_argument
            ("The input string: " ++ stringValue
              ++ " was invalid. Expected: ALL/NNC/NONNC/NOAQUNNC"))) ∧
    (∀ (stringValue : String) (b : MULTREGT.NNCBehaviourEnum),
      MULTREGT.NNCBehaviourFromString stringValue = .ok b →
        (stringValue = "ALL" ∧ b = .ALL) ∨ (stringValue = "NNC" ∧ b = .NNC) ∨
        (stringValue = "NONNC" ∧ b = .NONNC) ∨ (stringValue = "NOAQUNNC" ∧ b = .NOAQUNNC)) ∧
    MULTREGT.NNCBehaviourFromString "all"
      = .error (.invalid_argument
          "The input string: all was invalid. Expected: ALL/NNC/NONNC/NOAQUNNC") := by
  refine ⟨by decide, by decide, by decide, by decide, ?_, ?_, by decide⟩
  · intro stringValue h1 h2 h3 h4
    simp only [MULTREGT.NNCBehaviourFromString, h1, h2, h3, h4, if_false]
  · intro stringValue b h
    unfold MULTREGT.NNCBehaviourFromString at h
    split_ifs at h with h1 h2 h3 h4
    · injection h with h
      exact Or.inl ⟨h1, h.symm⟩
    · injection h with h
      exact Or.inr (Or.inl ⟨h2, h.symm⟩)
    · injection h with h
      exact Or.inr (Or.inr (Or.inl ⟨h3, h.symm⟩))
    · injection h with h
      exact Or.inr (Or.inr (Or.inr ⟨h4, h.symm⟩))

/-- C25: the closed set of region-set names.  `RegionNameFromDeckValue` returns `OPERNUM`,
`FLUXNUM` and `MULTNUM` for exactly the strings `O`, `F` and `M`, and the invalid-argument
error of the source for every other string; consequently every directive that a record
with an explicit region-set field produces names one of these three region sets. -/
theorem region_names_closed :
    MULTREGT.RegionNameFromDeckValue "O" = .ok "OPERNUM" ∧
    MULTREGT.RegionNameFromDeckValue "F" = .ok "FLUXNUM" ∧
    MULTREGT.RegionNameFromDeckValue "M" = .ok "MULTNUM" ∧
    (∀ stringValue : String,
      stringValue ≠ "O" → stringValue ≠ "F" → stringValue ≠ "M" →
      MULTREGT.RegionNameFromDeckValue stringValue
        = .error (.invalid_argument
            ("The input string: " ++ stringValue ++ " was invalid. Expected: O/F/M"))) ∧
    (∀ (stringValue name : String),
      MULTREGT.RegionNameFromDeckValue stringValue = .ok name →
        (stringValue = "O" ∧ name = "OPERNUM") ∨ (stringValue = "F" ∧ name = "FLUXNUM") ∨
        (stringValue = "M" ∧ name = "MULTNUM")) ∧
    (∀ (fp : FieldPropsManager) (m m' : List MULTREGTRecord) (deckRecord : DeckRecord),
      deckRecord.REGION_DEF.defaultApplied = false →
      addRecord fp m deckRecord = .ok m' →
      ∃ new, m' = m ++ new ∧
        ∀ r ∈ new, r.region_name = "OPERNUM" ∨ r.region_name = "FLUXNUM" ∨
          r.region_name = "MULTNUM") := by
  have hname : ∀ (stringValue name : String),
      MULTREGT.RegionNameFromDeckValue stringValue = .ok name →
        (stringValue = "O" ∧ name = "OPERNUM") ∨ (stringValue = "F" ∧ name = "FLUXNUM") ∨
        (stringValue = "M" ∧ name = "MULTNUM") := by
    intro stringValue name h
    unfold MULTREGT.RegionNameFromDeckValue at h
    split_ifs at h with h1 h2 h3
    · injection h with h
      exact Or.inl ⟨h1, h.symm⟩
    · injection h with h
      exact Or.inr (Or.inl ⟨h2, h.symm⟩)
    · injection h with h
      exact Or.inr (Or.inr ⟨h3, h.symm⟩)
  refine ⟨by decide, by decide, by decide, ?_, hname, ?_⟩
  · intro stringValue h1 h2 h3
    simp only [MULTREGT.RegionNameFromDeckValue, h1, h2, h3, if_false]
  · intro fp m m' deckRecord hdef h
    obtain ⟨region_name, new, hn, hm', hnew⟩ := addRecord_appended h
    have hparse : MULTREGT.RegionNameFromDeckValue deckRecord.REGION_DEF.get
        = .ok region_name := by
      unfold regionNameFor at hn
      rw [hdef] at hn
      cases hlast : m.getLast? with
      | none => simpa [hlast] using hn
      | some back => simpa [hlast] using hn
    refine ⟨new, hm', fun r hr => ?_⟩
    rw [(hnew r hr).2]
    rcases hname _ _ hparse with h1 | h1 | h1
    · exact Or.inl h1.2
    · exact Or.inr (Or.inl h1.2)
    · exact Or.inr (Or.inr h1.2)

theorem region_names_closed_witness :
    ∃ new, [ ({ src_value := 1, target_value := 2, trans_mult := 1 / 2, directions := 63,
                nnc_behaviour := .ALL, region_name := "FLUXNUM" } : MULTREGTRecord),
             { src_value := 2, target_value := 3, trans_mult := 1 / 2, directions := 63,
               nnc_behaviour := .ALL, region_name := "FLUXNUM" } ] = [] ++ new ∧
      ∀ r ∈ new, r.region_name = "OPERNUM" ∨ r.region_name = "FLUXNUM" ∨
        r.region_name = "MULTNUM" :=
  region_names_closed.2.2.2.2.2 singleRegionStore [] _
    (exampleRecord { defaultApplied := true, get := 0 }
      { defaultApplied := false, get := 2 } { defaultApplied := false, get := "F" })
    rfl (by with_unfolding_all decide)

/-! ## Well-formedness of the search index and totality of the queries -/

/-- C26: well-formedness of the search index.  For every scanner that the constructor
builds and every entry of the search index, region-set name `N` and pair `(lo, hi)` with
position `ix`: `ix` is a position of the directive table, the directive at `ix` has the
name `N` and the normalized pair `(lo, hi)` with `lo < hi`, and no directive at a position
greater than `ix` has the name `N` and that pair. -/
theorem search_index_wellformed (gd : GridDims) (fp : FieldPropsManager)
    (rs : List MULTREGTRecord) (s : MULTREGTScanner) (h : fromRecords gd fp rs = .ok s) :
    ∀ entry ∈ s.m_searchMap, ∀ e ∈ entry.2,
      e.2 < s.m_records.length ∧ e.1.1 < e.1.2 ∧
      (∃ r, s.m_records[e.2]? = some r ∧ r.region_name = entry.1 ∧
        orderedPair r.src_value r.target_value = e.1) ∧
      (∀ k r', e.2 < k → s.m_records[k]? = some r' →
        ¬ (r'.region_name = entry.1 ∧
            orderedPair r'.src_value r'.target_value = e.1)) := by
  intro entry hentry e he
  obtain ⟨st, -, -, -, hrec, -, -⟩ := fromRecords_ok h
  obtain ⟨⟨r, hr, hf, hlast⟩, hname⟩ := fromRecords_entries h entry hentry e he
  have hlt : e.1.1 < e.1.2 := filedUnder_lt hf
  rw [hrec]
  refine ⟨(List.getElem?_eq_some.mp hr).1, hlt, ⟨r, hr, ?_, hf.2⟩, ?_⟩
  · simpa [hr] using hname
  · rintro k r' hk hr' ⟨-, hpair⟩
    refine hlast k r' hk hr' ⟨fun heq => ?_, hpair⟩
    rw [← hpair, heq] at hlt
    simp [orderedPair] at hlt

theorem search_index_wellformed_witness :
    fromRecords { getIJK := fun g => (g, 0, 0) } twoSetStore twoSetDirectives
      = .ok twoSetScanner ∧
    twoSetScanner.m_searchMap = [("FLUXNUM", [((1, 3), 1)]), ("MULTNUM", [((1, 2), 0)])] ∧
    (∀ entry ∈ twoSetScanner.m_searchMap, ∀ e ∈ entry.2,
      e.2 < twoSetScanner.m_records.length ∧ e.1.1 < e.1.2 ∧
      (∃ r, twoSetScanner.m_records[e.2]? = some r ∧ r.region_name = entry.1 ∧
        orderedPair r.src_value r.target_value = e.1) ∧
      (∀ k r', e.2 < k → twoSetScanner.m_records[k]? = some r' →
        ¬ (r'.region_name = entry.1 ∧
            orderedPair r'.src_value r'.target_value = e.1))) :=
  ⟨twoSetScanner_constructed, rfl,
    search_index_wellformed _ twoSetStore twoSetDirectives twoSetScanner
      twoSetScanner_constructed⟩

theorem nncStep_ok {s : MULTREGTScanner} {c1 c2 : Nat} (acc : ℚ)
    {entry : String × MULTREGTSearchMap}
    (hreg : (StdMap.find entry.1 s.regions).isSome = true)
    (hent : ∀ e ∈ entry.2, e.1.1 < e.1.2 ∧ e.2 < s.m_records.length)
    (h1 : InRange s c1) (h2 : InRange s c2) :
    ∃ v, nncStep s c1 c2 acc entry = .ok v := by
  obtain ⟨data, hdata⟩ := Option.isSome_iff_exists.mp hreg
  obtain ⟨r1, hr1⟩ := inRange_getElem? h1 hdata
  obtain ⟨r2, hr2⟩ := inRange_getElem? h2 hdata
  simp only [nncStep, hdata, hr1, hr2]
  cases hpos : StdMap.find (r1, r2) entry.2 with
  | none => exact ⟨acc, rfl⟩
  | some ix =>
    obtain ⟨hlt, hix⟩ := hent _ (StdMap.mem_of_find hpos)
    obtain ⟨record, hrec⟩ : ∃ record, s.m_records[ix]? = some record :=
      ⟨s.m_records[ix], List.getElem?_eq_getElem hix⟩
    have hne : ¬ r1 = r2 := ne_of_lt hlt
    simp only [hne, if_false, hrec]
    split_ifs
    · exact ⟨_, rfl⟩
    · exact ⟨_, rfl⟩

theorem nncLoop_ok {s : MULTREGTScanner} {c1 c2 : Nat}
    (l : List (String × MULTREGTSearchMap)) (acc : ℚ)
    (hl : ∀ entry ∈ l, (StdMap.find entry.1 s.regions).isSome = true ∧
      ∀ e ∈ entry.2, e.1.1 < e.1.2 ∧ e.2 < s.m_records.length)
    (h1 : InRange s c1) (h2 : InRange s c2) :
    ∃ v, nncLoop s c1 c2 l acc = .ok v := by
  induction l generalizing acc with
  | nil => exact ⟨acc, rfl⟩
  | cons entry rest ih =>
    obtain ⟨hreg, hent⟩ := hl entry (List.mem_cons_self _ _)
    obtain ⟨v, hv⟩ := nncStep_ok acc hreg hent h1 h2
    simp only [nncLoop, hv]
    exact ih v (fun e he => hl e (List.mem_cons_of_mem _ he))

theorem getRegionMultiplierNNC_ok {s : MULTREGTScanner} {c1 c2 : Nat}
    (hs : Consistent s) (h1 : InRange s c1) (h2 : InRange s c2) :
    ∃ v, getRegionMultiplierNNC s c1 c2 = .ok v := by
  unfold getRegionMultiplierNNC
  split_ifs
  · exact ⟨1, rfl⟩
  · exact nncLoop_ok _ 1 hs h1 h2

/-- C27: queries cannot fail on a constructed scanner.  For every scanner that the
constructor returns, after any number of aquifer merges, and for all cell indices below the
length of the region arrays, the region-set names of the search index have their region
arrays, the stored positions are inside the directive table and the pairs found have two
different regions (the state is consistent), and `getRegionMultiplier`, for every face
direction, and `getRegionMultiplierNNC` return a value: no error branch is reached. -/
theorem queries_cannot_fail (gd : GridDims) (fp : FieldPropsManager)
    (rs : List MULTREGTRecord) (s : MULTREGTScanner) (h : fromRecords gd fp rs = .ok s)
    (merges : List (List Nat)) (c1 c2 : Nat) (h1 : InRange s c1) (h2 : InRange s c2) :
    Consistent (merges.foldl applyNumericalAquifer s) ∧
    (∀ d, ∃ v, getRegionMultiplier (merges.foldl applyNumericalAquifer s) c1 c2 d = .ok v) ∧
    (∃ v, getRegionMultiplierNNC (merges.foldl applyNumericalAquifer s) c1 c2 = .ok v) := by
  obtain ⟨-, hrec, hsm, hreg⟩ := foldl_applyNumericalAquifer_frame merges s
  have hs : Consistent (merges.foldl applyNumericalAquifer s) := by
    unfold Consistent
    rw [hsm, hreg, hrec]
    exact fromRecords_consistent h
  have h1' : InRange (merges.foldl applyNumericalAquifer s) c1 := by
    unfold InRange
    rw [hreg]
    exact h1
  have h2' : InRange (merges.foldl applyNumericalAquifer s) c2 := by
    unfold InRange
    rw [hreg]
    exact h2
  exact ⟨hs, fun d => ⟨_, getRegionMultiplier_eq_prod d hs h1' h2'⟩,
    getRegionMultiplierNNC_ok hs h1' h2'⟩

theorem queries_cannot_fail_witness :
    Consistent ([[2], [0, 2]].foldl applyNumericalAquifer twoSetScanner) ∧
    (∀ d, ∃ v,
      getRegionMultiplier ([[2], [0, 2]].foldl applyNumericalAquifer twoSetScanner) 0 1 d
        = .ok v) ∧
    (∃ v,
      getRegionMultiplierNNC ([[2], [0, 2]].foldl applyNumericalAquifer twoSetScanner) 0 1
        = .ok v) :=
  queries_cannot_fail _ twoSetStore twoSetDirectives twoSetScanner twoSetScanner_constructed
    [[2], [0, 2]] 0 1 (by decide) (by decide)

/-! ## Agreement of the two queries on non-neighbour connections -/

theorem applyMultiplier_eq_nnc {s : MULTREGTScanner} {c1 c2 : Nat}
    (hnnc : is_adjacent_cells s.gridDims c1 c2 = false ∨
      s.isAquCell c1 = true ∨ s.isAquCell c2 = true)
    (nnc : MULTREGT.NNCBehaviourEnum) :
    applyMultiplier s c1 c2 nnc = !ignoreMultiplierRecordNNC (s.isAquNNC c1 c2) nnc := by
  unfold applyMultiplier ignoreMultiplierRecord ignoreMultiplierRecordNNC isAquNNC
  rcases hnnc with h | h | h
  · rw [h]
    cases nnc <;> cases s.isAquCell c1 <;> cases s.isAquCell c2 <;> decide
  · rw [h]
    cases nnc <;> cases is_adjacent_cells s.gridDims c1 c2 <;> cases s.isAquCell c2 <;> decide
  · rw [h]
    cases nnc <;> cases is_adjacent_cells s.gridDims c1 c2 <;> cases s.isAquCell c1 <;> decide

theorem faceStep_eq_nncStep {s : MULTREGTScanner} {c1 c2 : Nat} (d : FaceDir.DirEnum)
    (acc : ℚ) {entry : String × MULTREGTSearchMap}
    (hpos : ∀ e ∈ entry.2, e.2 < s.m_records.length)
    (hnnc : is_adjacent_cells s.gridDims c1 c2 = false ∨
      s.isAquCell c1 = true ∨ s.isAquCell c2 = true)
    (hdir : ∀ record, faceDirective s c1 c2 entry = some record →
      record.directions &&& d.toNat ≠ 0)
    (hord : ∀ data, StdMap.find entry.1 s.regions = some data →
      ∀ r1, data[c1]? = some r1 → ∀ r2, data[c2]? = some r2 → r1 ≤ r2) :
    faceStep s c1 c2 d acc entry = nncStep s c1 c2 acc entry := by
  unfold faceStep nncStep
  cases hdata : StdMap.find entry.1 s.regions with
  | none => rfl
  | some data =>
    dsimp only
    cases h1 : data[c1]? <;> cases h2 : data[c2]? <;> try rfl
    rename_i r1 r2
    have hle : r1 ≤ r2 := hord data hdata r1 h1 r2 h2
    simp only [hle, if_true]
    cases hp : StdMap.find (r1, r2) entry.2 with
    | none => rfl
    | some ix =>
      have hix : ix < s.m_records.length := hpos _ (StdMap.mem_of_find hp)
      have hrec : s.m_records[ix]? = some s.m_records[ix] := List.getElem?_eq_getElem hix
      have hfd : faceDirective s c1 c2 entry = some s.m_records[ix] := by
        simp only [faceDirective, positionFor, hdata, h1, h2, orderedPair, hle, if_true, hp,
          hrec]
      have hd := hdir _ hfd
      simp only [hrec, hd, if_false, applyMultiplier_eq_nnc hnnc]

theorem faceLoop_eq_nncLoop {s : MULTREGTScanner} {c1 c2 : Nat} (d : FaceDir.DirEnum)
    (l : List (String × MULTREGTSearchMap)) (acc : ℚ)
    (hpos : ∀ entry ∈ l, ∀ e ∈ entry.2, e.2 < s.m_records.length)
    (hnnc : is_adjacent_cells s.gridDims c1 c2 = false ∨
      s.isAquCell c1 = true ∨ s.isAquCell c2 = true)
    (hdir : ∀ entry ∈ l, ∀ record, faceDirective s c1 c2 entry = some record →
      record.directions &&& d.toNat ≠ 0)
    (hord : ∀ entry ∈ l, ∀ data, StdMap.find entry.1 s.regions = some data →
      ∀ r1, data[c1]? = some r1 → ∀ r2, data[c2]? = some r2 → r1 ≤ r2) :
    faceLoop s c1 c2 d l acc = nncLoop s c1 c2 l acc := by
  induction l generalizing acc with
  | nil => rfl
  | cons entry rest ih =>
    have hmem := List.mem_cons_self entry rest
    simp only [faceLoop, nncLoop]
    rw [faceStep_eq_nncStep d acc (hpos entry hmem) hnnc (hdir entry hmem) (hord entry hmem)]
    cases nncStep s c1 c2 acc entry with
    | error e => rfl
    | ok acc' =>
      exact ih acc' (fun e he => hpos e (List.mem_cons_of_mem _ he))
        (fun e he => hdir e (List.mem_cons_of_mem _ he))
        (fun e he => hord e (List.mem_cons_of_mem _ he))

/-- C28: agreement of the two queries on non-neighbour connections.  For every scanner
whose stored positions are inside the directive table, all cells `c1`, `c2` that are not
structurally adjacent or of which at least one is an aquifer cell, and every face direction
`d` that is in the direction mask of every directive indexed for the region pairs of the
cells: if the region ID of `c1` is not greater than that of `c2` in every indexed region set,
then `getRegionMultiplier c1 c2 d` and `getRegionMultiplierNNC c1 c2` are equal. -/
theorem nnc_agreement (s : MULTREGTScanner) (c1 c2 : Nat) (d : FaceDir.DirEnum)
    (hpos : ∀ entry ∈ s.m_searchMap, ∀ e ∈ entry.2, e.2 < s.m_records.length)
    (hnnc : is_adjacent_cells s.gridDims c1 c2 = false ∨
      s.isAquCell c1 = true ∨ s.isAquCell c2 = true)
    (hdir : ∀ entry ∈ s.m_searchMap, ∀ record,
      faceDirective s c1 c2 entry = some record → record.directions &&& d.toNat ≠ 0)
    (hord : ∀ entry ∈ s.m_searchMap, ∀ data, StdMap.find entry.1 s.regions = some data →
      ∀ r1, data[c1]? = some r1 → ∀ r2, data[c2]? = some r2 → r1 ≤ r2) :
    getRegionMultiplier s c1 c2 d = getRegionMultiplierNNC s c1 c2 := by
  unfold getRegionMultiplier getRegionMultiplierNNC
  rw [faceLoop_eq_nncLoop d _ 1 hpos hnnc hdir hord]

theorem nnc_agreement_witness :
    getRegionMultiplier (twoSetScanner.applyNumericalAquifer [1]) 0 1 .XPlus = .ok (3 / 4) ∧
    getRegionMultiplier (twoSetScanner.applyNumericalAquifer [1]) 0 1 .XPlus
      = getRegionMultiplierNNC (twoSetScanner.applyNumericalAquifer [1]) 0 1 :=
  ⟨by with_unfolding_all decide,
    nnc_agreement (twoSetScanner.applyNumericalAquifer [1]) 0 1 .XPlus (by decide)
      (by decide)
      (by with_unfolding_all decide :
        ∀ entry ∈ (twoSetScanner.applyNumericalAquifer [1]).m_searchMap,
          ∀ record ∈ faceDirective (twoSetScanner.applyNumericalAquifer [1]) 0 1 entry,
            record.directions &&& FaceDir.DirEnum.XPlus.toNat ≠ 0)
      (by decide :
        ∀ entry ∈ (twoSetScanner.applyNumericalAquifer [1]).m_searchMap,
          ∀ data ∈ StdMap.find entry.1 (twoSetScanner.applyNumericalAquifer [1]).regions,
            ∀ r1 ∈ data[0]?, ∀ r2 ∈ data[1]?, r1 ≤ r2)⟩

/-! ## Locality of aquifer merges -/

theorem faceStep_aqu_congr {s s' : MULTREGTScanner} (hg : s'.gridDims = s.gridDims)
    (hrec : s'.m_records = s.m_records) (hreg : s'.regions = s.regions) {c1 c2 : Nat}
    (haq : s'.isAquNNC c1 c2 = s.isAquNNC c1 c2) (d : FaceDir.DirEnum) (acc : ℚ)
    (entry : String × MULTREGTSearchMap) :
    faceStep s' c1 c2 d acc entry = faceStep s c1 c2 d acc entry := by
  simp only [faceStep, applyMultiplier, hg, hrec, hreg, haq]

theorem nncStep_aqu_congr {s s' : MULTREGTScanner}
    (hrec : s'.m_records = s.m_records) (hreg : s'.regions = s.regions) {c1 c2 : Nat}
    (haq : s'.isAquNNC c1 c2 = s.isAquNNC c1 c2) (acc : ℚ)
    (entry : String × MULTREGTSearchMap) :
    nncStep s' c1 c2 acc entry = nncStep s c1 c2 acc entry := by
  simp only [nncStep, hrec, hreg, haq]

theorem faceLoop_aqu_congr {s s' : MULTREGTScanner} (hg : s'.gridDims = s.gridDims)
    (hrec : s'.m_records = s.m_records) (hreg : s'.regions = s.regions) {c1 c2 : Nat}
    (haq : s'.isAquNNC c1 c2 = s.isAquNNC c1 c2) (d : FaceDir.DirEnum)
    (l : List (String × MULTREGTSearchMap)) (acc : ℚ) :
    faceLoop s' c1 c2 d l acc = faceLoop s c1 c2 d l acc := by
  induction l generalizing acc with
  | nil => rfl
  | cons entry rest ih =>
    simp only [faceLoop]
    rw [faceStep_aqu_congr hg hrec hreg haq d acc entry]
    cases faceStep s c1 c2 d acc entry with
    | error e => rfl
    | ok acc' => exact ih acc'

theorem nncLoop_aqu_congr {s s' : MULTREGTScanner}
    (hrec : s'.m_records = s.m_records) (hreg : s'.regions = s.regions) {c1 c2 : Nat}
    (haq : s'.isAquNNC c1 c2 = s.isAquNNC c1 c2)
    (l : List (String × MULTREGTSearchMap)) (acc : ℚ) :
    nncLoop s' c1 c2 l acc = nncLoop s c1 c2 l acc := by
  induction l generalizing acc with
  | nil => rfl
  | cons entry rest ih =>
    simp only [nncLoop]
    rw [nncStep_aqu_congr hrec hreg haq acc entry]
    cases nncStep s c1 c2 acc entry with
    | error e => rfl
    | ok acc' => exact ih acc'

theorem isAquCell_of_not_mem (s : MULTREGTScanner) (hs : s.aquifer_cells.Pairwise (· ≤ ·))
    {xs : List Nat} {c : Nat} (hc : c ∉ xs) :
    (s.applyNumericalAquifer xs).isAquCell c = s.isAquCell c := by
  rw [Bool.eq_iff_iff, isAquCell_applyNumericalAquifer s hs xs c]
  exact ⟨fun h => h.resolve_right hc, Or.inl⟩

/-- C29: locality of aquifer merges.  `applyNumericalAquifer xs` on a scanner whose
aquifer-cell list is sorted, as every constructed scanner has it, leaves the grid dimensions,
the directive table, the search index and the region arrays unchanged, and for all cells
`c1`, `c2` that do not occur in `xs` the queries `getRegionMultiplier c1 c2 d`, for every
direction `d`, and `getRegionMultiplierNNC c1 c2` return the same result before and after
the merge. -/
theorem merge_locality (s : MULTREGTScanner) (hs : s.aquifer_cells.Pairwise (· ≤ ·))
    (xs : List Nat) :
    (s.applyNumericalAquifer xs).gridDims = s.gridDims ∧
    (s.applyNumericalAquifer xs).m_records = s.m_records ∧
    (s.applyNumericalAquifer xs).m_searchMap = s.m_searchMap ∧
    (s.applyNumericalAquifer xs).regions = s.regions ∧
    ∀ c1 c2, c1 ∉ xs → c2 ∉ xs →
      (∀ d, getRegionMultiplier (s.applyNumericalAquifer xs) c1 c2 d
          = getRegionMultiplier s c1 c2 d) ∧
      getRegionMultiplierNNC (s.applyNumericalAquifer xs) c1 c2
        = getRegionMultiplierNNC s c1 c2 := by
  refine ⟨rfl, rfl, rfl, rfl, fun c1 c2 h1 h2 => ?_⟩
  have haq : (s.applyNumericalAquifer xs).isAquNNC c1 c2 = s.isAquNNC c1 c2 := by
    unfold isAquNNC
    rw [isAquCell_of_not_mem s hs h1, isAquCell_of_not_mem s hs h2]
  refine ⟨fun d => ?_, ?_⟩
  · have hf : faceLoop (s.applyNumericalAquifer xs) c1 c2 d s.m_searchMap 1
        = faceLoop s c1 c2 d s.m_searchMap 1 :=
      by refine faceLoop_aqu_congr ?_ ?_ ?_ haq d _ 1 <;> rfl
    show (if s.m_searchMap.isEmpty = true then Except.ok 1
      else faceLoop (s.applyNumericalAquifer xs) c1 c2 d s.m_searchMap 1) = _
    rw [hf]
    rfl
  · have hf : nncLoop (s.applyNumericalAquifer xs) c1 c2 s.m_searchMap 1
        = nncLoop s c1 c2 s.m_searchMap 1 :=
      by refine nncLoop_aqu_congr ?_ ?_ haq _ 1 <;> rfl
    show (if s.m_searchMap.isEmpty = true then Except.ok 1
      else nncLoop (s.applyNumericalAquifer xs) c1 c2 s.m_searchMap 1) = _
    rw [hf]
    rfl

theorem merge_locality_witness :
    twoSetScanner.aquifer_cells.Pairwise (· ≤ ·) ∧
    getRegionMultiplierNNC (twoSetScanner.applyNumericalAquifer [2]) 0 1 = .ok (15 / 8) ∧
    ((twoSetScanner.applyNumericalAquifer [2]).gridDims = twoSetScanner.gridDims ∧
    (twoSetScanner.applyNumericalAquifer [2]).m_records = twoSetScanner.m_records ∧
    (twoSetScanner.applyNumericalAquifer [2]).m_searchMap = twoSetScanner.m_searchMap ∧
    (twoSetScanner.applyNumericalAquifer [2]).regions = twoSetScanner.regions ∧
    ∀ c1 c2, c1 ∉ [2] → c2 ∉ [2] →
      (∀ d, getRegionMultiplier (twoSetScanner.applyNumericalAquifer [2]) c1 c2 d
          = getRegionMultiplier twoSetScanner c1 c2 d) ∧
      getRegionMultiplierNNC (twoSetScanner.applyNumericalAquifer [2]) c1 c2
        = getRegionMultiplierNNC twoSetScanner c1 c2) :=
  ⟨List.Pairwise.nil, by with_unfolding_all decide,
    merge_locality twoSetScanner List.Pairwise.nil [2]⟩

end MULTREGTScanner

/-! ## Well production controls as a set of modes -/

theorem testBit_add_two_pow (k : Nat) : ∀ (c : Nat), c.testBit k = false →
    ∀ j, (c + 2 ^ k).testBit j = (c.testBit j || decide (j = k)) := by
  induction k with
  | zero =>
    intro c hc j
    rw [Nat.testBit_zero] at hc
    have hc' : c % 2 = 0 := by
      have := of_decide_eq_false hc
      omega
    cases j with
    | zero =>
      simp only [Nat.testBit_zero, pow_zero]
      have : (c + 1) % 2 = 1 := by omega
      simp [this]
    | succ j =>
      simp only [Nat.testBit_succ, pow_zero]
      have : (c + 1) / 2 = c / 2 := by omega
      simp [this]
  | succ k ih =>
    intro c hc j
    rw [Nat.testBit_succ] at hc
    cases j with
    | zero =>
      simp only [Nat.testBit_zero]
      have : (c + 2 ^ (k + 1)) % 2 = c % 2 := by
        rw [pow_succ]
        omega
      simp [this]
    | succ j =>
      simp only [Nat.testBit_succ]
      have : (c + 2 ^ (k + 1)) / 2 = c / 2 + 2 ^ k := by
        rw [pow_succ]
        omega
      rw [this, ih _ hc j]
      simp

theorem testBit_sub_two_pow (k : Nat) : ∀ (c : Nat), c.testBit k = true →
    ∀ j, (c - 2 ^ k).testBit j = (c.testBit j && !decide (j = k)) := by
  induction k with
  | zero =>
    intro c hc j
    rw [Nat.testBit_zero] at hc
    have hc' : c % 2 = 1 := of_decide_eq_true hc
    cases j with
    | zero =>
      simp only [Nat.testBit_zero, pow_zero]
      have : (c - 1) % 2 = 0 := by omega
      simp [this]
    | succ j =>
      simp only [Nat.testBit_succ, pow_zero]
      have : (c - 1) / 2 = c / 2 := by omega
      simp [this]
  | succ k ih =>
    intro c hc j
    have hge : 2 ^ (k + 1) ≤ c := Nat.testBit_implies_ge hc
    rw [Nat.testBit_succ] at hc
    cases j with
    | zero =>
      simp only [Nat.testBit_zero]
      have : (c - 2 ^ (k + 1)) % 2 = c % 2 := by
        rw [pow_succ] at hge ⊢
        omega
      simp [this]
    | succ j =>
      simp only [Nat.testBit_succ]
      have : (c - 2 ^ (k + 1)) / 2 = c / 2 - 2 ^ k := by
        rw [pow_succ] at hge ⊢
        omega
      rw [this, ih _ hc j]
      simp

theorem and_two_pow_eq_zero_iff (c k : Nat) : c &&& 2 ^ k = 0 ↔ c.testBit k = false := by
  constructor
  · intro h
    have := Nat.testBit_and c (2 ^ k) k
    rw [h, Nat.zero_testBit, Nat.testBit_two_pow_self, Bool.and_true] at this
    exact this.symm
  · intro h
    apply Nat.eq_of_testBit_eq
    intro i
    rw [Nat.testBit_and, Nat.zero_testBit, Nat.testBit_two_pow]
    by_cases hi : k = i
    · subst hi
      simp [h]
    · simp [hi]

theorem add_two_pow_lt {c k n : Nat} (hc : c < 2 ^ n) (hk : k < n)
    (h : c.testBit k = false) : c + 2 ^ k < 2 ^ n := by
  apply Nat.lt_pow_two_of_testBit
  intro i hi
  rw [testBit_add_two_pow k c h i]
  have h1 : c.testBit i = false :=
    Nat.testBit_lt_two_pow (lt_of_lt_of_le hc (Nat.pow_le_pow_right (by decide) hi))
  have h2 : i ≠ k := by omega
  simp [h1, h2]


theorem intBits_lt (x : Int) : intBits x < 2 ^ 32 := by
  unfold intBits
  omega

theorem intBits_intOfBits (p : Nat) : intBits (intOfBits p) = p % 4294967296 := by
  unfold intBits intOfBits
  split_ifs <;> omega

theorem intOfBits_eq_zero_iff (p : Nat) : intOfBits p = 0 ↔ p % 4294967296 = 0 := by
  unfold intOfBits
  split_ifs <;> omega

theorem intOfBits_intBits {x : Int} (h1 : -2147483648 ≤ x) (h2 : x < 2147483648) :
    intOfBits (intBits x) = x := by
  unfold intBits intOfBits
  split_ifs <;> omega

theorem intBits_two_pow {k : Nat} (hk : k < 32) : intBits ((2 : Int) ^ k) = 2 ^ k := by
  have h : (2 : Nat) ^ k < 2 ^ 32 := Nat.pow_lt_pow_right (by decide) hk
  have hc : ((2 : Int) ^ k) = (((2 : Nat) ^ k : Nat) : Int) := by push_cast; rfl
  rw [hc]
  generalize (2 : Nat) ^ k = n at h
  unfold intBits
  omega

theorem intBits_add (a b : Int) :
    intBits (a + b) = (intBits a + intBits b) % 4294967296 := by
  unfold intBits
  omega

theorem intBits_sub {a b : Int} (h : intBits b ≤ intBits a) :
    intBits (a - b) = intBits a - intBits b := by
  unfold intBits at *
  omega

namespace WellProductionControls

theorem intAnd_two_pow_eq_zero_iff (c : Int) {k : Nat} (hk : k < 32) :
    intAnd c ((2 : Int) ^ k) = 0 ↔ (intBits c).testBit k = false := by
  unfold intAnd
  rw [intBits_two_pow hk, intOfBits_eq_zero_iff, ← and_two_pow_eq_zero_iff]
  have h1 : intBits c &&& 2 ^ k ≤ 2 ^ k := Nat.and_le_right
  have h2 : (2 : Nat) ^ k < 2 ^ 32 := Nat.pow_lt_pow_right (by decide) hk
  rw [Nat.mod_eq_of_lt (by omega)]

theorem hasControl_two_pow (w : WellProductionControls) {k : Nat} (hk : k < 32) :
    w.hasControl ((2 : Int) ^ k) = (intBits w.controls).testBit k := by
  unfold hasControl
  cases h : (intBits w.controls).testBit k with
  | false => simpa using (intAnd_two_pow_eq_zero_iff w.controls hk).mpr h
  | true =>
    have : ¬ intAnd w.controls ((2 : Int) ^ k) = 0 := by
      rw [intAnd_two_pow_eq_zero_iff w.controls hk, h]
      decide
    simpa using this

theorem addControl_eq (w : WellProductionControls) {k : Nat} (hk : k < 32) :
    w.addControl ((2 : Int) ^ k) =
      if w.hasControl ((2 : Int) ^ k) = true then w
      else { w with controls := intAdd w.controls ((2 : Int) ^ k) } := by
  unfold addControl
  rw [hasControl_two_pow w hk]
  cases h : (intBits w.controls).testBit k with
  | false => simp [(intAnd_two_pow_eq_zero_iff w.controls hk).mpr h]
  | true =>
    have : ¬ intAnd w.controls ((2 : Int) ^ k) = 0 := by
      rw [intAnd_two_pow_eq_zero_iff w.controls hk, h]
      decide
    simp [this]

theorem skipControl_eq (w : WellProductionControls) {k : Nat} (hk : k < 32) :
    w.skipControl ((2 : Int) ^ k) =
      if w.hasControl ((2 : Int) ^ k) = true then
        { w with controls := intSub w.controls ((2 : Int) ^ k) }
      else w := by
  unfold skipControl
  rw [hasControl_two_pow w hk]
  cases h : (intBits w.controls).testBit k with
  | false => simp [(intAnd_two_pow_eq_zero_iff w.controls hk).mpr h]
  | true =>
    have : ¬ intAnd w.controls ((2 : Int) ^ k) = 0 := by
      rw [intAnd_two_pow_eq_zero_iff w.controls hk, h]
      decide
    simp [this]

theorem intBits_addControl (w : WellProductionControls) {k : Nat} (hk : k < 32) (j : Nat) :
    (intBits (w.addControl ((2 : Int) ^ k)).controls).testBit j
      = ((intBits w.controls).testBit j || decide (j = k)) := by
  rw [addControl_eq w hk, hasControl_two_pow w hk]
  cases h : (intBits w.controls).testBit k with
  | true =>
    simp only [if_true]
    by_cases hj : j = k
    · subst hj
      simp [h]
    · simp [hj]
  | false =>
    simp only [Bool.false_eq_true, if_false]
    have hlt : intBits w.controls + 2 ^ k < 4294967296 :=
      add_two_pow_lt (intBits_lt w.controls) hk h
    rw [intAdd, intBits_intOfBits, intBits_add, intBits_two_pow hk, Nat.mod_mod,
      Nat.mod_eq_of_lt hlt, testBit_add_two_pow k _ h j]

theorem intBits_skipControl (w : WellProductionControls) {k : Nat} (hk : k < 32) (j : Nat) :
    (intBits (w.skipControl ((2 : Int) ^ k)).controls).testBit j
      = ((intBits w.controls).testBit j && !decide (j = k)) := by
  rw [skipControl_eq w hk, hasControl_two_pow w hk]
  cases h : (intBits w.controls).testBit k with
  | false =>
    simp only [Bool.false_eq_true, if_false]
    by_cases hj : j = k
    · subst hj
      simp [h]
    · simp [hj]
  | true =>
    simp only [if_true]
    have hge : 2 ^ k ≤ intBits w.controls := Nat.testBit_implies_ge h
    have hlt := intBits_lt w.controls
    have hsub : intBits ((2 : Int) ^ k) ≤ intBits w.controls := by
      rw [intBits_two_pow hk]
      exact hge
    have hlt2 : intBits w.controls - 2 ^ k < 4294967296 :=
      lt_of_le_of_lt (Nat.sub_le _ _) hlt
    rw [intSub, intBits_intOfBits, intBits_sub hsub, intBits_two_pow hk,
      Nat.mod_eq_of_lt hlt2, testBit_sub_two_pow k _ h j]

theorem testBit_31 {p : Nat} (h1 : 2147483648 ≤ p) (h2 : p < 4294967296) :
    p.testBit 31 = true := by
  rw [Nat.testBit_to_div_mod]
  have : p / 2147483648 % 2 = 1 := by omega
  simpa using this

theorem intAdd_exact {c : Int} (h1 : -2147483648 ≤ c) (h2 : c < 2147483648) {k : Nat}
    (hk : k < 31) (h : (intBits c).testBit k = false) :
    intAdd c ((2 : Int) ^ k) = c + (2 : Int) ^ k := by
  have hpow : (2 : Nat) ^ k < 2 ^ 31 := Nat.pow_lt_pow_right (by decide) hk
  have hcast : ((2 : Int) ^ k) = (((2 : Nat) ^ k : Nat) : Int) := by push_cast; rfl
  have hpos : (0 : Int) ≤ (((2 : Nat) ^ k : Nat) : Int) := Int.ofNat_nonneg _
  have hup : c + (2 : Int) ^ k < 2147483648 := by
    by_cases hc : 0 ≤ c
    · have hb : intBits c < 2 ^ 31 := by
        unfold intBits
        omega
      have := add_two_pow_lt hb hk h
      have hbc : (intBits c : Int) = c := by
        unfold intBits
        omega
      rw [hcast, ← hbc]
      omega
    · rw [hcast]
      omega
  have hlow : -2147483648 ≤ c + (2 : Int) ^ k := by
    rw [hcast]
    omega
  exact intOfBits_intBits hlow hup

theorem intSub_exact {c : Int} (h1 : -2147483648 ≤ c) (h2 : c < 2147483648) {k : Nat}
    (hk : k < 31) (h : (intBits c).testBit k = true) :
    intSub c ((2 : Int) ^ k) = c - (2 : Int) ^ k := by
  have hpow : (2 : Nat) ^ k < 2 ^ 31 := Nat.pow_lt_pow_right (by decide) hk
  have hcast : ((2 : Int) ^ k) = (((2 : Nat) ^ k : Nat) : Int) := by push_cast; rfl
  have hpos : (0 : Int) ≤ (((2 : Nat) ^ k : Nat) : Int) := Int.ofNat_nonneg _
  have hge : 2 ^ k ≤ intBits c := Nat.testBit_implies_ge h
  have hlow : -2147483648 ≤ c - (2 : Int) ^ k := by
    by_cases hc : 0 ≤ c
    · have hbc : (intBits c : Int) = c := by
        unfold intBits
        omega
      rw [hcast, ← hbc]
      omega
    · have hbc : (intBits c : Int) = c + 4294967296 := by
        unfold intBits
        omega
      have hb31 : (intBits c).testBit 31 = true :=
        testBit_31 (by omega) (intBits_lt c)
      have hk31 : (31 : Nat) ≠ k := by omega
      have hbit : (intBits c - 2 ^ k).testBit 31 = true := by
        rw [testBit_sub_two_pow k _ h 31, hb31]
        simp [hk31]
      have hge2 : 2 ^ 31 ≤ intBits c - 2 ^ k := Nat.testBit_implies_ge hbit
      rw [hcast]
      omega
  have hup : c - (2 : Int) ^ k < 2147483648 := by
    rw [hcast]
    omega
  exact intOfBits_intBits hlow hup

theorem hasControl_clearControls (w : WellProductionControls) (m : Int) :
    w.clearControls.hasControl m = false := by
  have h : intAnd 0 m = 0 := by
    unfold intAnd
    rw [intOfBits_eq_zero_iff]
    have : intBits 0 = 0 := rfl
    rw [this, Nat.zero_and]
  simp [hasControl, clearControls, h]

/-- C30: `WellProductionControls` behaves as a set of control modes.  For every initial
value of `controls` and every mode whose integer value is the single bit `2^k`, `k < 31`:
`hasControl` is true after `addControl` and false after `skipControl`; after both,
`hasControl` of every other single-bit mode `2^j` is unchanged; `addControl` and
`skipControl` are idempotent; `hasControl` is false for every mode after `clearControls`.
When the initial value is in the range of `int`, the addition and the subtraction do not
overflow: `addControl` leaves `controls` or adds `2^k` to it, `skipControl` leaves
`controls` or subtracts `2^k` from it. -/
theorem controls_as_set (w : WellProductionControls) (k : Nat) (hk : k < 31) :
    (w.addControl ((2 : Int) ^ k)).hasControl ((2 : Int) ^ k) = true ∧
    (w.skipControl ((2 : Int) ^ k)).hasControl ((2 : Int) ^ k) = false ∧
    (∀ j, j < 31 → j ≠ k →
      (w.addControl ((2 : Int) ^ k)).hasControl ((2 : Int) ^ j)
          = w.hasControl ((2 : Int) ^ j) ∧
      (w.skipControl ((2 : Int) ^ k)).hasControl ((2 : Int) ^ j)
          = w.hasControl ((2 : Int) ^ j)) ∧
    (w.addControl ((2 : Int) ^ k)).addControl ((2 : Int) ^ k)
      = w.addControl ((2 : Int) ^ k) ∧
    (w.skipControl ((2 : Int) ^ k)).skipControl ((2 : Int) ^ k)
      = w.skipControl ((2 : Int) ^ k) ∧
    (∀ m, w.clearControls.hasControl m = false) ∧
    (-2147483648 ≤ w.controls → w.controls < 2147483648 →
      (w.addControl ((2 : Int) ^ k)).controls
          = (if w.hasControl ((2 : Int) ^ k) = true then w.controls
              else w.controls + (2 : Int) ^ k) ∧
      (w.skipControl ((2 : Int) ^ k)).controls
          = (if w.hasControl ((2 : Int) ^ k) = true then w.controls - (2 : Int) ^ k
              else w.controls)) := by
  have hk32 : k < 32 := by omega
  have hadd : (w.addControl ((2 : Int) ^ k)).hasControl ((2 : Int) ^ k) = true := by
    rw [hasControl_two_pow _ hk32, intBits_addControl w hk32]
    simp
  have hskip : (w.skipControl ((2 : Int) ^ k)).hasControl ((2 : Int) ^ k) = false := by
    rw [hasControl_two_pow _ hk32, intBits_skipControl w hk32]
    simp
  refine ⟨hadd, hskip, ?_, ?_, ?_, hasControl_clearControls w, ?_⟩
  · intro j hj hjk
    have hj32 : j < 32 := by omega
    rw [hasControl_two_pow _ hj32, hasControl_two_pow _ hj32, hasControl_two_pow _ hj32,
      intBits_addControl w hk32, intBits_skipControl w hk32]
    simp [hjk]
  · rw [addControl_eq _ hk32, hadd]
    rfl
  · rw [skipControl_eq _ hk32, hskip]
    rfl
  · intro h1 h2
    rw [addControl_eq w hk32, skipControl_eq w hk32]
    cases h : w.hasControl ((2 : Int) ^ k) with
    | true =>
      rw [hasControl_two_pow w hk32] at h
      simp [intSub_exact h1 h2 hk h]
    | false =>
      rw [hasControl_two_pow w hk32] at h
      simp [intAdd_exact h1 h2 hk h]

theorem controls_as_set_witness :
    (1 : Nat) < 31 ∧
    ((mk 5).addControl 2).controls = 7 ∧
    ((mk 5).skipControl 4).controls = 1 ∧
    ((mk (-1)).skipControl 4).controls = -5 ∧
    (((mk 5).addControl ((2 : Int) ^ 1)).hasControl ((2 : Int) ^ 1) = true ∧
      ((mk 5).skipControl ((2 : Int) ^ 1)).hasControl ((2 : Int) ^ 1) = false ∧
      (∀ j, j < 31 → j ≠ 1 →
        ((mk 5).addControl ((2 : Int) ^ 1)).hasControl ((2 : Int) ^ j)
            = (mk 5).hasControl ((2 : Int) ^ j) ∧
        ((mk 5).skipControl ((2 : Int) ^ 1)).hasControl ((2 : Int) ^ j)
            = (mk 5).hasControl ((2 : Int) ^ j)) ∧
      ((mk 5).addControl ((2 : Int) ^ 1)).addControl ((2 : Int) ^ 1)
        = (mk 5).addControl ((2 : Int) ^ 1) ∧
      ((mk 5).skipControl ((2 : Int) ^ 1)).skipControl ((2 : Int) ^ 1)
        = (mk 5).skipControl ((2 : Int) ^ 1) ∧
      (∀ m, (mk 5).clearControls.hasControl m = false) ∧
      (-2147483648 ≤ (mk 5).controls → (mk 5).controls < 2147483648 →
        ((mk 5).addControl ((2 : Int) ^ 1)).controls
            = (if (mk 5).hasControl ((2 : Int) ^ 1) = true then (mk 5).controls
                else (mk 5).controls + (2 : Int) ^ 1) ∧
        ((mk 5).skipControl ((2 : Int) ^ 1)).controls
            = (if (mk 5).hasControl ((2 : Int) ^ 1) = true
                then (mk 5).controls - (2 : Int) ^ 1
                else (mk 5).controls))) :=
  ⟨by decide, by decide, by decide, by decide, controls_as_set (mk 5) 1 (by decide)⟩

end WellProductionControls

end Opm
